import Mathlib

/-!
# tarfs: a shallow embedding of the tar filesystem translator

The C sources (`cache.c`, `fs.c`, `tarlist.c`, `tar.c`, `tarfs.c`) are embedded
as functions over an explicit heap: nodes and tar items live in lists indexed
by their address, pointers are `Option Nat`, byte strings are `List Nat`.

Conventions
* `Run α = Except Crash α`: a call either returns or the process stops
  (`assert` failure, an access outside an allocated object, `error (1, ...)`
  which exits, or the embedding's loop fuel ran out).
* C functions returning `error_t` return an `error_t` value inside `Run`
  together with the new state; `error_t.OK` is C's `0`.
* `size_t` and `long` are 32 bits wide (GNU Hurd on i386); the places where
  their wrap-around matters use `size_t_pred` (`size - 1` with `size = 0`) and
  `to_long` (the value from_oct gathers).
* Memory allocation (`calloc`, `realloc`, `strdup`) is assumed to succeed.
-/

namespace Tarfs

/-! ## Constants and small helpers -/

/-- CACHE_BLOCK_SIZE_LOG2 of cache.h. -/
def CACHE_BLOCK_SIZE_LOG2 : Nat := 10

/-- CACHE_BLOCK_SIZE of cache.h, `1 << CACHE_BLOCK_SIZE_LOG2`. -/
def CACHE_BLOCK_SIZE : Nat := 1 <<< CACHE_BLOCK_SIZE_LOG2

/-- RECORDSIZE of tar.h. -/
def RECORDSIZE : Nat := 512

/-- NAMSIZ of tar.h. -/
def NAMSIZ : Nat := 100

/-- BLOCK_NUMBER of cache.c: the block in which an offset lies. -/
def BLOCK_NUMBER (offset : Nat) : Nat := offset >>> CACHE_BLOCK_SIZE_LOG2

/-- BLOCK_RELATIVE_OFFSET of cache.c: the offset inside its block. -/
def BLOCK_RELATIVE_OFFSET (offset : Nat) : Nat := offset &&& (CACHE_BLOCK_SIZE - 1)

/-- The value of `x - 1` computed in `size_t` (32 bits): `0 - 1` wraps. -/
def size_t_pred (x : Nat) : Nat := (x + 2 ^ 32 - 1) % 2 ^ 32

/-- Ways in which a call does not return. -/
inductive Crash where
  | assertion
  | memory
  | fuel
  | exit
deriving DecidableEq, Repr

/-- A call that returns a value or stops the process. -/
abbrev Run (α : Type) := Except Crash α

/-- The error codes the sources use; `OK` is `0`. -/
inductive error_t where
  | OK
  | ENOMEM
  | EROFS
  | EISDIR
  | ENOTEMPTY
  | EBUSY
  | EEXIST
  | ENAMETOOLONG
  | EIO
  | ENOENT
  | ENOTDIR
  | EOPNOTSUPP
  | EFTYPE
deriving DecidableEq, Repr

deriving instance DecidableEq for Except

/-- C's `assert`. -/
def c_assert (b : Bool) : Run Unit := if b then pure () else throw Crash.assertion

/-! ## File-type bits of `st_mode` (octal values of the GNU C library) -/

def S_IFMT : Nat := 0o170000
def S_IFDIR : Nat := 0o040000
def S_IFCHR : Nat := 0o020000
def S_IFBLK : Nat := 0o060000
def S_IFREG : Nat := 0o100000
def S_IFLNK : Nat := 0o120000
def S_IFIFO : Nat := 0o010000

def S_ISDIR (m : Nat) : Bool := (m &&& S_IFMT) == S_IFDIR
def S_ISCHR (m : Nat) : Bool := (m &&& S_IFMT) == S_IFCHR
def S_ISBLK (m : Nat) : Bool := (m &&& S_IFMT) == S_IFBLK
def S_ISREG (m : Nat) : Bool := (m &&& S_IFMT) == S_IFREG
def S_ISLNK (m : Nat) : Bool := (m &&& S_IFMT) == S_IFLNK
def S_ISFIFO (m : Nat) : Bool := (m &&& S_IFMT) == S_IFIFO

/-! ## Data model -/

/-- The fields of `io_statbuf_t` the sources read or compute with. -/
structure io_statbuf_t where
  st_mode : Nat
  st_nlink : Nat
  st_size : Nat
  st_uid : Nat
  st_gid : Nat
  st_ino : Nat
  st_rdev : Nat
  st_atime : Int
  st_mtime : Int
  st_ctime : Int
deriving DecidableEq, Repr

/-- One slot of a cache's block vector (`char *`). -/
inductive slot where
  | null
  | uninit
  | block (data : List Nat)
deriving DecidableEq, Repr

/-- The `struct cache` of cache.h: the block vector; `size` is its length and a
NULL vector is the empty list. -/
structure cache where
  blocks : List slot
deriving DecidableEq, Repr

/-- The `struct tarfs_info` of tarfs.h. -/
structure tarfs_info where
  tar : Option Nat
  cache : cache
  stat_changed : Bool
deriving DecidableEq, Repr

/-- The `struct netnode` of backend.h. -/
structure netnode where
  name : Option (List Nat)
  symlink : Option (List Nat)
  hardlink : Option Nat
  entries : Option Nat
  dir : Option Nat
  info : Option tarfs_info
deriving DecidableEq, Repr

/-- What a node's `prevp` (a `struct node **`) points at. -/
inductive prevp_t where
  | null
  | entries_of (dir : Nat)
  | next_of (n : Nat)
  | dead_local
deriving DecidableEq, Repr

/-- The `struct node` of libnetfs, as far as the sources use it. -/
structure node where
  nn : Option netnode
  nn_stat : io_statbuf_t
  nn_translated : Nat
  next : Option Nat
  prevp : prevp_t
  references : Nat
deriving DecidableEq, Repr

/-- The `struct tar_item` of tarfs.h; `freed` marks an item released by
`tar_unlink_item_safe`. -/
structure tar_item where
  offset : Int
  orig_size : Nat
  node : Option Nat
  prev : Option Nat
  next : Option Nat
  freed : Bool
deriving DecidableEq, Repr

/-- The process state: the node and item heaps, the list head (`tar_list`),
the bytes of the backing store (`tar_file`), the options, the root node, and
the static `last_item` of `tarfs_add_header` and `id` of `_make_node`, and the
process's uid, gid and clock (the statics of fs.c). -/
structure tarfs where
  nodes : List node
  items : List tar_item
  tar_list : Option Nat
  tar_file : List Nat
  readonly : Bool
  netfs_root_node : Nat
  last_item : Option Nat
  next_ino : Nat
  uid : Nat
  gid : Nat
  curr_time : Int
deriving DecidableEq, Repr

/-! ## Heap access -/

def get_node (s : tarfs) (n : Nat) : Run node :=
  match s.nodes[n]? with
  | some x => pure x
  | none => throw Crash.memory

def get_nn (s : tarfs) (n : Nat) : Run netnode := do
  let x ← get_node s n
  match x.nn with
  | some nn => pure nn
  | none => throw Crash.memory

/-- NODE_INFO of tarfs.h. -/
def NODE_INFO (s : tarfs) (n : Nat) : Run tarfs_info := do
  let nn ← get_nn s n
  match nn.info with
  | some i => pure i
  | none => throw Crash.memory

def get_item (s : tarfs) (i : Nat) : Run tar_item :=
  match s.items[i]? with
  | some x => if x.freed then throw Crash.memory else pure x
  | none => throw Crash.memory

/-- The item `NODE_INFO (node)->tar` points to. -/
def node_tar (s : tarfs) (n : Nat) : Run tar_item := do
  let info ← NODE_INFO s n
  match info.tar with
  | some i => get_item s i
  | none => throw Crash.memory

def set_node (s : tarfs) (n : Nat) (x : node) : tarfs :=
  { s with nodes := s.nodes.set n x }

def set_item (s : tarfs) (i : Nat) (x : tar_item) : tarfs :=
  { s with items := s.items.set i x }

def set_stat (s : tarfs) (n : Nat) (st : io_statbuf_t) : Run tarfs := do
  let x ← get_node s n
  pure (set_node s n { x with nn_stat := st })

def set_nn (s : tarfs) (n : Nat) (nn : netnode) : Run tarfs := do
  let x ← get_node s n
  pure (set_node s n { x with nn := some nn })

def set_info (s : tarfs) (n : Nat) (i : tarfs_info) : Run tarfs := do
  let nn ← get_nn s n
  set_nn s n { nn with info := some i }

/-- Replace the block vector `CACHE_INFO (node, blocks)`. -/
def set_blocks (s : tarfs) (n : Nat) (b : List slot) : Run tarfs := do
  let i ← NODE_INFO s n
  set_info s n { i with cache := { blocks := b } }

def set_size (s : tarfs) (n : Nat) (size : Nat) : Run tarfs := do
  let x ← get_node s n
  pure (set_node s n { x with nn_stat := { x.nn_stat with st_size := size } })

/-! ## The backing store (libstore, an external collaborator)

The store is a byte sequence.  A read returns the bytes present in the
requested range (fewer at the end of the store).  A write that starts at or
beyond the end fails with `EIO` (the behaviour `tar_write` of tarfs.c relies
on); one that starts inside writes as much as fits. -/

def store_read (store : List Nat) (addr amount : Nat) : List Nat :=
  (store.drop addr).take amount

def store_write (store : List Nat) (addr : Nat) (buf : List Nat) :
    error_t × Nat × List Nat :=
  if store.length ≤ addr then (error_t.EIO, 0, store)
  else
    let n := min buf.length (store.length - addr)
    (error_t.OK, n, store.take addr ++ buf.take n ++ store.drop (addr + n))

def store_set_size (store : List Nat) (size : Nat) : List Nat :=
  store.take size ++ List.replicate (size - store.length) 0

/-- The cache's read callback `read_from_file` of tarfs.c: the bytes of the
store at `tar->offset + offset`, as many as are there. -/
def read_from_file (s : tarfs) (n : Nat) (offset howmuch : Nat) : Run (List Nat) := do
  let it ← node_tar s n
  let start := it.offset + (offset : Int)
  if start < 0 then throw Crash.memory
  else pure (store_read s.tar_file start.toNat howmuch)

/-! ## cache.c -/

/-- The function cache_create: a vector of NULL slots, one per block of the
node's size and at least one. -/
def cache_create (s : tarfs) (n : Nat) : Run (error_t × tarfs) := do
  let x ← get_node s n
  let size := x.nn_stat.st_size
  let blocks := if size ≠ 0 then BLOCK_NUMBER (size - 1) + 1 else 1
  let s ← set_blocks s n (List.replicate blocks slot.null)
  pure (error_t.OK, s)

/-- The function cache_free. -/
def cache_free (s : tarfs) (n : Nat) : Run (error_t × tarfs) := do
  let i ← NODE_INFO s n
  if i.cache.blocks.any (fun b => b == slot.uninit) then throw Crash.memory
  else
    let s ← set_blocks s n []
    pure (error_t.OK, s)

/-- The loop of __cache_synced over a block vector: `true` when no slot holds
a block; testing an uninitialised slot is an invalid access. -/
def synced_blocks : List slot → Run Bool
  | [] => pure true
  | slot.null :: rest => synced_blocks rest
  | slot.block _ :: _ => pure false
  | slot.uninit :: _ => throw Crash.memory

/-- The function __cache_synced (cache_synced is the same under the lock). -/
def __cache_synced (s : tarfs) (n : Nat) : Run Bool := do
  let i ← NODE_INFO s n
  synced_blocks i.cache.blocks

/-- The function alloc_block. -/
def alloc_block (s : tarfs) (n : Nat) (block : Nat) : Run (error_t × tarfs) := do
  let i ← NODE_INFO s n
  c_assert (decide (i.cache.blocks.length > block))
  match i.cache.blocks[block]? with
  | some slot.null =>
    let s ← set_blocks s n (i.cache.blocks.set block (slot.block (List.replicate CACHE_BLOCK_SIZE 0)))
    pure (error_t.OK, s)
  | some (slot.block _) => throw Crash.assertion
  | _ => throw Crash.memory

/-- Copy `src` into `dst` at position `at`, as `memcpy (&dst[at], src, len)`
does when the range lies inside `dst`. -/
def memcpy_into (dst : List Nat) (pos : Nat) (src : List Nat) : List Nat :=
  dst.take pos ++ src ++ dst.drop (pos + src.length)

/-- The function fetch_block. -/
def fetch_block (s : tarfs) (n : Nat) (block : Nat) : Run (error_t × tarfs) := do
  let it ← node_tar s n
  let size := it.orig_size
  c_assert (decide (block ≤ BLOCK_NUMBER (size_t_pred size)))
  let i ← NODE_INFO s n
  match i.cache.blocks[block]? with
  | some slot.null => pure ()
  | some (slot.block _) => throw Crash.assertion
  | _ => throw Crash.memory
  let (err, s) ← alloc_block s n block
  if err ≠ error_t.OK then pure (err, s)
  else
    let read := if block = BLOCK_NUMBER (size_t_pred size) then size % CACHE_BLOCK_SIZE
                else CACHE_BLOCK_SIZE
    let data ← read_from_file s n (block <<< CACHE_BLOCK_SIZE_LOG2) read
    c_assert (decide (data.length = read))
    let i ← NODE_INFO s n
    match i.cache.blocks[block]? with
    | some (slot.block b) =>
      let s ← set_blocks s n (i.cache.blocks.set block (slot.block (memcpy_into b 0 data)))
      pure (error_t.OK, s)
    | _ => throw Crash.memory

/-- The `while (size > 0)` loop of cache_read; `acc` is what has been copied
to the caller's buffer so far. -/
def cache_read_loop (s : tarfs) (n : Nat) (start : Int) (blocks : List slot) :
    Nat → Nat → Nat → Nat → List Nat → Run (error_t × List Nat)
  | 0, _, _, _, _ => throw Crash.fuel
  | fuel + 1, block, offset, size, acc =>
    if size = 0 then pure (error_t.OK, acc)
    else do
      let read := if size > CACHE_BLOCK_SIZE then CACHE_BLOCK_SIZE - offset else size
      let present : Option (List Nat) ←
        (match blocks[block]? with
         | some (slot.block b) => pure (some b)
         | some slot.uninit => throw Crash.memory
         | _ => pure none)
      match present with
      | some b =>
        if offset + read ≤ b.length then
          cache_read_loop s n start blocks fuel (block + 1) 0 (size - read)
            (acc ++ (b.drop offset).take read)
        else throw Crash.memory
      | none =>
        if start ≠ -1 then do
          let data ← read_from_file s n ((block <<< CACHE_BLOCK_SIZE_LOG2) + offset) read
          c_assert (decide (data.length = read))
          cache_read_loop s n start blocks fuel (block + 1) 0 (size - read) (acc ++ data)
        else
          cache_read_loop s n start blocks fuel (block + 1) 0 (size - read)
            (acc ++ List.replicate read 0)

/-- The body of cache_read: the error and the bytes put in the caller's
buffer (their number is `*len`).  `hops` bounds the redirections through
`hardlink`. -/
def cache_read_hops (s : tarfs) (n : Nat) (offset amount : Nat) :
    Nat → Run (error_t × List Nat)
  | 0 => throw Crash.fuel
  | hops + 1 => do
    let it ← node_tar s n
    let start := it.offset
    let x ← get_node s n
    let size := x.nn_stat.st_size
    let block := BLOCK_NUMBER offset
    let nn ← get_nn s n
    match nn.hardlink with
    | some target => cache_read_hops s target offset amount hops
    | none =>
      c_assert nn.symlink.isNone
      if offset ≥ size then pure (error_t.OK, [])
      else
        let i ← NODE_INFO s n
        let size := size - offset
        let size := if size > amount then amount else size
        cache_read_loop s n start i.cache.blocks (size + 1) block
          (BLOCK_RELATIVE_OFFSET offset) size []

/-- The function cache_read. -/
def cache_read (s : tarfs) (n : Nat) (offset amount : Nat) : Run (error_t × List Nat) :=
  cache_read_hops s n offset amount (s.nodes.length + 1)

/-- The function __cache_set_size (cache_set_size is the same under the lock). -/
def __cache_set_size (s : tarfs) (n : Nat) (size : Nat) : Run (error_t × tarfs) := do
  let newsize := if size ≠ 0 then BLOCK_NUMBER (size - 1) + 1 else 0
  let x ← get_node s n
  let i ← NODE_INFO s n
  let blocks := i.cache.blocks
  if size > x.nn_stat.st_size then
    let s ← (if newsize > blocks.length then
               set_blocks s n (blocks ++ List.replicate (newsize - blocks.length) slot.null)
             else pure s)
    let s ← set_size s n size
    pure (error_t.OK, s)
  else
    if (blocks.drop newsize).any (fun b => b == slot.uninit) then throw Crash.memory
    else
      let s ← set_blocks s n
        (blocks.take newsize ++ List.replicate (newsize - blocks.length) slot.uninit)
      let s ← set_size s n size
      pure (error_t.OK, s)

/-- The function cache_set_size. -/
def cache_set_size (s : tarfs) (n : Nat) (size : Nat) : Run (error_t × tarfs) :=
  __cache_set_size s n size

/-- The function cache_synced. -/
def cache_synced (s : tarfs) (n : Nat) : Run Bool :=
  __cache_synced s n

/-- The `while ((!err) && (size > 0))` loop of cache_write; returns the error,
what is left of `size`, and the state. -/
def cache_write_loop (n : Nat) (ondisk : Bool) (last_block : Nat) :
    Nat → tarfs → Nat → Nat → List Nat → Run (error_t × Nat × tarfs)
  | 0, _, _, _, _ => throw Crash.fuel
  | fuel + 1, s, block, offset, data =>
    if data.length = 0 then pure (error_t.OK, 0, s)
    else do
      let size := data.length
      let write := if size + offset > CACHE_BLOCK_SIZE then CACHE_BLOCK_SIZE - offset else size
      let i ← NODE_INFO s n
      let (err, s) ←
        (match i.cache.blocks[block]? with
         | some (slot.block _) => pure (error_t.OK, s)
         | some slot.null =>
           if ondisk && decide (block ≤ last_block) then fetch_block s n block
           else alloc_block s n block
         | _ => throw Crash.memory)
      if err ≠ error_t.OK then pure (err, size, s)
      else
        let i ← NODE_INFO s n
        match i.cache.blocks[block]? with
        | some (slot.block b) =>
          let s ← set_blocks s n
            (i.cache.blocks.set block (slot.block (memcpy_into b offset (data.take write))))
          cache_write_loop n ondisk last_block fuel s (block + 1) 0 (data.drop write)
        | _ => throw Crash.memory

/-- The function cache_write: the error, `*amount`, and the state. -/
def cache_write (s : tarfs) (n : Nat) (offset : Nat) (data : List Nat) :
    Run (error_t × Nat × tarfs) := do
  let len := data.length
  let block := BLOCK_NUMBER offset
  let nn ← get_nn s n
  c_assert nn.hardlink.isNone
  c_assert nn.symlink.isNone
  let newsize := offset + len
  let x ← get_node s n
  let synced ← __cache_synced s n
  let (err, s) ← (if synced || decide (newsize > x.nn_stat.st_size) then
                    __cache_set_size s n newsize
                  else pure (error_t.OK, s))
  let it ← node_tar s n
  let ondisk := decide (it.offset ≥ 0)
  let last_block := BLOCK_NUMBER (size_t_pred it.orig_size)
  if err ≠ error_t.OK then pure (err, 0, s)
  else
    let (err, size, s) ←
      cache_write_loop n ondisk last_block (len + 1) s block (BLOCK_RELATIVE_OFFSET offset) data
    pure (err, len - size, s)

/-- The `for (b = 0; b < block; b++)` loop of cache_cache, from `b` on. -/
def cache_cache_loop (n : Nat) (block : Nat) :
    Nat → tarfs → Nat → Run (error_t × tarfs)
  | 0, _, _ => throw Crash.fuel
  | fuel + 1, s, b =>
    if b < block then do
      let i ← NODE_INFO s n
      match i.cache.blocks[b]? with
      | some (slot.block _) => cache_cache_loop n block fuel s (b + 1)
      | some slot.null =>
        let (err, s) ← fetch_block s n b
        if err ≠ error_t.OK then pure (err, s)
        else cache_cache_loop n block fuel s (b + 1)
      | _ => throw Crash.memory
    else pure (error_t.OK, s)

/-- The function cache_cache. -/
def cache_cache (s : tarfs) (n : Nat) (amount : Nat) : Run (error_t × tarfs) := do
  let block := BLOCK_NUMBER (size_t_pred amount) + 1
  let x ← get_node s n
  c_assert (decide (amount ≤ x.nn_stat.st_size))
  let i ← NODE_INFO s n
  let (_, s) ← (if block ≥ i.cache.blocks.length then __cache_set_size s n amount
                else pure (error_t.OK, s))
  cache_cache_loop n block (block + 1) s 0

/-! ## libnetfs reference counting (an external collaborator)

`netfs_make_node` returns a node holding one reference, `netfs_nref` adds one,
`netfs_nput` drops one and calls `netfs_node_norefs` (netfs.c: the backend's
`free_node`) when none is left. -/

/-- The function netfs_nref. -/
def netfs_nref (s : tarfs) (n : Nat) : Run tarfs := do
  let x ← get_node s n
  pure (set_node s n { x with references := x.references + 1 })

/-- The function fs_free_node of fs.c: the netnode is released. -/
def fs_free_node (s : tarfs) (n : Nat) : Run tarfs := do
  let x ← get_node s n
  c_assert x.nn.isSome
  pure (set_node s n { x with nn := none })

/-- The function tarfs_free_node of tarfs.c. -/
def tarfs_free_node (s : tarfs) (n : Nat) : Run tarfs := do
  let info ← NODE_INFO s n
  let (_, s) ← cache_free s n
  let s ← fs_free_node s n
  match info.tar with
  | none => throw Crash.memory
  | some t =>
    let it ← get_item s t
    pure (set_item s t { it with node := none })

/-- The function netfs_nput, with netfs_node_norefs of netfs.c. -/
def netfs_nput (s : tarfs) (n : Nat) : Run tarfs := do
  let x ← get_node s n
  let s := set_node s n { x with references := x.references - 1 }
  if x.references - 1 = 0 then tarfs_free_node s n else pure s

/-! ## fs.c -/

/-- SUBST_SLASH of backend.h, the character `|`. -/
def SUBST_SLASH : Nat := 124

/-- The character `/`. -/
def SLASH : Nat := 47

/-- The character `.`. -/
def DOT : Nat := 46

/-- The function filter_node_name (SUBST_LOWER is not defined). -/
def filter_node_name (name : Option (List Nat)) : Option (List Nat) :=
  name.map (fun s => s.map (fun c => if c = SLASH then SUBST_SLASH else c))

/-- The search loop of _find_node over a chain of `next` pointers. -/
def find_in_entries (s : tarfs) (name : List Nat) : Nat → Option Nat → Run (Option Nat)
  | 0, _ => throw Crash.fuel
  | _ + 1, none => pure none
  | fuel + 1, some n => do
    let x ← get_node s n
    let nn ← get_nn s n
    if nn.name = some name then pure (some n)
    else find_in_entries s name fuel x.next

/-- The function _find_node (fs_find_node is the same). -/
def _find_node (s : tarfs) (dir : Nat) (name : Option (List Nat)) : Run (Option Nat) :=
  match name with
  | none => pure none
  | some nm => do
    let d ← get_nn s dir
    let special : Option Nat :=
      if nm = [DOT] then some dir
      else if nm = [DOT, DOT] then d.dir
      else none
    match special with
    | some n => pure (some n)
    | none => find_in_entries s nm (s.nodes.length + 1) d.entries

/-- The function fs_find_node. -/
def fs_find_node (s : tarfs) (dir : Nat) (name : Option (List Nat)) : Run (Option Nat) :=
  _find_node s dir name

/-- The last node of a chain of `next` pointers (`for (p = ...; p->next; p = p->next);`). -/
def last_entry_from (s : tarfs) : Nat → Nat → Run Nat
  | 0, _ => throw Crash.fuel
  | fuel + 1, p => do
    let x ← get_node s p
    match x.next with
    | none => pure p
    | some q => last_entry_from s fuel q

/-- The result of fshelp_touch with all three TOUCH flags. -/
def touch (st : io_statbuf_t) (now : Int) : io_statbuf_t :=
  { st with st_atime := now, st_ctime := now, st_mtime := now }

/-- The function _make_node; returns the new node. -/
def _make_node (s : tarfs) (dir : Option Nat) (name : Option (List Nat)) (m : Nat) :
    Run (error_t × Nat × tarfs) := do
  let new := s.nodes.length
  let st : io_statbuf_t :=
    { st_mode := m, st_nlink := if S_ISDIR m then 2 else 1, st_size := 0,
      st_uid := s.uid, st_gid := s.gid, st_ino := s.next_ino, st_rdev := 0,
      st_atime := 0, st_mtime := 0, st_ctime := 0 }
  let nn : netnode :=
    { name := filter_node_name name, symlink := none, hardlink := none,
      entries := none, dir := none, info := none }
  let x : node :=
    { nn := some nn, nn_stat := st, nn_translated := m, next := none,
      prevp := prevp_t.null, references := 1 }
  let s := { s with nodes := s.nodes ++ [x], next_ino := s.next_ino + 1 }
  let s ← (match dir with
    | none => pure s
    | some d => do
      let s ← netfs_nref s d
      let dn ← get_nn s d
      let s ← (match dn.entries with
        | some first => do
          let p ← last_entry_from s (s.nodes.length + 1) first
          let px ← get_node s p
          let s := set_node s p { px with next := some new }
          let nx ← get_node s new
          pure (set_node s new { nx with prevp := prevp_t.next_of p })
        | none => do
          let s ← set_nn s d { dn with entries := some new }
          let nx ← get_node s new
          pure (set_node s new { nx with prevp := prevp_t.entries_of d }))
      let nnn ← get_nn s new
      let s ← set_nn s new { nnn with dir := some d }
      let dx ← get_node s d
      let mode := dx.nn_stat.st_mode ||| S_IFDIR
      let nlink := if S_ISDIR m then dx.nn_stat.st_nlink + 1 else dx.nn_stat.st_nlink
      pure (set_node s d { dx with nn_stat := { dx.nn_stat with st_mode := mode, st_nlink := nlink } }))
  let nx ← get_node s new
  let s := set_node s new { nx with nn_stat := touch nx.nn_stat s.curr_time }
  pure (error_t.OK, new, s)

/-- The function fs_make_node; returns the error and the node put in `*n`. -/
def fs_make_node (s : tarfs) (dir : Option Nat) (name : Option (List Nat)) (m : Nat) :
    Run (error_t × Option Nat × tarfs) := do
  let found ← (match dir with
    | some d => _find_node s d name
    | none => pure none)
  match found with
  | some n => pure (error_t.EEXIST, some n, s)
  | none =>
    let m := if (m &&& S_IFMT) ≠ 0 then m else m ||| S_IFREG
    let (err, new, s) ← _make_node s dir name m
    pure (err, some new, s)

/-- C's strtok_r with the delimiter `/` on the rest of a string: the token (or
NULL) and the new save pointer. -/
def strtok_r (str : List Nat) : Option (List Nat) × List Nat :=
  let t := str.dropWhile (fun c => c == SLASH)
  if t.isEmpty then (none, [])
  else (some (t.takeWhile (fun c => c != SLASH)), (t.dropWhile (fun c => c != SLASH)).drop 1)

/-- The `while (node && name)` loop of fs_find_node_path: returns `node`,
`name`, `str` and `*n` as the loop leaves them. -/
def find_path_loop (s : tarfs) :
    Nat → Option Nat → Option (List Nat) → List Nat → Nat →
      Run (Option Nat × Option (List Nat) × List Nat × Nat)
  | 0, _, _, _, _ => throw Crash.fuel
  | fuel + 1, node, name, str, n =>
    match node, name with
    | some _, some nm => do
      let found ← _find_node s n (some nm)
      match found with
      | some f =>
        let (name, str) := strtok_r str
        find_path_loop s fuel (some f) name str f
      | none => pure (none, some nm, str, n)
    | _, _ => pure (node, name, str, n)

/-- The function fs_find_node_path: returns `*n`, `*retry_name` and
`*notfound`. -/
def fs_find_node_path (s : tarfs) (n : Option Nat) (path : List Nat) :
    Run (Nat × Option (List Nat) × Option (List Nat)) := do
  let n := n.getD s.netfs_root_node
  let (name, str) := strtok_r path
  let (node, name, str, n) ← find_path_loop s (path.length + 2) (some n) name str n
  if str.isEmpty then
    match node with
    | none =>
      c_assert (name.isSome && name != some [])
      pure (n, none, name)
    | some _ => pure (n, none, none)
  else do
    c_assert (name.isSome && name != some [])
    pure (n, some str, name)

/-- The names on the way from `node` up to `root`, innermost first (the loop of
fs_get_path_from_root). -/
def names_to_root (s : tarfs) (root : Nat) : Nat → Option Nat → Run (List (List Nat))
  | 0, _ => throw Crash.fuel
  | _ + 1, none => pure []
  | fuel + 1, some n =>
    if n = root then pure []
    else do
      let nn ← get_nn s n
      match nn.name with
      | none => throw Crash.memory
      | some nm =>
        let rest ← names_to_root s root fuel nn.dir
        pure (nm :: rest)

/-- The function fs_get_path_from_root: the names from below `root` down to
`node`, joined by `/`. -/
def fs_get_path_from_root (s : tarfs) (root : Nat) (n : Nat) : Run (List Nat) := do
  let names ← names_to_root s root (s.nodes.length + 1) (some n)
  pure (List.intercalate [SLASH] names.reverse)

/-- The function fs_link_node_path. -/
def fs_link_node_path (s : tarfs) (n : Nat) (target : List Nat) : Run (error_t × tarfs) := do
  let x ← get_node s n
  let s := set_node s n
    { x with nn_stat := { x.nn_stat with st_mode := x.nn_stat.st_mode ||| S_IFLNK },
             nn_translated := x.nn_translated ||| S_IFLNK }
  let nn ← get_nn s n
  let s ← set_nn s n { nn with symlink := some target }
  let s ← set_size s n target.length
  pure (error_t.OK, s)

/-- The function fs_hard_link_node; returns the new node. -/
def fs_hard_link_node (s : tarfs) (dir : Option Nat) (name : Option (List Nat)) (m : Nat)
    (target : Nat) : Run (error_t × Nat × tarfs) := do
  let new := s.nodes.length
  let tx ← get_node s target
  let s := set_node s target
    { tx with nn_stat := { tx.nn_stat with st_nlink := tx.nn_stat.st_nlink + 1 } }
  let s ← netfs_nref s target
  let tx ← get_node s target
  let tnn ← get_nn s target
  let x : node :=
    { nn := some { tnn with name := name, hardlink := some target },
      nn_stat := { tx.nn_stat with st_mode := m, st_nlink := tx.nn_stat.st_nlink - 1 },
      nn_translated := m, next := none, prevp := prevp_t.null, references := 1 }
  let s := { s with nodes := s.nodes ++ [x] }
  let s ← (match dir with
    | none => pure s
    | some d => do
      let s ← netfs_nref s d
      let dn ← get_nn s d
      let s ← (match dn.entries with
        | some first => do
          let p ← last_entry_from s (s.nodes.length + 1) first
          let nx ← get_node s new
          let s := set_node s new { nx with prevp := prevp_t.dead_local }
          let px ← get_node s p
          pure (set_node s p { px with next := some new })
        | none => set_nn s d { dn with entries := some new })
      let nnn ← get_nn s new
      let s ← set_nn s new { nnn with dir := some d }
      let dx ← get_node s d
      pure (set_node s d
        { dx with nn_stat := { dx.nn_stat with st_mode := dx.nn_stat.st_mode ||| S_IFDIR } }))
  let nx ← get_node s new
  let s := set_node s new { nx with nn_stat := touch nx.nn_stat s.curr_time }
  pure (error_t.OK, new, s)

/-- The function fs_unlink_node. -/
def fs_unlink_node (s : tarfs) (n : Nat) : Run (error_t × tarfs) := do
  let x ← get_node s n
  let nn ← get_nn s n
  let dir := nn.dir
  let next := x.next
  if nn.entries.isSome then pure (error_t.ENOTEMPTY, s)
  else if S_ISDIR x.nn_stat.st_mode && decide (x.nn_stat.st_nlink > 2) then
    pure (error_t.EBUSY, s)
  else if !S_ISDIR x.nn_stat.st_mode && decide (x.nn_stat.st_nlink > 1) then
    pure (error_t.EBUSY, s)
  else do
    let s ← (match x.prevp with
      | prevp_t.null => throw Crash.assertion
      | prevp_t.dead_local => throw Crash.memory
      | prevp_t.entries_of d => do
        let dn ← get_nn s d
        if dn.entries.isSome then set_nn s d { dn with entries := next } else pure s
      | prevp_t.next_of p => do
        let px ← get_node s p
        if px.next.isSome then pure (set_node s p { px with next := next }) else pure s)
    let s ← (match next with
      | some q => do
        let qx ← get_node s q
        pure (set_node s q { qx with prevp := x.prevp })
      | none => pure s)
    let s ← (match nn.hardlink with
      | some t => do
        let tx ← get_node s t
        let s := set_node s t
          { tx with nn_stat := { tx.nn_stat with st_nlink := tx.nn_stat.st_nlink - 1 } }
        netfs_nput s t
      | none => pure s)
    let s ← (match dir with
      | some d =>
        if S_ISDIR x.nn_stat.st_mode then do
          let dx ← get_node s d
          pure (set_node s d
            { dx with nn_stat := { dx.nn_stat with st_nlink := dx.nn_stat.st_nlink - 1 } })
        else pure s
      | none => pure s)
    let s ← netfs_nput s n
    match dir with
    | some d =>
      let s ← netfs_nput s d
      pure (error_t.OK, s)
    | none => throw Crash.memory

/-! ## tarlist.c -/

/-- The function tar_make_item; returns the new item. -/
def tar_make_item (s : tarfs) (n : Nat) (orig_size : Nat) (offset : Int) :
    Run (error_t × Nat × tarfs) := do
  let new := s.items.length
  let it : tar_item :=
    { offset := offset, orig_size := orig_size, node := some n, prev := none, next := none,
      freed := false }
  let s := { s with items := s.items ++ [it] }
  let info ← NODE_INFO s n
  let s ← set_info s n { info with tar := some new }
  pure (error_t.OK, new, s)

/-- The function tar_insert_item. -/
def tar_insert_item (s : tarfs) (prev : Option Nat) (new : Nat) : Run (error_t × tarfs) := do
  c_assert (prev != some new)
  let (s, prev, next) ← (match prev with
    | none =>
      match s.tar_list with
      | none => pure ({ s with tar_list := some new }, none, none)
      | some h => do
        let hx ← get_item s h
        pure (set_item s h { hx with next := some new }, some h, hx.next)
    | some p => do
      let px ← get_item s p
      pure (set_item s p { px with next := some new }, some p, px.next))
  let nx ← get_item s new
  let s := set_item s new { nx with prev := prev, next := next }
  match next with
  | some q =>
    let qx ← get_item s q
    pure (error_t.OK, set_item s q { qx with prev := some new })
  | none => pure (error_t.OK, s)

/-- The function tar_unlink_item_safe (tar_unlink_item is the same under the
list lock). -/
def tar_unlink_item_safe (s : tarfs) (item : Nat) : Run tarfs := do
  let it ← get_item s item
  c_assert it.node.isNone
  c_assert s.tar_list.isSome
  let s ← (match it.prev with
    | none => do
      let s := { s with tar_list := it.next }
      match it.next with
      | some h =>
        let hx ← get_item s h
        pure (set_item s h { hx with prev := none })
      | none => pure s
    | some p => do
      let px ← get_item s p
      let s := set_item s p { px with next := it.next }
      match it.next with
      | some q =>
        let qx ← get_item s q
        pure (set_item s q { qx with prev := some p })
      | none => pure s)
  let it ← get_item s item
  pure (set_item s item { it with freed := true })

/-- The function tar_unlink_item. -/
def tar_unlink_item (s : tarfs) (item : Nat) : Run tarfs :=
  tar_unlink_item_safe s item

/-- The first loop of tar_put_item: the last entry of the directory, stepping
over `node`. -/
def put_item_last (s : tarfs) (n : Nat) : Nat → Nat → Run Nat
  | 0, _ => throw Crash.fuel
  | fuel + 1, last_entry => do
    let x ← get_node s last_entry
    match x.next with
    | none => pure last_entry
    | some next =>
      if next = n then do
        let nx ← get_node s n
        match nx.next with
        | some next => put_item_last s n fuel next
        | none => pure last_entry
      else put_item_last s n fuel next

/-- The second loop of tar_put_item: the last node of the deepest
subdirectory. -/
def put_item_deepest (s : tarfs) : Nat → Nat → Run Nat
  | 0, _ => throw Crash.fuel
  | fuel + 1, last_entry => do
    let x ← get_node s last_entry
    let nn ← get_nn s last_entry
    match S_ISDIR x.nn_stat.st_mode, nn.entries with
    | true, some first => do
      let l ← last_entry_from s (s.nodes.length + 1) first
      put_item_deepest s fuel l
    | _, _ => pure last_entry

/-- The function tar_put_item; returns `*prev_tar`. -/
def tar_put_item (s : tarfs) (tar : Nat) : Run (Option Nat) := do
  let it ← get_item s tar
  match it.node with
  | none => throw Crash.assertion
  | some n => do
    let nn ← get_nn s n
    match nn.dir with
    | none => throw Crash.memory
    | some dir => do
      let dn ← get_nn s dir
      let last_entry : Option Nat ← (match dn.entries with
        | none => pure none
        | some first => do
          let l ← put_item_last s n (s.nodes.length + 1) first
          if l = n then pure none
          else do
            let d ← put_item_deepest s (s.nodes.length + 1) l
            pure (some d))
      match last_entry with
      | some l =>
        if l ≠ n then do
          let info ← NODE_INFO s l
          c_assert info.tar.isSome
          pure info.tar
        else if dir = s.netfs_root_node then pure none
        else do
          let info ← NODE_INFO s dir
          pure info.tar
      | none =>
        if dir = s.netfs_root_node then pure none
        else do
          let info ← NODE_INFO s dir
          pure info.tar

/-! ## tarfs.c: the backend operations -/

/-- NEW_NODE_INFO of tarfs.h: a zeroed `struct tarfs_info`. -/
def NEW_NODE_INFO (s : tarfs) (n : Nat) : Run tarfs := do
  let nn ← get_nn s n
  set_nn s n { nn with info := some { tar := none, cache := { blocks := [] }, stat_changed := false } }

/-- The function tarfs_read_node: the error and the bytes read. -/
def tarfs_read_node (s : tarfs) (n : Nat) (offset len : Nat) : Run (error_t × List Nat) := do
  let x ← get_node s n
  if S_ISDIR x.nn_stat.st_mode then pure (error_t.EISDIR, [])
  else cache_read s n offset len

/-- The function tarfs_write_node: the error, `*len` on return, and the state. -/
def tarfs_write_node (s : tarfs) (n : Nat) (offset : Nat) (data : List Nat) :
    Run (error_t × Nat × tarfs) :=
  if s.readonly then pure (error_t.EROFS, data.length, s)
  else do
    let x ← get_node s n
    if S_ISDIR x.nn_stat.st_mode then pure (error_t.EISDIR, 0, s)
    else do
      let nn ← get_nn s n
      let what := nn.hardlink.getD n
      let (err, amount, s) ← cache_write s n offset data
      if err = error_t.OK ∧ what ≠ n then do
        let wx ← get_node s what
        let s ← set_size s n wx.nn_stat.st_size
        pure (err, amount, s)
      else pure (err, amount, s)

/-- The function tarfs_change_stat. -/
def tarfs_change_stat (s : tarfs) (n : Nat) (st : io_statbuf_t) : Run (error_t × tarfs) := do
  let nn ← get_nn s n
  let what := nn.hardlink.getD n
  if s.readonly then pure (error_t.EROFS, s)
  else do
    let wx ← get_node s what
    let (err, s) ← (if st.st_size ≠ wx.nn_stat.st_size then cache_set_size s what st.st_size
                    else pure (error_t.OK, s))
    if err ≠ error_t.OK then pure (err, s)
    else do
      let s ← set_stat s what st
      let wi ← NODE_INFO s what
      let s ← set_info s what { wi with stat_changed := true }
      if what ≠ n then do
        let wx ← get_node s what
        let s ← set_stat s n wx.nn_stat
        let ni ← NODE_INFO s n
        let s ← set_info s n { ni with stat_changed := true }
        pure (error_t.OK, s)
      else pure (error_t.OK, s)

/-- The function tarfs_create_node: the error, `*newnode`, and the state. -/
def tarfs_create_node (s : tarfs) (dir : Nat) (name : Option (List Nat)) (mode : Nat) :
    Run (error_t × Option Nat × tarfs) :=
  if s.readonly then pure (error_t.EROFS, none, s)
  else
    match name with
    | none => do
      let (err, new, s) ← fs_make_node s (some dir) none mode
      match new with
      | none => throw Crash.memory
      | some n =>
        let s ← (if err = error_t.OK then NEW_NODE_INFO s n else pure s)
        let (err, s) ← cache_create s n
        pure (err, some n, s)
    | some nm => do
      let path ← fs_get_path_from_root s s.netfs_root_node dir
      if nm.length + path.length + 1 > NAMSIZ then pure (error_t.ENAMETOOLONG, none, s)
      else do
        let (err, new, s) ← fs_make_node s (some dir) (some nm) mode
        match err, new with
        | error_t.OK, some n => do
          let s ← NEW_NODE_INFO s n
          let (err, s) ← cache_create s n
          if err = error_t.OK then do
            let (_, tar, s) ← tar_make_item s n 0 (-1)
            let prev_tar ← tar_put_item s tar
            let (_, s) ← tar_insert_item s prev_tar tar
            pure (err, some n, s)
          else pure (err, some n, s)
        | _, _ => pure (err, new, s)

/-- The function tarfs_unlink_node. -/
def tarfs_unlink_node (s : tarfs) (n : Nat) : Run (error_t × tarfs) := do
  let info ← NODE_INFO s n
  if s.readonly then pure (error_t.EROFS, s)
  else do
    let (err, s) ← fs_unlink_node s n
    if err ≠ error_t.OK then pure (err, s)
    else
      match info.tar with
      | none => throw Crash.memory
      | some t => do
        let it ← get_item s t
        if it.offset = -1 then do
          let s ← tar_unlink_item s t
          pure (err, s)
        else pure (err, s)

/-- The loop `for (t = NODE_INFO(target)->tar; t && (t != prev_tar); t = t->next);`
of tarfs_link_node; returns `t`. -/
def link_scan (s : tarfs) (prev_tar : Option Nat) : Nat → Option Nat → Run (Option Nat)
  | 0, _ => throw Crash.fuel
  | _ + 1, none => pure none
  | fuel + 1, some t =>
    if some t = prev_tar then pure (some t)
    else do
      let tx ← get_item s t
      link_scan s prev_tar fuel tx.next

/-- The function tarfs_link_node. -/
def tarfs_link_node (s : tarfs) (dir : Nat) (target : Nat) (name : List Nat) (excl : Bool) :
    Run (error_t × tarfs) := do
  let found ← fs_find_node s dir (some name)
  if found.isSome then pure (if excl then error_t.EEXIST else error_t.OK, s)
  else do
    let tnn ← get_nn s target
    match tnn.name with
    | none => do
      let s ← set_nn s target { tnn with name := some name }
      let (_, tar, s) ← tar_make_item s target 0 (-1)
      let prev_tar ← tar_put_item s tar
      let (_, s) ← tar_insert_item s prev_tar tar
      let info ← NODE_INFO s target
      let s ← set_info s target { info with tar := some tar }
      pure (error_t.OK, s)
    | some _ => do
      let tx ← get_node s target
      let (_, new, s) ← fs_hard_link_node s (some dir) (some name) tx.nn_stat.st_mode target
      let s ← NEW_NODE_INFO s new
      let (_, tar, s) ← tar_make_item s new 0 (-1)
      let prev_tar ← tar_put_item s tar
      let tinfo ← NODE_INFO s target
      let t ← link_scan s prev_tar (s.items.length + 1) tinfo.tar
      let ninfo ← NODE_INFO s new
      let prev_tar := if t.isNone then ninfo.tar else prev_tar
      let (_, s) ← tar_insert_item s prev_tar tar
      let info ← NODE_INFO s new
      let s ← set_info s new { info with tar := some tar }
      pure (error_t.OK, s)

/-- The function tarfs_symlink_node. -/
def tarfs_symlink_node (s : tarfs) (n : Nat) (target : List Nat) : Run (error_t × tarfs) :=
  fs_link_node_path s n target

/-! ## tar.c: the record codec

A record (`tar_record_t`) is its 512 bytes; the fields of `struct header` are
byte ranges of it. -/

def OFF_name : Nat := 0
def OFF_mode : Nat := 100
def OFF_uid : Nat := 108
def OFF_gid : Nat := 116
def OFF_size : Nat := 124
def OFF_mtime : Nat := 136
def OFF_chksum : Nat := 148
def OFF_linkflag : Nat := 156
def OFF_linkname : Nat := 157
def OFF_magic : Nat := 257
def OFF_uname : Nat := 265
def OFF_gname : Nat := 297
def OFF_devmajor : Nat := 329
def OFF_devminor : Nat := 337
def OFF_atime : Nat := 345
def OFF_ctime : Nat := 357
def OFF_isextended : Nat := 482
def OFF_ext_isextended : Nat := 504

def LF_OLDNORMAL : Nat := 0
def LF_NORMAL : Nat := 48
def LF_LINK : Nat := 49
def LF_SYMLINK : Nat := 50
def LF_CHR : Nat := 51
def LF_BLK : Nat := 52
def LF_DIR : Nat := 53
def LF_FIFO : Nat := 54
def LF_LONGLINK : Nat := 75
def LF_LONGNAME : Nat := 76

/-- TMAGIC of tar.h, the seven characters of `ustar` and two spaces. -/
def TMAGIC : List Nat := [117, 115, 116, 97, 114, 32, 32]

/-- TMAGLEN of tar.h. -/
def TMAGLEN : Nat := 6

/-- The C string that starts at a pointer: the bytes before the first NUL. -/
def c_str (bytes : List Nat) : List Nat := bytes.takeWhile (fun c => c != 0)

/-- The byte at position `i` of a record. -/
def byte_at (r : List Nat) (i : Nat) : Nat := (r[i]?).getD 0

/-- The spaces-skipping loop of from_oct; `none` is `return -1`. -/
def from_oct_skip : List Nat → Nat → Option (List Nat × Nat)
  | [], digs => some ([], digs)
  | c :: rest, digs =>
    if c = 32 then (if digs - 1 = 0 then none else from_oct_skip rest (digs - 1))
    else some (c :: rest, digs)

/-- The digit loop of from_oct. -/
def from_oct_scan : List Nat → Nat → Nat → Nat × List Nat × Nat
  | [], digs, value => (value, [], digs)
  | c :: rest, digs, value =>
    if digs > 0 ∧ 48 ≤ c ∧ c ≤ 55 then from_oct_scan rest (digs - 1) (value * 8 + (c - 48))
    else (value, c :: rest, digs)

/-- A value held in a `long`, which is 32 bits wide on the Hurd's i386: the
representative of `v` modulo `2 ^ 32` between `- 2 ^ 31` and `2 ^ 31 - 1`. -/
def to_long (v : Int) : Int := (v + 2 ^ 31) % 2 ^ 32 - 2 ^ 31

/-- The function from_oct (`isspace` is the source's own macro, a blank).  The
digits are gathered in the `long value` by `(value << 3) | digit`; as shifts
and ors commute with the reduction modulo `2 ^ 32`, the result is the value of
the digit string brought into the range of `long`. -/
def from_oct (digs : Nat) (field : List Nat) : Int :=
  match from_oct_skip field digs with
  | none => -1
  | some (w, d) =>
    match from_oct_scan w d 0 with
    | (value, w, d) =>
      if d > 0 ∧ w.headD 0 ≠ 0 ∧ w.headD 0 ≠ 32 then -1 else to_long (value : Int)

/-- A value stored in an unsigned 32-bit field. -/
def to_u32 (v : Int) : Nat := (v % 2 ^ 32).toNat

/-- The user and group database (libc, an external collaborator). -/
structure name_service where
  getpwnam : List Nat → Option Nat
  getgrnam : List Nat → Option Nat
  getpwuid : Nat → Option (List Nat)
  getgrgid : Nat → Option (List Nat)

/-- The function finduid of names.c. -/
def finduid (ns : name_service) (myuid : Nat) (uname : List Nat) : Nat :=
  (ns.getpwnam uname).getD myuid

/-- The function findgid of names.c. -/
def findgid (ns : name_service) (mygid : Nat) (gname : List Nat) : Nat :=
  (ns.getgrnam gname).getD mygid

/-- The function tar_header2stat: the fields of `st` it assigns. -/
def tar_header2stat (ns : name_service) (myuid mygid : Nat) (st : io_statbuf_t)
    (header : List Nat) : io_statbuf_t :=
  let linkflag := byte_at header OFF_linkflag
  let mode := to_u32 (from_oct 8 (header.drop OFF_mode))
  let mode :=
    if linkflag = LF_DIR then mode ||| S_IFDIR
    else if linkflag = LF_SYMLINK then mode ||| S_IFLNK
    else if linkflag = LF_CHR then mode ||| S_IFCHR
    else if linkflag = LF_BLK then mode ||| S_IFBLK
    else if linkflag = LF_FIFO then mode ||| S_IFIFO
    else mode ||| S_IFREG
  let ustar := c_str (header.drop OFF_magic) = TMAGIC
  let uname := c_str (header.drop OFF_uname)
  let gname := c_str (header.drop OFF_gname)
  let uid :=
    if ustar ∧ uname ≠ [] then finduid ns myuid uname
    else to_u32 (from_oct 8 (header.drop OFF_uid))
  let gid :=
    if ustar ∧ gname ≠ [] then findgid ns mygid gname
    else to_u32 (from_oct 8 (header.drop OFF_gid))
  let rdev :=
    if ustar ∧ (linkflag = LF_BLK ∨ linkflag = LF_CHR) then
      to_u32 ((from_oct 8 (header.drop OFF_devmajor)) * 256) |||
        to_u32 (from_oct 8 (header.drop OFF_devminor))
    else 0
  { st with
    st_mode := mode, st_rdev := rdev, st_uid := uid, st_gid := gid,
    st_size := to_u32 (from_oct 13 (header.drop OFF_size)),
    st_mtime := from_oct 13 (header.drop OFF_mtime),
    st_atime := from_oct 13 (header.drop OFF_atime),
    st_ctime := from_oct 13 (header.drop OFF_ctime) }

/-- The octal digits of `v`, least significant first. -/
def oct_rev : Nat → Nat → List Nat
  | 0, _ => []
  | fuel + 1, v => if v < 8 then [48 + v] else (48 + v % 8) :: oct_rev fuel (v / 8)

/-- What `sprintf (where, "%0<width>o", v)` stores: at least `width` octal
digits and the terminating NUL. -/
def sprintf_oct (width : Nat) (v : Nat) : List Nat :=
  let d := (oct_rev 64 v).reverse
  List.replicate (width - d.length) 48 ++ d ++ [0]

/-- What `strncpy (dst, src, n)` stores: `n` bytes, the string and NUL padding. -/
def strncpy_bytes (src : List Nat) (n : Nat) : List Nat :=
  (c_str src).take n ++ List.replicate (n - (c_str src).length) 0

/-- The function uid_to_uname of names.c: the bytes it stores at `uname`. -/
def uid_to_uname (ns : name_service) (uid : Nat) : List Nat :=
  match ns.getpwuid uid with
  | some name => strncpy_bytes (strncpy_bytes name NAMSIZ) NAMSIZ
  | none => [0]

/-- The function gid_to_gname of names.c: the bytes it stores at `gname`. -/
def gid_to_gname (ns : name_service) (gid : Nat) : List Nat :=
  match ns.getgrgid gid with
  | some name => strncpy_bytes (strncpy_bytes name NAMSIZ) NAMSIZ
  | none => [0]

/-- The sum of the bytes of a record, each taken unsigned. -/
def byte_sum (r : List Nat) : Nat := (r.map (fun c => c % 256)).sum

/-- The function tar_make_header: the record it builds. -/
def tar_make_header (ns : name_service) (st : io_statbuf_t) (name : List Nat)
    (symlink hardlink : Option (List Nat)) : Run (List Nat) := do
  c_assert (decide (name.length ≤ NAMSIZ))
  let h := List.replicate RECORDSIZE 0
  let h := memcpy_into h OFF_name (name ++ [0])
  let h := if S_ISDIR st.st_mode then memcpy_into h name.length [SLASH, 0] else h
  let h := memcpy_into h OFF_mode (sprintf_oct 7 (st.st_mode % 2 ^ 32))
  let h := memcpy_into h OFF_uid (sprintf_oct 7 (st.st_uid % 2 ^ 32))
  let h := memcpy_into h OFF_gid (sprintf_oct 7 (st.st_gid % 2 ^ 32))
  let h := memcpy_into h OFF_size (sprintf_oct 11 (st.st_size % 2 ^ 64))
  let h := memcpy_into h OFF_mtime (sprintf_oct 11 (to_u32 st.st_mtime))
  let h ←
    (if S_ISREG st.st_mode then pure (memcpy_into h OFF_linkflag [LF_NORMAL])
     else if S_ISDIR st.st_mode then pure (memcpy_into h OFF_linkflag [LF_DIR])
     else if S_ISLNK st.st_mode then
       match symlink with
       | none => throw Crash.assertion
       | some l => do
         c_assert (decide (l.length ≤ NAMSIZ))
         pure (memcpy_into (memcpy_into h OFF_linkflag [LF_SYMLINK]) OFF_linkname l)
     else if S_ISCHR st.st_mode then pure (memcpy_into h OFF_linkflag [LF_CHR])
     else if S_ISBLK st.st_mode then pure (memcpy_into h OFF_linkflag [LF_BLK])
     else if S_ISFIFO st.st_mode then pure (memcpy_into h OFF_linkflag [LF_FIFO])
     else
       match hardlink with
       | some l => do
         c_assert (decide (l.length ≤ NAMSIZ))
         pure (memcpy_into (memcpy_into h OFF_linkflag [LF_LINK]) OFF_linkname l)
       | none => pure (memcpy_into h OFF_linkflag [LF_NORMAL]))
  let h := memcpy_into h OFF_magic (strncpy_bytes TMAGIC TMAGLEN)
  let h := memcpy_into h OFF_uname (uid_to_uname ns st.st_uid)
  let h := memcpy_into h OFF_gname (gid_to_gname ns st.st_gid)
  let h := memcpy_into h OFF_chksum (List.replicate 8 32)
  let sum := byte_sum h
  let h := memcpy_into h OFF_chksum (sprintf_oct 6 sum)
  let h := memcpy_into h (OFF_chksum + 6) [0]
  pure h

/-! ## tarfs.c: building the filesystem from the archive -/

/-- The `do ... while (retry)` loop of tarfs_add_header that finds the parent
directory and creates missing ones; returns `dir`, `notfound`, `new` and the
state. -/
def add_header_find_dir :
    Nat → tarfs → Nat → List Nat → Option Nat →
      Run (Nat × Option (List Nat) × Option Nat × tarfs)
  | 0, _, _, _, _ => throw Crash.fuel
  | fuel + 1, s, dir, name, new => do
    let (dir, retry, notfound) ← fs_find_node_path s (some dir) name
    match retry with
    | some r => do
      let (err, new, s) ← tarfs_create_node s dir notfound (S_IFDIR ||| 755)
      c_assert (err == error_t.OK)
      add_header_find_dir fuel s dir r new
    | none => pure (dir, notfound, new, s)

/-- The function tarfs_add_header (the hook called for every parsed header);
`offset` is the archive position after the header. -/
def tarfs_add_header (ns : name_service) (s : tarfs) (hdr : List Nat) (offset : Nat) :
    Run tarfs := do
  let name := c_str (hdr.drop OFF_name)
  let (dir, notfound, new, s) ←
    add_header_find_dir (name.length + 2) s s.netfs_root_node name none
  match notfound with
  | none => pure s
  | some name => do
    c_assert (decide (name.length > 0))
    let (new, s) ← (
      if byte_at hdr OFF_linkflag = LF_LINK then do
        let tgname := c_str (hdr.drop OFF_linkname)
        let (target, retry, notfound) ← fs_find_node_path s (some s.netfs_root_node) tgname
        if retry.isNone ∧ notfound.isNone then do
          let tx ← get_node s target
          let (_, new, s) ← fs_hard_link_node s (some dir) (some name) tx.nn_stat.st_mode target
          let s ← NEW_NODE_INFO s new
          let (_, _, s) ← tar_make_item s new 0 offset
          pure (some new, s)
        else pure (new, s)
      else do
        let (err, new, s) ← fs_make_node s (some dir) (some name) 0
        c_assert (err == error_t.OK)
        match new with
        | none => pure (none, s)
        | some n => do
          let s ← NEW_NODE_INFO s n
          let x ← get_node s n
          let s ← set_stat s n (tar_header2stat ns s.uid s.gid x.nn_stat hdr)
          let (_, s) ← cache_create s n
          let x ← get_node s n
          let (_, _, s) ← tar_make_item s n x.nn_stat.st_size offset
          pure (some n, s))
    match new with
    | none => throw Crash.exit
    | some n => do
      let info ← NODE_INFO s n
      match info.tar with
      | none => throw Crash.memory
      | some t => do
        let (_, s) ← tar_insert_item s s.last_item t
        let s := { s with last_item := some t }
        let x ← get_node s n
        let s ← (if S_ISLNK x.nn_stat.st_mode then do
                   let (_, s) ← fs_link_node_path s n (c_str (hdr.drop OFF_linkname))
                   pure s
                 else pure s)
        let x ← get_node s n
        if S_ISDIR x.nn_stat.st_mode then do
          let s := set_node s n { x with nn_stat := { x.nn_stat with st_nlink := 2 } }
          let nn ← get_nn s n
          match nn.dir with
          | none => throw Crash.memory
          | some d =>
            let dx ← get_node s d
            pure (set_node s d
              { dx with nn_stat := { dx.nn_stat with st_nlink := dx.nn_stat.st_nlink + 1 } })
        else pure s

/-! ## tar.c: reading the archive -/

/-- ReadStatus of tar.c. -/
inductive ReadStatus where
  | STATUS_BADCHECKSUM
  | STATUS_SUCCESS
  | STATUS_EOFMARK
  | STATUS_EOF
deriving DecidableEq, Repr

/-- The function get_next_record: the record at the current position and the
position after it, or NULL. -/
def get_next_record (s : tarfs) (pos : Nat) : Option (List Nat × Nat) :=
  let r := store_read s.tar_file pos RECORDSIZE
  if r.length = RECORDSIZE then some (r, pos + RECORDSIZE) else none

/-- The sum of the bytes of a record, each taken as a signed char. -/
def signed_byte_sum (r : List Nat) : Int :=
  (r.map (fun c => if c % 256 < 128 then ((c % 256 : Nat) : Int) else ((c % 256 : Nat) : Int) - 256)).sum

/-- The loop of read_header that reads the records of a long name's payload:
the position reached, and `false` for the early `return STATUS_BADCHECKSUM`. -/
def skip_long_payload (s : tarfs) : Nat → Int → Nat → Run (Bool × Nat)
  | 0, _, _ => throw Crash.fuel
  | fuel + 1, size, pos =>
    if size > 0 then
      match get_next_record s pos with
      | none => pure (false, pos)
      | some (_, pos) => skip_long_payload s fuel (size - (if 512 > size then size else 512)) pos
    else pure (true, pos)

/-- The loop `while (get_next_record (tar_file)->ext_hdr.isextended);`. -/
def skip_extended (s : tarfs) : Nat → Nat → Run Nat
  | 0, _ => throw Crash.fuel
  | fuel + 1, pos =>
    match get_next_record s pos with
    | none => throw Crash.memory
    | some (r, pos) => if byte_at r OFF_ext_isextended ≠ 0 then skip_extended s fuel pos else pure pos

/-- The function read_header: the status, the new `current_tar_position` and
the state.  `stale_name` is the `arch_name` the function copies through the
not yet assigned `header` pointer before it reads the record. -/
def read_header (ns : name_service) (stale_name : List Nat) :
    Nat → tarfs → Nat → Run (ReadStatus × Nat × tarfs)
  | 0, _, _ => throw Crash.fuel
  | fuel + 1, s, pos =>
    match get_next_record s pos with
    | none => pure (ReadStatus.STATUS_EOF, pos, s)
    | some (header, pos) => do
      let recsum := from_oct 8 (header.drop OFF_chksum)
      let chk := (header.drop OFF_chksum).take 8
      let sum : Int := (byte_sum header : Int) - (byte_sum chk : Int) + 32 * 8
      let signed_sum : Int := signed_byte_sum header - signed_byte_sum chk + 32 * 8
      if sum = 8 * 32 then pure (ReadStatus.STATUS_EOFMARK, pos, s)
      else if sum ≠ recsum ∧ signed_sum ≠ recsum then pure (ReadStatus.STATUS_BADCHECKSUM, pos, s)
      else do
        let arch_name := c_str (stale_name.take NAMSIZ)
        let header :=
          if byte_at header OFF_linkflag = 0 ∧ arch_name.length ≠ 0 ∧
              arch_name.getLast? = some SLASH then
            memcpy_into header OFF_linkflag [LF_DIR]
          else header
        let linkflag := byte_at header OFF_linkflag
        let st_size : Int :=
          if linkflag = LF_LINK ∨ linkflag = LF_DIR then 0
          else from_oct 13 (header.drop OFF_size)
        if linkflag = LF_LONGNAME ∨ linkflag = LF_LONGLINK then do
          let (ok, pos) ← skip_long_payload s (s.tar_file.length + 1) st_size pos
          if ok then read_header ns stale_name fuel s pos
          else pure (ReadStatus.STATUS_BADCHECKSUM, pos, s)
        else do
          let s ← tarfs_add_header ns s header pos
          let pos ← (if byte_at header OFF_isextended ≠ 0 then
                       skip_extended s (s.tar_file.length + 1) pos
                     else pure pos)
          let n := (st_size + 511) / 512
          pure (ReadStatus.STATUS_SUCCESS, pos + n.toNat * RECORDSIZE, s)

/-- The main loop of tar_open_archive; the result is the function's return
value (`0` or `-1`) and the state. -/
def tar_open_archive_loop (ns : name_service) (stale_name : List Nat) :
    Nat → tarfs → Nat → ReadStatus → Run (Int × tarfs)
  | 0, _, _, _ => throw Crash.fuel
  | fuel + 1, s, pos, status => do
    let prev_status := status
    let (status, pos, s) ← read_header ns stale_name (s.tar_file.length + 1) s pos
    match status with
    | ReadStatus.STATUS_SUCCESS => tar_open_archive_loop ns stale_name fuel s pos status
    | ReadStatus.STATUS_BADCHECKSUM =>
      match prev_status with
      | ReadStatus.STATUS_EOFMARK => pure (-1, s)
      | ReadStatus.STATUS_SUCCESS =>
        match get_next_record s (pos - RECORDSIZE) with
        | none => throw Crash.memory
        | some _ => throw Crash.exit
      | ReadStatus.STATUS_BADCHECKSUM => throw Crash.exit
      | ReadStatus.STATUS_EOF => pure (0, s)
    | ReadStatus.STATUS_EOFMARK => pure (0, s)
    | ReadStatus.STATUS_EOF => pure (0, s)

/-- The function tar_open_archive. -/
def tar_open_archive (ns : name_service) (stale_name : List Nat) (s : tarfs) : Run (Int × tarfs) :=
  tar_open_archive_loop ns stale_name (s.tar_file.length + 1) s 0 ReadStatus.STATUS_EOFMARK

/-- S_IATRANS of the Hurd's `bits/stat.h`. -/
def S_IATRANS : Nat := 0o20000000

/-- S_IROOT of the Hurd's `bits/stat.h`. -/
def S_IROOT : Nat := 0o40000000

/-- The state before tarfs_init creates anything. -/
def empty_state (file : List Nat) (readonly : Bool) (uid gid : Nat) (now : Int) : tarfs :=
  { nodes := [], items := [], tar_list := none, tar_file := file, readonly := readonly,
    netfs_root_node := 0, last_item := none, next_ino := 1, uid := uid, gid := gid,
    curr_time := now }

/-- The function tarfs_init, from the creation of the root node on: the root
gets the mode of the archive file with the type bits replaced, and a non-empty
archive is read (an invalid one ends the process). -/
def tarfs_init (ns : name_service) (stale_name : List Nat) (file : List Nat) (file_mode : Nat)
    (readonly : Bool) (uid gid : Nat) (now : Int) : Run tarfs := do
  let s := empty_state file readonly uid gid now
  let mode := (file_mode &&& (2 ^ 32 - 1 - S_IFMT)) ||| S_IFDIR ||| S_IROOT ||| S_IATRANS
  let (err, root, s) ← fs_make_node s none none mode
  match err, root with
  | error_t.OK, some r => do
    let s := { s with netfs_root_node := r }
    if file.length ≠ 0 then do
      let (ret, s) ← tar_open_archive ns stale_name s
      if ret ≠ 0 then throw Crash.exit else pure s
    else pure s
  | _, _ => throw Crash.exit

/-! ## tarfs.c: writing the filesystem back -/

/-- The function round_size. -/
def round_size (s : Nat) : Nat :=
  RECORDSIZE * (s / RECORDSIZE + (if s % RECORDSIZE ≠ 0 then 1 else 0))

/-- The inner `while (curr_tar)` loop of cache_ahead: the next item from
`curr_tar` on that has a place in the archive and a node. -/
def next_on_disk (s : tarfs) : Nat → Option Nat → Run (Option Nat)
  | 0, _ => throw Crash.fuel
  | _ + 1, none => pure none
  | fuel + 1, some t => do
    let it ← get_item s t
    if it.offset ≠ -1 ∧ it.node.isSome then pure (some t)
    else next_on_disk s fuel it.next

/-- The function cache_ahead. -/
def cache_ahead : Nat → tarfs → Option Nat → Int → Nat → Run (error_t × tarfs)
  | 0, _, _, _, _ => throw Crash.fuel
  | fuel + 1, s, curr_tar, offs, size => do
    let curr_tar ← next_on_disk s (s.items.length + 1) curr_tar
    match curr_tar with
    | none => pure (error_t.OK, s)
    | some t => do
      let it ← get_item s t
      match it.node with
      | none => throw Crash.memory
      | some n => do
        let x ← get_node s n
        let node_offs := it.offset
        let node_size := x.nn_stat.st_size
        let (err, s) ← (
          if offs < node_offs + node_size ∧ offs + size > node_offs then
            let how_much : Nat :=
              if offs + size > node_offs + node_size then node_size
              else (offs + size - node_offs).toNat
            cache_cache s n how_much
          else pure (error_t.OK, s))
        if err ≠ error_t.OK then pure (err, s)
        else if it.next.isSome ∧ node_offs < offs + size then
          cache_ahead fuel s it.next offs size
        else pure (error_t.OK, s)

/-- The nested function tar_write of tarfs_sync_fs: the error, `*amount` and
the state. -/
def tar_write (s : tarfs) (offset : Nat) (buf : List Nat) : error_t × Nat × tarfs :=
  match store_write s.tar_file offset buf with
  | (error_t.OK, n, f) => (error_t.OK, n, { s with tar_file := f })
  | (error_t.EIO, _, _) =>
    let f := store_set_size s.tar_file (offset + buf.length)
    match store_write f offset buf with
    | (err, n, f) => (err, n, { s with tar_file := f })
  | (err, n, f) =>
    match store_write f offset buf with
    | (err2, n2, f2) => if err2 = error_t.OK then (err2, n2, { s with tar_file := f2 })
                        else (err, n, { s with tar_file := f })

/-- The `while (offs < size)` loop of tarfs_sync_fs that writes a node's
contents record by record; returns the error, `file_offs` and the state. -/
def sync_contents (n : Nat) (tar : Nat) (ahead : Bool) (size : Nat) :
    Nat → tarfs → Nat → Nat → Run (error_t × Nat × tarfs)
  | 0, _, _, _ => throw Crash.fuel
  | fuel + 1, s, offs, file_offs =>
    if offs < size then do
      let (err, s) ← (if ahead then cache_ahead (s.items.length + 1) s (some tar) file_offs RECORDSIZE
                      else pure (error_t.OK, s))
      if err ≠ error_t.OK then pure (err, file_offs, s)
      else do
        let (err, data) ← cache_read s n offs RECORDSIZE
        c_assert (err == error_t.OK)
        c_assert (decide (data.length < RECORDSIZE → offs + RECORDSIZE = size))
        let buf := data ++ List.replicate (RECORDSIZE - data.length) 0
        let (err, amount, s) := tar_write s file_offs buf
        if err ≠ error_t.OK then pure (err, file_offs, s)
        else do
          c_assert (decide (amount = RECORDSIZE))
          sync_contents n tar ahead size fuel s (offs + RECORDSIZE) (file_offs + RECORDSIZE)
    else pure (error_t.OK, file_offs, s)

/-- One turn of the item loop of tarfs_sync_fs for an item whose node is
alive; returns the error, `file_offs` and the state. -/
def sync_item (ns : name_service) (s : tarfs) (tar : Nat) (n : Nat) (file_offs : Nat) :
    Run (error_t × Nat × tarfs) := do
  let it ← get_item s tar
  let x ← get_node s n
  let nn ← get_nn s n
  let info ← NODE_INFO s n
  let have_to_sync := decide (it.offset ≠ (file_offs : Int) + RECORDSIZE)
  let path ← fs_get_path_from_root s s.netfs_root_node n
  let size := round_size x.nn_stat.st_size
  let (err, s) ← (
    if info.stat_changed ∨ x.nn_stat.st_size ≠ it.orig_size ∨ have_to_sync then do
      let (err, s) ← cache_ahead (s.items.length + 1) s (some tar) file_offs RECORDSIZE
      if err ≠ error_t.OK then pure (err, s)
      else do
        let target ← (match nn.hardlink with
          | some h => do
            let p ← fs_get_path_from_root s s.netfs_root_node h
            pure (some p)
          | none => pure none)
        let x ← get_node s n
        let nn ← get_nn s n
        let buf ← tar_make_header ns x.nn_stat path nn.symlink target
        let (err, amount, s) := tar_write s file_offs buf
        if err ≠ error_t.OK then pure (err, s)
        else do
          c_assert (decide (amount = RECORDSIZE))
          pure (error_t.OK, s)
    else pure (error_t.OK, s))
  if err ≠ error_t.OK then pure (err, file_offs, s)
  else do
    let file_offs := file_offs + RECORDSIZE
    let x ← get_node s n
    let nn ← get_nn s n
    let plain := !S_ISDIR x.nn_stat.st_mode && nn.symlink.isNone && nn.hardlink.isNone
    let dirty ← (if plain then do
                   let synced ← cache_synced s n
                   pure (!synced || have_to_sync)
                 else pure false)
    let (err, file_offs, s) ← (
      if plain && dirty then do
        let start := file_offs
        let it ← get_item s tar
        let ahead := decide (it.offset - (start : Int) < RECORDSIZE)
        let (err, file_offs, s) ←
          sync_contents n tar ahead size (size / RECORDSIZE + 1) s 0 file_offs
        if err ≠ error_t.OK then pure (err, file_offs, s)
        else do
          let it ← get_item s tar
          let x ← get_node s n
          let s := set_item s tar { it with offset := start, orig_size := x.nn_stat.st_size }
          pure (error_t.OK, file_offs, s)
      else do
        let it ← get_item s tar
        let s := set_item s tar { it with offset := file_offs }
        let x ← get_node s n
        pure (error_t.OK,
          file_offs + RECORDSIZE * (x.nn_stat.st_size / RECORDSIZE
            + (if x.nn_stat.st_size % RECORDSIZE ≠ 0 then 1 else 0)), s))
    if err ≠ error_t.OK then pure (err, file_offs, s)
    else do
      let (_, s) ← cache_free s n
      pure (error_t.OK, file_offs, s)

/-- The item loop of tarfs_sync_fs; returns the error, `file_offs`,
`orig_size` and the state. -/
def sync_loop (ns : name_service) :
    Nat → tarfs → Option Nat → Nat → Nat → Run (error_t × Nat × Nat × tarfs)
  | 0, _, _, _, _ => throw Crash.fuel
  | _ + 1, s, none, file_offs, orig_size => pure (error_t.OK, file_offs, orig_size, s)
  | fuel + 1, s, some tar, file_offs, orig_size => do
    let it ← get_item s tar
    let orig_size :=
      if it.offset ≠ -1 then orig_size + round_size it.orig_size + RECORDSIZE else orig_size
    match it.node with
    | some n => do
      let (err, file_offs, s) ← sync_item ns s tar n file_offs
      if err ≠ error_t.OK then pure (err, file_offs, orig_size, s)
      else do
        let it ← get_item s tar
        sync_loop ns fuel s it.next file_offs orig_size
    | none => do
      let next := it.next
      let s ← tar_unlink_item_safe s tar
      sync_loop ns fuel s next file_offs orig_size

/-- The function tarfs_sync_fs. -/
def tarfs_sync_fs (ns : name_service) (s : tarfs) : Run (error_t × tarfs) := do
  let (err, file_offs, orig_size, s) ← sync_loop ns (s.items.length + 1) s s.tar_list 0 0
  if err ≠ error_t.OK then pure (err, s)
  else do
    let (err, amount, s) := tar_write s file_offs (List.replicate RECORDSIZE 0)
    let err := if err ≠ error_t.OK ∨ amount < RECORDSIZE then
                 (if err = error_t.OK then error_t.EIO else err) else err
    let file_offs := file_offs + amount
    if err = error_t.OK ∧ file_offs < orig_size then
      pure (error_t.OK, { s with tar_file := store_set_size s.tar_file file_offs })
    else pure (err, s)

/-! ## Concrete archives and states used as inputs -/

/-- A user database without entries. -/
def ns_none : name_service :=
  { getpwnam := fun _ => none, getgrnam := fun _ => none,
    getpwuid := fun _ => none, getgrgid := fun _ => none }

/-- A stat with the given mode and size (owner 0, times 0). -/
def stat_of (mode size : Nat) : io_statbuf_t :=
  { st_mode := mode, st_nlink := 1, st_size := size, st_uid := 0, st_gid := 0, st_ino := 0,
    st_rdev := 0, st_atime := 0, st_mtime := 0, st_ctime := 0 }

/-- A valid header record for an archive member: the record tar_make_header
builds (a mode without file-type bits and a link target give a hard-link
record, linkflag `1`). -/
def header_of (mode size : Nat) (name : List Nat) (hardlink : Option (List Nat)) : List Nat :=
  match tar_make_header ns_none (stat_of mode size) name none hardlink with
  | Except.ok h => h
  | Except.error _ => []

/-- A payload padded with NULs to whole records. -/
def padded (d : List Nat) : List Nat := d ++ List.replicate (round_size d.length - d.length) 0

/-- Mounting an archive writable, owned by user 0 at time 0. -/
def mount (file : List Nat) : Run tarfs := tarfs_init ns_none [] file 0o644 false 0 0 0

/-- The archive `a` (regular, bytes 1 2 3), `b` (hard link to `a`), two zero
records. -/
def archive_with_link : List Nat :=
  header_of 0o100644 3 [97] none ++ padded [1, 2, 3] ++ header_of 0o644 0 [98] (some [97])
    ++ List.replicate 1024 0

/-- A writable filesystem on an empty archive with one new regular file `a`
(node 1) in the root (node 0). -/
def one_new_file : Run tarfs := do
  let s ← mount []
  let (_, _, s) ← tarfs_create_node s 0 (some [97]) (S_IFREG ||| 0o644)
  pure s

/-- The archive `x` (empty), `y` (1000 bytes of value 7), two zero records. -/
def archive_x_y : List Nat :=
  header_of 0o100644 0 [120] none ++ header_of 0o100644 1000 [121] none
    ++ padded (List.replicate 1000 7) ++ List.replicate 1024 0

/-- The archive `a` (1024 bytes of value 7), two zero records. -/
def archive_one_block : List Nat :=
  header_of 0o100644 1024 [97] none ++ List.replicate 1024 7 ++ List.replicate 1024 0

/-- The file `a` (node 1) with two hard links `b` (node 2) and `c` (node 3),
all in the root. -/
def file_with_two_links : Run tarfs := do
  let s ← one_new_file
  let (_, s) ← tarfs_link_node s 0 1 [98] true
  let (_, s) ← tarfs_link_node s 0 1 [99] true
  pure s

/-- The file `a` (node 1), the directory `d` (node 2) and in it the hard link
`b` (node 3) to `a`. -/
def link_in_new_dir : Run tarfs := do
  let s ← one_new_file
  let (_, _, s) ← tarfs_create_node s 0 (some [100]) (S_IFDIR ||| 0o755)
  let (_, s) ← tarfs_link_node s 2 1 [98] true
  pure s

/-- The filesystem of `one_new_file` switched to read-only. -/
def readonly_fs : Run tarfs := do
  let s ← one_new_file
  pure { s with readonly := true }

/-- The archive `d/`, `e`, `d/f` and two zero records. -/
def archive_interleaved : List Nat :=
  header_of 0o40755 0 [100] none ++ header_of 0o100644 0 [101] none
    ++ header_of 0o100644 0 [100, 47, 102] none ++ List.replicate 1024 0

/-- The state a run leaves, or the empty state when it does not return. -/
def state_of (r : Run tarfs) : tarfs :=
  match r with
  | Except.ok s => s
  | Except.error _ => empty_state [] false 0 0 0

/-- A record with its checksum field filled the way tar_make_header fills it
(blanks while the bytes are summed, then six octal digits and a NUL). -/
def with_checksum (r : List Nat) : List Nat :=
  let h := memcpy_into r OFF_chksum (List.replicate 8 32)
  memcpy_into (memcpy_into h OFF_chksum (sprintf_oct 6 (byte_sum h))) (OFF_chksum + 6) [0]

/-- A long-name record (linkflag `L`) that announces a payload of `size` bytes,
with a right checksum. -/
def long_name_record (size : Nat) : List Nat :=
  with_checksum (memcpy_into (header_of 0o100644 size [120] none) OFF_linkflag [LF_LONGNAME])

/-- The archive: a long-name record with the payload `long`, the empty file
`y`, two zero records. -/
def archive_long_name : List Nat :=
  long_name_record 5 ++ padded [108, 111, 110, 103, 0] ++ header_of 0o100644 0 [121] none
    ++ List.replicate 1024 0

/-- The header of `y` with its first name byte changed after the checksum was
written. -/
def bad_record : List Nat := memcpy_into (header_of 0o100644 0 [121] none) 0 [122]

/-- The archive `x`, the bad record, `w`, two zero records. -/
def archive_bad_record : List Nat :=
  header_of 0o100644 0 [120] none ++ bad_record ++ header_of 0o100644 0 [119] none
    ++ List.replicate 1024 0

/-- The archive `x`, one zero record, `y`, two zero records. -/
def archive_marker_inside : List Nat :=
  header_of 0o100644 0 [120] none ++ List.replicate 512 0 ++ header_of 0o100644 0 [121] none
    ++ List.replicate 1024 0

/-- A user database in which every id is called `root` and every name has the
id 1000. -/
def ns_root : name_service :=
  { getpwnam := fun _ => some 1000, getgrnam := fun _ => some 1000,
    getpwuid := fun _ => some [114, 111, 111, 116], getgrgid := fun _ => some [114, 111, 111, 116] }

/-- The filesystem that holds only the root, on the archive `file`, before
the archive is read. -/
def root_on (file : List Nat) : tarfs := { state_of (mount []) with tar_file := file }

/-! ## Octal fields and checksums -/

/-- The number a string of octal digits denotes. -/
def oct_value (ds : List Nat) : Nat := ds.foldl (fun v c => v * 8 + (c - 48)) 0

/-- Every byte of the string is one of the digits `0` to `7`. -/
def all_octal (ds : List Nat) : Prop := ∀ c ∈ ds, 48 ≤ c ∧ c ≤ 55

/-- The record tar_make_header has filled when it comes to the file type: the
name and the octal fields mode, uid, gid, size and mtime. -/
def header_fields (st : io_statbuf_t) (name : List Nat) : List Nat :=
  let h := List.replicate RECORDSIZE 0
  let h := memcpy_into h OFF_name (name ++ [0])
  let h := if S_ISDIR st.st_mode then memcpy_into h name.length [SLASH, 0] else h
  let h := memcpy_into h OFF_mode (sprintf_oct 7 (st.st_mode % 2 ^ 32))
  let h := memcpy_into h OFF_uid (sprintf_oct 7 (st.st_uid % 2 ^ 32))
  let h := memcpy_into h OFF_gid (sprintf_oct 7 (st.st_gid % 2 ^ 32))
  let h := memcpy_into h OFF_size (sprintf_oct 11 (st.st_size % 2 ^ 64))
  memcpy_into h OFF_mtime (sprintf_oct 11 (to_u32 st.st_mtime))

/-- The linkflag tar_make_header chooses. -/
def linkflag_of (mode : Nat) (hardlink : Option (List Nat)) : Nat :=
  if S_ISREG mode then LF_NORMAL
  else if S_ISDIR mode then LF_DIR
  else if S_ISLNK mode then LF_SYMLINK
  else if S_ISCHR mode then LF_CHR
  else if S_ISBLK mode then LF_BLK
  else if S_ISFIFO mode then LF_FIFO
  else if hardlink.isSome then LF_LINK
  else LF_NORMAL

/-- The record with the eight bytes of its checksum field replaced by blanks. -/
def blanked (r : List Nat) : List Nat := memcpy_into r OFF_chksum (List.replicate 8 32)

/-! ## The archive size a sync should leave -/

/-- The liveness and parent of a node. -/
def pdir (x : node) : Option (Option Nat) := x.nn.map (fun nn => nn.dir)

/-- The liveness and item pointer of a node. -/
def ptar (x : node) : Option (Option Nat) := x.nn.map (fun nn => nn.info.bind (fun i => i.tar))

/-- Every node of `s` is still there in `s'` with the same liveness and parent,
and, when its address is below `N`, the same item pointer. -/
def nframe (N : Nat) (s s' : tarfs) : Prop :=
  s'.nodes.length = s.nodes.length ∧
  ∀ (m : Nat) (x : node), s.nodes[m]? = some x →
    ∃ x', s'.nodes[m]? = some x' ∧ pdir x' = pdir x ∧ (m < N → ptar x' = ptar x)

/-- Every node of `s` is still there in `s'`, and those below `K` have the same
liveness, parent and item pointer. -/
def oframe (K : Nat) (s s' : tarfs) : Prop :=
  s'.nodes.length = s.nodes.length ∧
  ∀ (m : Nat) (x : node), s.nodes[m]? = some x →
    ∃ x', s'.nodes[m]? = some x' ∧ (m < K → pdir x' = pdir x ∧ ptar x' = ptar x)

/-- The file `a` (node 1) and its hard link `b` (node 2), both in the root. -/
def file_with_link : Run tarfs := do
  let s ← one_new_file
  let (_, s) ← tarfs_link_node s 0 1 [98] true
  pure s

/-- The file `a` (node 1), its hard link `b` (node 2), and `c` (node 3) made by
tarfs_link_node with the target `b`. -/
def link_to_link : Run tarfs := do
  let s ← file_with_link
  let (_, s) ← tarfs_link_node s 0 2 [99] true
  pure s

/-- The archive `a` (empty file), `b` (hard link to `a`), `c` (hard link to
`b`), two zero records. -/
def archive_link_to_link : List Nat :=
  header_of 0o100644 0 [97] none ++ header_of 0o644 0 [98] (some [97])
    ++ header_of 0o644 0 [99] (some [98]) ++ List.replicate 1024 0

/-- Two calls of tarfs_create_node in the root of a writable mount on an empty
archive, both with the name `a/b`; the errors of both calls and the state. -/
def slash_name_twice : Run (error_t × error_t × tarfs) := do
  let s ← mount []
  let (e1, _, s) ← tarfs_create_node s 0 (some [97, 47, 98]) (S_IFREG ||| 0o644)
  let (e2, _, s) ← tarfs_create_node s 0 (some [97, 47, 98]) (S_IFREG ||| 0o644)
  pure (e1, e2, s)

/-! ## Names and link counts of the nodes -/

/-- The loop of filter_node_name over the bytes of the string, with the value
of `modified` on entry: the bytes stored in the new buffer and `modified` at
the end. -/
def filter_loop : List Nat → Bool → List Nat × Bool
  | [], modified => ([], modified)
  | c :: rest, modified =>
    if c = SLASH then
      let r := filter_loop rest true
      (SUBST_SLASH :: r.1, r.2)
    else
      let r := filter_loop rest modified
      (c :: r.1, r.2)

/-- The function filter_node_name on a string, with the buffer it returns: the
flag tells whether the result is the newly allocated buffer (`true`) or the
argument `name` itself (`false`). -/
def filter_node_name_buffer (name : List Nat) : Bool × List Nat :=
  let r := filter_loop name false
  if r.2 then (true, r.1) else (false, name)

/-- The number of live nodes whose `hardlink` points at node `n`. -/
def alias_count (s : tarfs) (n : Nat) : Nat :=
  (s.nodes.filter (fun x => decide (x.nn.bind (fun nn => nn.hardlink) = some n))).length

/-- The stored names of the nodes of a chain of `next` pointers. -/
def chain_names (s : tarfs) : Nat → Option Nat → List (Option (List Nat))
  | 0, _ => []
  | _ + 1, none => []
  | fuel + 1, some n =>
    match s.nodes[n]? with
    | none => []
    | some x => x.nn.bind (fun nn => nn.name) :: chain_names s fuel x.next

/-- The stored names of the entries of directory `d`. -/
def child_names (s : tarfs) (d : Nat) : List (Option (List Nat)) :=
  match (s.nodes[d]?).bind (fun x => x.nn) with
  | some nn => chain_names s s.nodes.length nn.entries
  | none => []

/-! ## Paths and their components -/

/-- The path `c1/.../ck` of the components `cs`. -/
def join_path (cs : List (List Nat)) : List Nat := List.intercalate [SLASH] cs

/-- A path component: a string that is not empty and holds no `/`. -/
def is_component (c : List Nat) : Prop := c ≠ [] ∧ SLASH ∉ c

/-- Every component of `cs` resolves, one below the other, from directory `d`
on (_find_node finds each in the node found for the one before), and the last
one found is node `n`; for no component, `n` is `d`. -/
def resolves (s : tarfs) : Nat → List (List Nat) → Nat → Prop
  | d, [], n => n = d
  | d, c :: cs, n => ∃ f, _find_node s d (some c) = Except.ok (some f) ∧ resolves s f cs n

/-! ## The item list as a sequence -/

/-- The addresses of the items of a chain of `next` pointers. -/
def item_chain (s : tarfs) : Nat → Option Nat → List Nat
  | 0, _ => []
  | _ + 1, none => []
  | fuel + 1, some t =>
    match s.items[t]? with
    | none => []
    | some it => t :: item_chain s fuel it.next

/-- The addresses of the items of the list, from `tar_list` on. -/
def item_list (s : tarfs) : List Nat := item_chain s s.items.length s.tar_list

/-- The filesystem of an archive with the three files `x`, `y`, `z` after `y`
was unlinked.  The item list is `tx`, `ty`, `tz`, the members lie one after the
other from the start of the archive and have `sx`, `sy`, `sz` bytes.  The items
of `x` and `z` have the live nodes `nx` and `nz`, entries of the root, as the
mount left them (the size of the item, no block cached; the stat of `x` not
changed; `z` a regular file whose name fits the name field); the item of `y`
has lost its node.  The archive holds the records of all three. -/
def middle_unlinked (s : tarfs) (tx ty tz nx nz sx sy sz : Nat) : Bool :=
  match s.items[tx]?, s.items[ty]?, s.items[tz]?, s.nodes[nx]?, s.nodes[nz]? with
  | some itx, some ity, some itz, some x, some z =>
    match x.nn, z.nn with
    | some nnx, some nnz =>
      match nnx.info, nnz.info with
      | some ix, some iz =>
        s.tar_list == some tx && tx != ty && ty != tz && tx != tz && nx != nz
        && nx != s.netfs_root_node && nz != s.netfs_root_node
        && !itx.freed && itx.node == some nx && itx.offset == 512 && itx.orig_size == sx
        && itx.next == some ty
        && x.nn_stat.st_size == sx && !ix.stat_changed
        && ix.cache.blocks.all (fun b => b == slot.null)
        && nnx.name.isSome && nnx.dir == some s.netfs_root_node
        && !ity.freed && ity.node == none && ity.offset == ((1024 + round_size sx : Nat) : Int)
        && ity.orig_size == sy && ity.prev == some tx && ity.next == some tz
        && !itz.freed && itz.node == some nz
        && itz.offset == ((1536 + round_size sx + round_size sy : Nat) : Int)
        && itz.orig_size == sz && itz.next == none
        && z.nn_stat.st_size == sz && iz.tar == some tz
        && iz.cache.blocks.all (fun b => b == slot.null)
        && S_ISREG z.nn_stat.st_mode && nnz.symlink.isNone && nnz.hardlink.isNone
        && (match nnz.name with
            | some nm => decide (nm.length ≤ NAMSIZ)
            | none => false)
        && nnz.dir == some s.netfs_root_node
        && decide (1536 + round_size sx + round_size sy + round_size sz ≤ s.tar_file.length)
      | _, _ => false
    | _, _ => false
  | _, _, _, _, _ => false

/-- The archive `x` (bytes 1 2 3), `y` (1000 bytes of value 7), `z` (600 bytes
of value 9), two zero records. -/
def archive_x_y_z : List Nat :=
  header_of 0o100644 3 [120] none ++ padded [1, 2, 3]
    ++ header_of 0o100644 1000 [121] none ++ padded (List.replicate 1000 7)
    ++ header_of 0o100644 600 [122] none ++ padded (List.replicate 600 9)
    ++ List.replicate 1024 0

/-- The mounted archive `x`, `y`, `z` after tarfs_unlink_node for `y` (node 2). -/
def unlinked_y : Run tarfs := do
  let s ← mount archive_x_y_z
  let (_, s) ← tarfs_unlink_node s 2
  pure s

/-! ## Inputs for the placement of new items and for the cache -/

/-- The steps of tarfs_create_node for the name `a` in the root of a writable
mount on an empty archive, after dir_mkfile has made an anonymous node there
(tarfs_create_node with the name NULL): the error and the node of the
anonymous call and of fs_make_node for `a`, the entries of the root with
their names and items, the new item, and what tar_put_item returns for it. -/
def put_item_after_anonymous :
    Run (List (error_t × Option Nat) × List (Option (List Nat)) × List (Option (Option Nat)) ×
      Nat × Run (Option Nat)) := do
  let s ← mount []
  let (e1, n1, s) ← tarfs_create_node s 0 none (S_IFREG ||| 0o644)
  let (e2, n2, s) ← fs_make_node s (some 0) (some [97]) (S_IFREG ||| 0o644)
  let s ← NEW_NODE_INFO s 2
  let (_, s) ← cache_create s 2
  let (_, tar, s) ← tar_make_item s 2 0 (-1)
  pure ([(e1, n1), (e2, n2)], child_names s 0, (s.nodes.drop 1).map ptar, tar, tar_put_item s tar)

/-- The archive `d/` (a directory), `e` (an empty file), two zero records. -/
def archive_d_e : List Nat :=
  header_of 0o40755 0 [100] none ++ header_of 0o100644 0 [101] none ++ List.replicate 1024 0

/-! ## zipstores.c: the compressed store

The store keeps the uncompressed contents of a compressed file.  The
compression library and the file below it are external: the model gives the
decompressor by `stream`, the bytes it delivers for the compressed file, and the
compressor by `taken`, the chunks it has been handed.  The compressed side of a
sync (the output of the compressor, do_write, and the callback cache_ahead that
do_write calls) is not part of the model. -/

namespace Zip

def ZIP_BUFSIZE_LOG2 : Nat := 13

def ZIP_BUFSIZE : Nat := 1 <<< ZIP_BUFSIZE_LOG2

def CACHE_BLOCK_SIZE_LOG2 : Nat := ZIP_BUFSIZE_LOG2

def CACHE_BLOCK_SIZE : Nat := ZIP_BUFSIZE

def BLOCK_NUMBER (offset : Nat) : Nat := offset >>> CACHE_BLOCK_SIZE_LOG2

def BLOCK_RELATIVE_OFFSET (offset : Nat) : Nat := offset &&& (CACHE_BLOCK_SIZE - 1)

/-- The type `enum status`. -/
inductive status where
  | STATUS_IDLE
  | STATUS_RUNNING
  | STATUS_EOF
deriving DecidableEq, Repr

/-- The type `struct ZIP (object)` together with the size of its store.
`source_size` is the size of the compressed file, `blocks` the vector
`cache.blocks` (its length is `cache.size`, a block has CACHE_BLOCK_SIZE
bytes), and `read_zip_offs`, `write_zip_offs` and the two status fields are the
`zip_offs` and `zip_status` of the read and of the write stream. -/
structure object where
  stream : List Nat
  source_size : Nat
  start_file_offs : Nat
  size : Nat
  zip_orig_size : Nat
  zip_orig_blocks_size : Nat
  blocks : List (Option (List Nat))
  read_zip_offs : Nat
  read_zip_status : status
  write_zip_offs : Nat
  write_zip_status : status
  taken : List (List Nat)
deriving DecidableEq, Repr

/-- The function stream_read_init (the library call is taken to succeed). -/
def stream_read_init (z : object) : object :=
  { z with read_zip_offs := 0, read_zip_status := status.STATUS_RUNNING }

/-- The function stream_read: the error, the bytes stored in `buf` (`*len` is
their number) and the state.  The decompressor delivers the bytes of the stream
from the current position on and reports the end of the stream with its last
byte. -/
def stream_read (z : object) (amount : Nat) : Run (error_t × List Nat × object) := do
  c_assert (z.read_zip_status != status.STATUS_IDLE)
  if z.read_zip_status = status.STATUS_EOF then pure (error_t.OK, [], z)
  else if z.source_size ≤ z.start_file_offs then
    pure (error_t.OK, [], { z with read_zip_status := status.STATUS_EOF })
  else
    let data := (z.stream.drop z.read_zip_offs).take amount
    let offs := z.read_zip_offs + data.length
    let st := if amount ≠ 0 ∧ offs ≥ z.stream.length then status.STATUS_EOF else z.read_zip_status
    pure (error_t.OK, data, { z with read_zip_offs := offs, read_zip_status := st })

/-- The loop `while (*zip_offs < offs)` of stream_read_seek. -/
def seek_loop : Nat → object → Nat → Run (error_t × object)
  | 0, _, _ => throw Crash.fuel
  | fuel + 1, z, offs =>
    if z.read_zip_offs < offs then do
      let amount := min (offs - z.read_zip_offs) ZIP_BUFSIZE
      let (err, data, z) ← stream_read z amount
      if err ≠ error_t.OK then pure (err, z)
      else if data.length < amount then pure (error_t.EIO, z)
      else seek_loop fuel z offs
    else pure (error_t.OK, z)

/-- The function stream_read_seek. -/
def stream_read_seek (z : object) (offs : Nat) : Run (error_t × object) := do
  let z ← (if z.read_zip_offs > offs then do
             c_assert (z.write_zip_status != status.STATUS_RUNNING)
             pure (stream_read_init z)
           else pure z)
  let (err, z) ← seek_loop (offs + 1) z offs
  if err ≠ error_t.OK then pure (err, z)
  else do
    c_assert (z.read_zip_offs == offs)
    pure (error_t.OK, z)

/-- The loop `while (size > 0)` of the store's read method; `acc` holds the
bytes stored in the caller's buffer so far. -/
def read_loop : Nat → object → Nat → Nat → Nat → Nat → List Nat →
    Run (error_t × List Nat × object)
  | 0, _, _, _, _, _, _ => throw Crash.fuel
  | fuel + 1, z, offset, block, size, block_offset, acc =>
    if size > 0 then
      let read := if size > CACHE_BLOCK_SIZE then CACHE_BLOCK_SIZE - block_offset else size
      match z.blocks[block]? with
      | some (some b) =>
        if block_offset + read > b.length then throw Crash.memory
        else
          read_loop fuel z offset (block + 1) (size - read) 0
            (acc ++ (b.drop block_offset).take read)
      | _ => do
        let (err, z) ← stream_read_seek z offset
        if err ≠ error_t.OK then throw Crash.assertion
        else do
          let (err, data, z) ← stream_read z read
          if err ≠ error_t.OK then pure (err, acc ++ data, z)
          else do
            c_assert (data.length == read)
            read_loop fuel z offset (block + 1) (size - read) 0 (acc ++ data)
    else pure (error_t.OK, acc, z)

/-- The read method of the store, `ZIP (read)`: the error, the bytes stored in
the caller's buffer and the state. -/
def read (z : object) (offset amount : Nat) : Run (error_t × List Nat × object) :=
  if offset ≥ z.size then pure (error_t.EIO, [], z)
  else
    let size := z.size - offset
    let size := if size > amount then amount else size
    read_loop (size + 1) z offset (BLOCK_NUMBER offset) size (BLOCK_RELATIVE_OFFSET offset) []

/-- The function fetch_block of zipstores.c. -/
def fetch_block (z : object) (block : Nat) : Run (error_t × object) := do
  let last_block := BLOCK_NUMBER (size_t_pred z.zip_orig_size)
  c_assert (decide (block ≤ last_block))
  match z.blocks[block]? with
  | none => throw Crash.memory
  | some (some _) => pure (error_t.OK, z)
  | some none => do
    let b := List.replicate CACHE_BLOCK_SIZE 0
    let read := if block = last_block then z.zip_orig_size % CACHE_BLOCK_SIZE else CACHE_BLOCK_SIZE
    let (err, z) ← stream_read_seek z (block <<< CACHE_BLOCK_SIZE_LOG2)
    if err ≠ error_t.OK then throw Crash.assertion
    else do
      let (err, data, z) ← stream_read z read
      let z := { z with blocks := z.blocks.set block (some (memcpy_into b 0 data)) }
      if err = error_t.OK then do
        c_assert (data.length == read)
        pure (err, z)
      else pure (err, z)

/-- The loop `while (size > 0)` of the store's write method. -/
def write_loop : Nat → object → Nat → Nat → Nat → List Nat → Run (error_t × object)
  | 0, _, _, _, _, _ => throw Crash.fuel
  | fuel + 1, z, block, size, offset, data =>
    if size > 0 then do
      let write := if size + offset > CACHE_BLOCK_SIZE then CACHE_BLOCK_SIZE - offset else size
      let (err, z) ← (match z.blocks[block]? with
        | none => throw Crash.memory
        | some (some _) => pure (error_t.OK, z)
        | some none =>
          if block < z.zip_orig_blocks_size then fetch_block z block
          else
            pure (error_t.OK,
              { z with blocks := z.blocks.set block (some (List.replicate CACHE_BLOCK_SIZE 0)) }))
      if err ≠ error_t.OK then pure (err, z)
      else
        match z.blocks[block]? with
        | some (some b) =>
          let z := { z with blocks := z.blocks.set block (some (memcpy_into b offset (data.take write))) }
          write_loop fuel z (block + 1) (size - write) 0 (data.drop write)
        | _ => throw Crash.memory
    else pure (error_t.OK, z)

/-- The write method of the store, `ZIP (write)`: the error, `*amount` and the
state. -/
def write (z : object) (offset : Nat) (buf : List Nat) : Run (error_t × Nat × object) :=
  if offset ≥ z.size then pure (error_t.EIO, 0, z)
  else do
    let size := z.size - offset
    let size := if size > buf.length then buf.length else size
    let (err, z) ← write_loop (size + 1) z (BLOCK_NUMBER offset) size (BLOCK_RELATIVE_OFFSET offset) buf
    pure (err, size, z)

/-- The loop of traverse: the total of the bytes read and the state. -/
def traverse_loop : Nat → object → Nat → Nat → Run (Nat × object)
  | 0, _, _, _ => throw Crash.fuel
  | fuel + 1, z, total_size, block =>
    if z.read_zip_status ≠ status.STATUS_EOF then do
      let (err, data, z) ← stream_read z ZIP_BUFSIZE
      if err ≠ error_t.OK ∨ data.length = 0 then pure (total_size, z)
      else
        let z := if block + 1 ≥ z.blocks.length then
                   { z with blocks := z.blocks ++ List.replicate z.blocks.length none }
                 else z
        traverse_loop fuel z (total_size + data.length) (block + 1)
    else pure (total_size, z)

/-- The open method `ZIP (open)` from the allocation of the object on, for a
compressed file of `source_size` bytes whose compressed data start at
`start_file_offs` and decompress to `stream`. -/
def zip_open (source_size start_file_offs : Nat) (stream : List Nat) : Run object := do
  let z : object :=
    { stream := stream, source_size := source_size, start_file_offs := start_file_offs,
      size := 0, zip_orig_size := 0, zip_orig_blocks_size := 0, blocks := [],
      read_zip_offs := 0, read_zip_status := status.STATUS_IDLE,
      write_zip_offs := 0, write_zip_status := status.STATUS_IDLE, taken := [] }
  let z := stream_read_init z
  let cache_size := (BLOCK_NUMBER z.source_size + 1) <<< 1
  let z := { z with blocks := List.replicate cache_size none }
  let (total, z) ← traverse_loop (stream.length + 2) z 0 0
  pure { z with zip_orig_size := total,
                zip_orig_blocks_size := if total ≠ 0 then BLOCK_NUMBER (total - 1) + 1 else 0,
                size := total }

/-- The function stream_write_init (the library call is taken to succeed). -/
def stream_write_init (z : object) : object :=
  { z with write_zip_offs := 0, write_zip_status := status.STATUS_RUNNING }

/-- The function stream_write, as far as the uncompressed side goes: the
compressor takes the `amount` bytes at `buf`; the error, `*len` and the
state. -/
def stream_write (z : object) (amount : Nat) (buf : List Nat) : Run (error_t × Nat × object) := do
  c_assert (z.write_zip_status != status.STATUS_IDLE)
  if z.write_zip_status = status.STATUS_EOF then pure (error_t.OK, 0, z)
  else
    pure (error_t.OK, amount,
      { z with write_zip_offs := z.write_zip_offs + amount, taken := z.taken ++ [buf.take amount] })

/-- The loop of the sync method that looks for a block in the cache. -/
def dirty_scan (z : object) (last : Nat) : Nat → Nat → Run Bool
  | 0, _ => throw Crash.fuel
  | fuel + 1, block =>
    if block ≤ last then
      match z.blocks[block]? with
      | none => throw Crash.memory
      | some (some _) => pure true
      | some none => dirty_scan z last fuel (block + 1)
    else pure false

/-- The loop of the sync method that hands the blocks to stream_write. -/
def sync_blocks : Nat → object → Nat → Nat → Run object
  | 0, _, _, _ => throw Crash.fuel
  | fuel + 1, z, block, last =>
    if block ≤ last then do
      let amount := if block = last then z.size % CACHE_BLOCK_SIZE else CACHE_BLOCK_SIZE
      let (err, z) ← (match z.blocks[block]? with
        | none => throw Crash.memory
        | some (some _) => pure (error_t.OK, z)
        | some none =>
          if block < z.zip_orig_blocks_size then fetch_block z block
          else
            pure (error_t.OK,
              { z with blocks := z.blocks.set block (some (List.replicate CACHE_BLOCK_SIZE 0)) }))
      if err ≠ error_t.OK then pure z
      else
        match z.blocks[block]? with
        | some (some b) => do
          let (err, _, z) ← stream_write z amount b
          if err ≠ error_t.OK then throw Crash.assertion
          else sync_blocks fuel z (block + 1) last
        | _ => throw Crash.memory
    else pure z

/-- The sync method `ZIP (sync)` up to the label `terminate`.  Both
`store->flags && STORE_READONLY` and `store->flags && STORE_HARD_READONLY` hold
exactly when `flags` is not 0. -/
def sync (z : object) (flags : Nat) : Run object :=
  if flags ≠ 0 then pure z
  else do
    let z := stream_write_init z
    let last := BLOCK_NUMBER (size_t_pred z.size)
    let dirty ← (if z.size ≠ z.zip_orig_size then pure true
                 else dirty_scan z last (last + 2) 0)
    if !dirty then pure z
    else sync_blocks (last + 2) (stream_read_init z) 0 last

end Zip

/-! ## store-gzip.c: the header of a gzip file -/

def GZIP_HEADER_SIZE : Nat := 10

def gzip_magic : List Nat := [0x1f, 0x8b]

def Z_DEFLATED : Nat := 8

def HEAD_CRC : Nat := 0x02
def EXTRA_FIELD : Nat := 0x04
def ORIG_NAME : Nat := 0x08
def COMMENT : Nat := 0x10
def RESERVED : Nat := 0xE0

/-- The value of a `char` object that holds the byte `b`; `char` is signed on
the i386. -/
def char_value (b : Nat) : Int :=
  if b % 256 < 128 then ((b % 256 : Nat) : Int) else ((b % 256 : Nat) : Int) - 256

/-- The value of `*p` for `p = buf + i`, where `bytes` are the bytes stored in
`buf` so far; the rest of the array is not initialised. -/
def buf_at (bytes : List Nat) (i : Nat) : Run Nat :=
  match bytes[i]? with
  | some b => pure b
  | none => throw Crash.memory

/-- The nested function read_next of gzip_read_header: the error, the bytes in
`buf` and `index`. -/
def read_next (store : List Nat) (buf : List Nat) (index : Nat) : error_t × List Nat × Nat :=
  let r := store_read store (index * Zip.ZIP_BUFSIZE) Zip.ZIP_BUFSIZE
  let buf := r ++ buf.drop r.length
  if r.length ≠ Zip.ZIP_BUFSIZE then (error_t.EIO, buf, index + 1)
  else (error_t.OK, buf, index + 1)

/-- The loop `while (size--) if ((p++) - buf >= ZIP_BUFSIZE) ...` that skips the
extra field: the error, the bytes in `buf`, `p - buf` and `index`. -/
def skip_extra_field (store : List Nat) :
    Nat → List Nat → Nat → Nat → error_t × List Nat × Nat × Nat
  | 0, buf, p, index => (error_t.OK, buf, p, index)
  | size + 1, buf, p, index =>
    if p ≥ Zip.ZIP_BUFSIZE then
      match read_next store buf index with
      | (error_t.OK, buf, index) => skip_extra_field store size buf 0 index
      | (err, buf, index) => (err, buf, p + 1, index)
    else skip_extra_field store size buf (p + 1) index

/-- The loop `while (*p) if ((p++) - buf >= ZIP_BUFSIZE) ...` with the `p++`
after it, which skips a string and its NUL. -/
def skip_string (store : List Nat) :
    Nat → List Nat → Nat → Nat → Run (error_t × List Nat × Nat × Nat)
  | 0, _, _, _ => throw Crash.fuel
  | fuel + 1, buf, p, index => do
    let c ← buf_at buf p
    if c ≠ 0 then
      if p ≥ Zip.ZIP_BUFSIZE then
        match read_next store buf index with
        | (error_t.OK, buf, index) => skip_string store fuel buf 0 index
        | (err, buf, index) => pure (err, buf, p + 1, index)
      else skip_string store fuel buf (p + 1) index
    else pure (error_t.OK, buf, p + 1, index)

/-- The function gzip_read_header: the error and `*end_of_header`. -/
def gzip_read_header (store : List Nat) : Run (error_t × Nat) := do
  let buf := store_read store 0 Zip.ZIP_BUFSIZE
  let _ ← buf_at buf (GZIP_HEADER_SIZE - 1)
  let magic := buf.take 2
  let method ← buf_at buf 2
  let flags ← buf_at buf 3
  let p := GZIP_HEADER_SIZE
  if magic ≠ gzip_magic then pure (error_t.EFTYPE, GZIP_HEADER_SIZE)
  else if method ≠ Z_DEFLATED ∨ flags &&& RESERVED ≠ 0 then pure (error_t.EIO, GZIP_HEADER_SIZE)
  else do
    let (err, buf, p, index) ← (
      if flags &&& EXTRA_FIELD ≠ 0 then do
        let b0 ← buf_at buf p
        let b1 ← buf_at buf (p + 1)
        let size := to_u32 ((to_u32 (char_value b0) : Int) + char_value b1 * 256)
        pure (skip_extra_field store size buf (p + 2) 0)
      else pure (error_t.OK, buf, p, 0))
    if err ≠ error_t.OK then pure (err, GZIP_HEADER_SIZE)
    else do
      let (err, buf, p, index) ← (
        if flags &&& ORIG_NAME ≠ 0 then
          skip_string store (store.length + Zip.ZIP_BUFSIZE + 1) buf p index
        else pure (error_t.OK, buf, p, index))
      if err ≠ error_t.OK then pure (err, GZIP_HEADER_SIZE)
      else do
        let (err, _, p, index) ← (
          if flags &&& COMMENT ≠ 0 then
            skip_string store (store.length + Zip.ZIP_BUFSIZE + 1) buf p index
          else pure (error_t.OK, buf, p, index))
        if err ≠ error_t.OK then pure (err, GZIP_HEADER_SIZE)
        else
          let p := if flags &&& HEAD_CRC ≠ 0 then p + 2 else p
          pure (error_t.OK, p + index * Zip.ZIP_BUFSIZE)

/-! ## Inputs for the compressed store -/

/-- The stream of two blocks: 8192 bytes of value 0, then 8192 bytes of value 1. -/
def two_blocks : List Nat := List.replicate 8192 0 ++ List.replicate 8192 1

/-- A gzip file with the flag byte `flags` and the bytes `rest` after the ten
bytes of the fixed header. -/
def gzip_file (flags : Nat) (rest : List Nat) : List Nat :=
  [0x1f, 0x8b, 8, flags, 0, 0, 0, 0, 0, 0] ++ rest

/-! ## The item list as a doubly linked list -/

/-- The items `l`, in this order, are linked from `cur` on: each of them is a
live item whose `prev` is the item before it (`pv` for the first) and whose
`next` is the item after it, and the last one has no `next`. -/
def linked (s : tarfs) : Option Nat → Option Nat → List Nat → Bool
  | _, cur, [] => cur.isNone
  | pv, cur, a :: l =>
    cur == some a &&
      (match s.items[a]? with
       | some it => !it.freed && it.prev == pv && linked s (some a) it.next l
       | none => false)

/-- The item list is well formed (the head has no `prev`, and `x->next->prev`
is `x` for every item) and holds the items `l`, in this order. -/
def list_is (s : tarfs) (l : List Nat) : Prop := linked s none s.tar_list l = true ∧ l.Nodup

/-- The mounted archive `x`, `y`, `z` after tarfs_unlink_node for `y` (node 2),
whose item has lost its node, with a fourth item, made by tar_make_item for
the node of `z` and not yet in the list. -/
def list_with_new_item : Run tarfs := do
  let s ← mount archive_x_y_z
  let (_, s) ← tarfs_unlink_node s 2
  let (_, _, s) ← tar_make_item s 3 0 (-1)
  pure s

/-! ## An unmodified mount -/

set_option maxRecDepth 100000 in
/-- C2 (write-read law), evaluated where it fails: on a new regular file,
cache_write of 100 bytes at offset 1000 succeeds (24 bytes go to block 0, 76 to
block 1), but cache_read of the same range takes `read = size = 100` for the
first block and copies 100 bytes from offset 1000 of the 1024-byte block 0: it
runs 76 bytes past the block instead of returning the bytes written. -/
theorem C2_read_after_write_across_blocks :
    (do
      let s ← one_new_file
      let (err, amount, s) ← cache_write s 1 1000 (List.replicate 100 7)
      pure (err, amount, cache_read s 1 1000 100) : Run _)
      = Except.ok (error_t.OK, 100, Except.error Crash.memory) := by
  decide!

set_option maxRecDepth 100000 in
/-- C4 (cache idempotence), evaluated where it fails: for a member of exactly
1024 bytes (all of value 7 in the archive), cache_cache of the whole file
succeeds, and cache_read then returns 1024 zero bytes: fetch_block reads
`size % CACHE_BLOCK_SIZE = 0` bytes into the last block.  Before cache_cache
the same read returns the archive's bytes. -/
theorem C4_cache_cache_whole_block_file :
    (do
      let s ← mount archive_one_block
      let before ← cache_read s 1 0 1024
      let (err, s) ← cache_cache s 1 1024
      let after ← cache_read s 1 0 1024
      pure (before, err, after) : Run _)
      = Except.ok ((error_t.OK, List.replicate 1024 7), error_t.OK,
          (error_t.OK, List.replicate 1024 0)) := by
  decide!

/-! ## Theorems: hard links and read-only mounts -/

set_option synthInstance.maxSize 2048
set_option synthInstance.maxHeartbeats 200000

set_option maxRecDepth 100000 in
/-- C7 (writing through a hard-link alias), evaluated where it fails: with `b`
a hard link to the regular file `a` on a writable mount, tarfs_write_node on
`b` does not return: it passes the alias itself to cache_write, whose first
statement is `assert (!node->nn->hardlink)`. -/
theorem C7_write_through_alias_aborts :
    (do
      let s ← file_with_two_links
      let nn ← get_nn s 2
      pure (s.readonly, nn.hardlink, tarfs_write_node s 2 0 [1, 2, 3]) : Run _)
      = Except.ok (false, some 1, Except.error Crash.assertion) := by
  decide!

/-- C8 (read-only rejection of write): on a read-only mount tarfs_write_node
returns EROFS for every node, offset and data, and the whole state (sizes,
cache blocks, item list) is the one it was called with. -/
theorem C8_write_on_readonly (s : tarfs) (n offset : Nat) (data : List Nat)
    (h : s.readonly = true) :
    tarfs_write_node s n offset data = Except.ok (error_t.EROFS, data.length, s) := by
  simp [tarfs_write_node, h, pure, Except.pure]

set_option maxRecDepth 100000 in
/-- C8 at a concrete read-only filesystem holding the file `a`. -/
theorem C8_write_on_readonly_witness :
    readonly_fs = Except.ok (state_of readonly_fs) ∧ (state_of readonly_fs).readonly = true ∧
      tarfs_write_node (state_of readonly_fs) 1 0 [1, 2, 3] =
        Except.ok (error_t.EROFS, 3, state_of readonly_fs) :=
  ⟨by decide!, by decide!,
    C8_write_on_readonly (state_of readonly_fs) 1 0 [1, 2, 3] (by decide!)⟩

set_option maxRecDepth 100000 in
/-- C9 (every mutating operation is rejected on a read-only mount), evaluated
where it fails: on a read-only filesystem holding the regular file `a`,
tarfs_symlink_node returns success and turns `a` into a symlink of size 1, and
tarfs_link_node returns success and adds a node and a tar item; neither tests
`tarfs_options.readonly`. -/
theorem C9_symlink_and_link_on_readonly :
    (do
      let s ← readonly_fs
      let (e1, s1) ← tarfs_symlink_node s 1 [120]
      let x1 ← get_node s1 1
      let nn1 ← get_nn s1 1
      let (e2, s2) ← tarfs_link_node s 0 1 [98] true
      pure (s.readonly, e1, nn1.symlink, x1.nn_stat.st_size, e2,
        s.nodes.length, s2.nodes.length, s.items.length, s2.items.length) : Run _)
      = Except.ok (true, error_t.OK, some [120], 1, error_t.OK, 2, 3, 1, 2) := by
  decide!

set_option maxRecDepth 100000 in
/-- C10 (unlink failure conditions), evaluated where it fails: `c`, the second
hard link made to `a`, has no children and no alias of its own, yet
fs_unlink_node returns EBUSY for it (its st_nlink is the copy 2 taken from the
target); and `b`, a hard link that is the first entry of its directory, makes
fs_unlink_node stop at `assert (node->prevp)`, fs_hard_link_node having left
`prevp` NULL. -/
theorem C10_unlink_of_alias :
    (do
      let s ← file_with_two_links
      let c ← get_nn s 3
      let (err, _) ← fs_unlink_node s 3
      let t ← link_in_new_dir
      let b ← get_nn t 3
      pure (c.hardlink, c.entries, err, b.hardlink, b.entries,
        (fs_unlink_node t 3).map (fun r => r.1)) : Run _)
      = Except.ok (some 1, none, error_t.EBUSY, some 1, none,
          Except.error Crash.assertion) := by
  decide!

/-! ## Theorems: mount and sync -/

set_option maxRecDepth 100000 in
/-- C1 (round trip of mount and sync), evaluated where it fails: the archive
holds the file `a` and the hard link `b` to it.  After mounting, `b` (node 2)
aliases `a` (node 1).  tarfs_sync_fs succeeds and rewrites the record of `b`
with linkflag `0` (a regular file): tar_make_header tests S_ISREG before it
looks at the hard-link argument, and the alias carries the target's mode.
Mounting the rewritten archive gives a node `b` that is no hard link. -/
theorem C1_sync_rewrites_hard_link_as_file :
    (do
      let s ← mount archive_with_link
      let nn ← get_nn s 2
      let (err, s') ← tarfs_sync_fs ns_none s
      let t ← mount s'.tar_file
      let nn' ← get_nn t 2
      pure (byte_at archive_with_link (1024 + OFF_linkflag), nn.name, nn.hardlink,
        err, byte_at s'.tar_file (1024 + OFF_linkflag), nn'.name, nn'.hardlink) : Run _)
      = Except.ok (LF_LINK, some [98], some 1, error_t.OK, LF_NORMAL, some [98], none) := by
  decide!

set_option maxRecDepth 100000 in
/-- C3 (sync destroys no data), evaluated where it fails: the archive holds `x`
(empty) and `y` (1000 bytes of value 7).  After 100 bytes are written to `x`,
`y` still reads as its 1000 bytes.  tarfs_sync_fs succeeds, but while it writes
the record of `x` over the old header of `y` and then the new header of `y`,
cache_ahead calls cache_cache (y, 512), which sets st_size of `y` to 512: after
the sync `y` is 512 bytes long. -/
theorem C3_sync_truncates_unvisited_file :
    (do
      let s ← mount archive_x_y
      let (e0, amount, s) ← tarfs_write_node s 1 0 (List.replicate 100 9)
      let before ← tarfs_read_node s 2 0 1000
      let y ← get_node s 2
      let (err, s') ← tarfs_sync_fs ns_none s
      let y' ← get_node s' 2
      let after ← tarfs_read_node s' 2 0 1000
      pure (e0, amount, before == (error_t.OK, List.replicate 1000 7), y.nn_stat.st_size,
        err, y'.nn_stat.st_size, after.2.length) : Run _)
      = Except.ok (error_t.OK, 100, true, 1000, error_t.OK, 512, 512) := by
  decide!

/-! ## Theorems: the archive size after a sync -/

theorem bind_ok {α β : Type} (x : Run α) (f : α → Run β) (b : β) :
    (x >>= f) = Except.ok b ↔ ∃ a, x = Except.ok a ∧ f a = Except.ok b := by
  cases x <;> simp [bind, Except.bind]

theorem synced_blocks_all_null (l : List slot) (h : l.all (fun b => b == slot.null) = true) :
    synced_blocks l = Except.ok true := by
  induction l with
  | nil => rfl
  | cons a t ih =>
    simp only [List.all_cons, Bool.and_eq_true, beq_iff_eq] at h
    obtain ⟨ha, ht⟩ := h
    subst ha
    simp only [synced_blocks]
    exact ih ht

theorem any_uninit_all_null (l : List slot) (h : l.all (fun b => b == slot.null) = true) :
    l.any (fun b => b == slot.uninit) = false := by
  induction l with
  | nil => rfl
  | cons a t ih =>
    simp only [List.all_cons, Bool.and_eq_true, beq_iff_eq] at h
    obtain ⟨ha, ht⟩ := h
    subst ha
    simp [ih ht]

theorem get_item_of (s : tarfs) (t : Nat) (it : tar_item) (h : s.items[t]? = some it)
    (hf : it.freed = false) : get_item s t = Except.ok it := by
  simp [get_item, h, hf, pure, Except.pure]

theorem get_node_of (s : tarfs) (n : Nat) (x : node) (h : s.nodes[n]? = some x) :
    get_node s n = Except.ok x := by
  simp [get_node, h, pure, Except.pure]

theorem get_nn_of (s : tarfs) (n : Nat) (x : node) (nn : netnode) (h : s.nodes[n]? = some x)
    (hnn : x.nn = some nn) : get_nn s n = Except.ok nn := by
  simp [get_nn, get_node_of s n x h, hnn, bind, Except.bind, pure, Except.pure]

theorem NODE_INFO_of (s : tarfs) (n : Nat) (x : node) (nn : netnode) (info : tarfs_info)
    (h : s.nodes[n]? = some x) (hnn : x.nn = some nn) (hi : nn.info = some info) :
    NODE_INFO s n = Except.ok info := by
  simp [NODE_INFO, get_nn_of s n x nn h hnn, hi, bind, Except.bind, pure, Except.pure]

theorem set_item_same (s : tarfs) (t : Nat) (it : tar_item) (h : s.items[t]? = some it) :
    set_item s t it = s := by
  unfold set_item
  have : s.items.set t it = s.items := by
    apply List.ext_getElem?
    intro i
    by_cases hi : t = i
    · subst hi
      rw [List.getElem?_set_self']
      simp [h]
    · simp [List.getElem?_set_ne hi]
  rw [this]

theorem cache_synced_of (s : tarfs) (n : Nat) (x : node) (nn : netnode) (info : tarfs_info)
    (h : s.nodes[n]? = some x) (hnn : x.nn = some nn) (hi : nn.info = some info)
    (hbl : info.cache.blocks.all (fun b => b == slot.null) = true) :
    cache_synced s n = Except.ok true := by
  simp [cache_synced, __cache_synced, NODE_INFO_of s n x nn info h hnn hi, bind, Except.bind,
    synced_blocks_all_null _ hbl]

theorem cache_free_of (s : tarfs) (n : Nat) (x : node) (nn : netnode) (info : tarfs_info)
    (h : s.nodes[n]? = some x) (hnn : x.nn = some nn) (hi : nn.info = some info)
    (hbl : info.cache.blocks.all (fun b => b == slot.null) = true) :
    cache_free s n = Except.ok (error_t.OK,
      set_node s n { x with nn := some { nn with info := some { info with cache := { blocks := [] } } } }) := by
  simp [cache_free, set_blocks, set_info, set_nn, NODE_INFO_of s n x nn info h hnn hi,
    get_nn_of s n x nn h hnn, get_node_of s n x h, bind, Except.bind, pure, Except.pure,
    any_uninit_all_null _ hbl]

theorem nframe_mono {N N' : Nat} {s s' : tarfs} (hN : N' ≤ N) (h : nframe N s s') :
    nframe N' s s' := by
  refine ⟨h.1, ?_⟩
  intro m x hx
  obtain ⟨x2, h2, d2, t2⟩ := h.2 m x hx
  exact ⟨x2, h2, d2, fun hm => t2 (Nat.lt_of_lt_of_le hm hN)⟩

theorem getElem?_lt {α : Type} (l : List α) (n : Nat) (x : α) (h : l[n]? = some x) : n < l.length := by
  rcases Nat.lt_or_ge n l.length with h' | h'
  · exact h'
  · rw [List.getElem?_eq_none h'] at h; cases h

theorem oframe_refl (K : Nat) (s : tarfs) : oframe K s s := by
  refine ⟨rfl, ?_⟩
  intro _ x h
  exact ⟨x, h, fun _ => ⟨rfl, rfl⟩⟩

theorem get_set_node_self (s : tarfs) (n : Nat) (x x' : node) (h : s.nodes[n]? = some x) :
    (set_node s n x').nodes[n]? = some x' := by
  simp [set_node, List.getElem?_set_self (getElem?_lt _ _ _ h)]

set_option maxRecDepth 100000 in
/-- C11 (name length limit on create), evaluated where it fails: in the root
of a writable mount a name of 100 bytes, whose path from the root is 100 bytes
long, is refused with ENAMETOOLONG and nothing is created, because
tarfs_create_node tests `strlen (name) + strlen (path) + 1 > NAMSIZ` also when
the parent's path is empty; a name of 98 bytes in the directory `d`, whose
path is 100 bytes long as well, is created. -/
theorem C11_create_name_of_100_bytes_in_root :
    (do
      let s ← mount []
      let (e, n, s') ← tarfs_create_node s 0 (some (List.replicate 100 97)) (S_IFREG ||| 0o644)
      let (_, _, s1) ← tarfs_create_node s 0 (some [100]) (S_IFDIR ||| 0o755)
      let path ← fs_get_path_from_root s1 s1.netfs_root_node 1
      let (e2, n2, s2) ← tarfs_create_node s1 1 (some (List.replicate 98 97)) (S_IFREG ||| 0o644)
      pure (s.readonly, e, n, decide (s' = s), path, e2, n2, s2.nodes.length,
        s2.items.length) : Run _)
      = Except.ok (false, error_t.ENAMETOOLONG, none, true, [100], error_t.OK, some 2, 3, 2) := by
  decide!

/-! ## Theorems: octal fields -/

theorem from_oct_skip_spaces (w : List Nat) (hw : w.head? ≠ some 32) :
    ∀ (k digs : Nat), k < digs →
      from_oct_skip (List.replicate k 32 ++ w) digs = some (w, digs - k) := by
  intro k
  induction k with
  | zero =>
    intro digs _
    cases w with
    | nil => simp [from_oct_skip]
    | cons c rest =>
      have hc : c ≠ 32 := by
        intro h
        apply hw
        simp [h]
      simp [from_oct_skip, hc]
  | succ k ih =>
    intro digs hk
    have h1 : digs - 1 ≠ 0 := by omega
    have h2 : digs - 1 - k = digs - (k + 1) := by omega
    simp only [List.replicate_succ, List.cons_append, from_oct_skip, if_true, h1, if_false,
      List.append_eq]
    rw [ih (digs - 1) (by omega), h2]

theorem from_oct_scan_digits (rest : List Nat) :
    ∀ (D : List Nat) (digs acc : Nat), all_octal D → D.length ≤ digs →
      (D.length = digs ∨ ¬ (48 ≤ rest.headD 0 ∧ rest.headD 0 ≤ 55)) →
      from_oct_scan (D ++ rest) digs acc =
        (D.foldl (fun v c => v * 8 + (c - 48)) acc, rest, digs - D.length) := by
  intro D
  induction D with
  | nil =>
    intro digs acc _ _ hstop
    cases rest with
    | nil => simp [from_oct_scan]
    | cons c r =>
      have : ¬ (digs > 0 ∧ 48 ≤ c ∧ c ≤ 55) := by
        rcases hstop with h | h
        · simp at h
          omega
        · simp at h
          omega
      simp [from_oct_scan, this]
  | cons d D ih =>
    intro digs acc hD hlen hstop
    have hd := hD d (List.mem_cons_self _ _)
    have hD' : all_octal D := fun c hc => hD c (List.mem_cons_of_mem _ hc)
    simp only [List.length_cons] at hlen hstop
    have hpos : digs > 0 ∧ 48 ≤ d ∧ d ≤ 55 := ⟨by omega, hd.1, hd.2⟩
    simp only [List.cons_append, from_oct_scan, hpos, and_self, if_true, List.foldl_cons,
      List.length_cons, List.append_eq]
    rw [ih (digs - 1) _ hD' (by omega) (by rcases hstop with h | h; exact Or.inl (by omega); exact Or.inr h)]
    have : digs - 1 - D.length = digs - (D.length + 1) := by omega
    rw [this]

theorem to_long_small (v : Nat) (h : v < 2 ^ 31) : to_long (v : Int) = (v : Int) := by
  unfold to_long
  have h1 : ((v : Int) + 2 ^ 31) % 2 ^ 32 = (v : Int) + 2 ^ 31 := by
    apply Int.emod_eq_of_lt
    · omega
    · omega
  omega

/-- The value from_oct returns for blanks, digits and what follows them. -/
theorem from_oct_digits (digs k : Nat) (D rest : List Nat) (hD : all_octal D)
    (hw : (D ++ rest).head? ≠ some 32) (hlen : k + D.length ≤ digs) (hk : k < digs)
    (hstop : k + D.length = digs ∨ ¬ (48 ≤ rest.headD 0 ∧ rest.headD 0 ≤ 55)) :
    from_oct digs (List.replicate k 32 ++ D ++ rest) =
      if digs - k - D.length > 0 ∧ rest.headD 0 ≠ 0 ∧ rest.headD 0 ≠ 32 then -1
      else to_long (oct_value D) := by
  unfold from_oct
  rw [List.append_assoc, from_oct_skip_spaces _ hw k digs hk]
  simp only
  rw [from_oct_scan_digits rest D (digs - k) 0 hD (by omega)
    (by rcases hstop with h | h; exact Or.inl (by omega); exact Or.inr h)]
  simp only [oct_value]

theorem byte_sum_append (a b : List Nat) : byte_sum (a ++ b) = byte_sum a + byte_sum b := by
  simp [byte_sum]

theorem signed_byte_sum_append (a b : List Nat) :
    signed_byte_sum (a ++ b) = signed_byte_sum a + signed_byte_sum b := by
  simp [signed_byte_sum]

theorem split_at_chksum (r : List Nat) :
    r = r.take OFF_chksum ++ ((r.drop OFF_chksum).take 8 ++ r.drop (OFF_chksum + 8)) := by
  have h1 : r.drop (OFF_chksum + 8) = (r.drop OFF_chksum).drop 8 := by
    rw [List.drop_drop, Nat.add_comm]
  rw [h1, List.take_append_drop, List.take_append_drop]

theorem byte_sum_blanked (r : List Nat) :
    (byte_sum (blanked r) : Int) =
      (byte_sum r : Int) - (byte_sum ((r.drop OFF_chksum).take 8) : Int) + 32 * 8 := by
  have h := congrArg byte_sum (split_at_chksum r)
  rw [byte_sum_append, byte_sum_append] at h
  have hb : byte_sum (blanked r) =
      byte_sum (r.take OFF_chksum) + (256 + byte_sum (r.drop (OFF_chksum + 8))) := by
    unfold blanked memcpy_into
    rw [List.append_assoc, byte_sum_append, byte_sum_append]
    rfl
  omega

theorem signed_byte_sum_blanked (r : List Nat) :
    signed_byte_sum (blanked r) =
      signed_byte_sum r - signed_byte_sum ((r.drop OFF_chksum).take 8) + 32 * 8 := by
  have h := congrArg signed_byte_sum (split_at_chksum r)
  rw [signed_byte_sum_append, signed_byte_sum_append] at h
  have hb : signed_byte_sum (blanked r) =
      signed_byte_sum (r.take OFF_chksum) + (256 + signed_byte_sum (r.drop (OFF_chksum + 8))) := by
    unfold blanked memcpy_into
    rw [List.append_assoc, signed_byte_sum_append, signed_byte_sum_append]
    rfl
  omega

theorem get_next_record_length {s : tarfs} {pos : Nat} {header : List Nat} {pos' : Nat}
    (hrec : get_next_record s pos = some (header, pos')) : header.length = RECORDSIZE := by
  unfold get_next_record at hrec
  simp only at hrec
  split at hrec
  · rename_i hlen
    injection hrec with hrec
    injection hrec with h1 _
    rw [← h1]
    exact hlen
  · cases hrec

theorem promoted_linkflag (header : List Nat) (c : Prop) [Decidable c]
    (hlen : header.length = RECORDSIZE) :
    byte_at (if c then memcpy_into header OFF_linkflag [LF_DIR] else header) OFF_linkflag =
      (if c then LF_DIR else byte_at header OFF_linkflag) := by
  split
  · have h : (header.take OFF_linkflag).length = OFF_linkflag := by
      rw [List.length_take, hlen]
      decide
    unfold byte_at memcpy_into
    rw [List.append_assoc, List.getElem?_append_right (by rw [h])]
    simp [h]
  · rfl

/-- The three outcomes of read_header for the record at the current position:
a zero record is the end mark, a record whose checksum field matches neither
sum is bad, and for any other record that is no long-name or long-link record
the function returns, if it returns, STATUS_SUCCESS. -/
theorem read_header_outcome (ns : name_service) (stale : List Nat) (fuel : Nat) (s : tarfs)
    (pos : Nat) (header : List Nat) (pos' : Nat)
    (hrec : get_next_record s pos = some (header, pos')) :
    ((byte_sum (blanked header) : Int) = 8 * 32 →
      read_header ns stale (fuel + 1) s pos = Except.ok (ReadStatus.STATUS_EOFMARK, pos', s)) ∧
    ((byte_sum (blanked header) : Int) ≠ 8 * 32 →
      (byte_sum (blanked header) : Int) ≠ from_oct 8 (header.drop OFF_chksum) →
      signed_byte_sum (blanked header) ≠ from_oct 8 (header.drop OFF_chksum) →
      read_header ns stale (fuel + 1) s pos =
        Except.ok (ReadStatus.STATUS_BADCHECKSUM, pos', s)) ∧
    ((byte_sum (blanked header) : Int) ≠ 8 * 32 →
      ((byte_sum (blanked header) : Int) = from_oct 8 (header.drop OFF_chksum) ∨
        signed_byte_sum (blanked header) = from_oct 8 (header.drop OFF_chksum)) →
      byte_at header OFF_linkflag ≠ LF_LONGNAME → byte_at header OFF_linkflag ≠ LF_LONGLINK →
      ∀ r, read_header ns stale (fuel + 1) s pos = Except.ok r →
        r.1 = ReadStatus.STATUS_SUCCESS) := by
  have hlen := get_next_record_length hrec
  refine ⟨?_, ?_, ?_⟩
  · intro h1
    unfold read_header
    simp only [hrec, ← byte_sum_blanked, ← signed_byte_sum_blanked, h1, if_true]
    rfl
  · intro h1 h2 h3
    unfold read_header
    simp only [hrec, ← byte_sum_blanked, ← signed_byte_sum_blanked, h1, if_false, ne_eq, h2, h3,
      not_false_eq_true, and_self, if_true]
    rfl
  · intro h1 h2 hL hK r hr
    have h2' : ¬ ((byte_sum (blanked header) : Int) ≠ from_oct 8 (header.drop OFF_chksum) ∧
        signed_byte_sum (blanked header) ≠ from_oct 8 (header.drop OFF_chksum)) := by
      rintro ⟨a, b⟩
      rcases h2 with h | h
      · exact a h
      · exact b h
    unfold read_header at hr
    simp only [hrec, ← byte_sum_blanked, ← signed_byte_sum_blanked, h1, if_false, h2',
      promoted_linkflag header _ hlen] at hr
    have hflag : ∀ (c : Prop) [Decidable c],
        ¬ ((if c then LF_DIR else byte_at header OFF_linkflag) = LF_LONGNAME ∨
          (if c then LF_DIR else byte_at header OFF_linkflag) = LF_LONGLINK) := by
      intro c _
      split
      · decide
      · exact fun h => h.elim hL hK
    rw [if_neg (hflag _)] at hr
    simp only [bind, Except.bind, pure, Except.pure] at hr
    split at hr
    · cases hr
    · split at hr
      · cases hr
      · injection hr with hr
        rw [← hr]

theorem get_next_record_zero (s : tarfs) (pos : Nat)
    (h : store_read s.tar_file pos RECORDSIZE = List.replicate RECORDSIZE 0) :
    get_next_record s pos = some (List.replicate RECORDSIZE 0, pos + RECORDSIZE) := by
  unfold get_next_record
  simp [h]

set_option maxRecDepth 100000 in
theorem byte_sum_zero_record :
    (byte_sum (blanked (List.replicate RECORDSIZE 0)) : Int) = 8 * 32 := by
  decide!

/-- C18, what holds instead: when the record at the current position is all
zeros, the loop of tar_open_archive ends there and returns 0 with the
filesystem as it is, whatever the status of the record before and whatever
follows in the archive. -/
theorem C18_archive_ends_at_first_marker (ns : name_service) (stale : List Nat) (fuel : Nat)
    (s : tarfs) (pos : Nat) (status : ReadStatus)
    (h : store_read s.tar_file pos RECORDSIZE = List.replicate RECORDSIZE 0) :
    tar_open_archive_loop ns stale (fuel + 1) s pos status = Except.ok (0, s) := by
  have hread := (read_header_outcome ns stale s.tar_file.length s pos _ _
    (get_next_record_zero s pos h)).1 byte_sum_zero_record
  unfold tar_open_archive_loop
  simp only [hread, bind, Except.bind, pure, Except.pure]

set_option maxRecDepth 100000 in
/-- C18 where it fails: the archive holds `x`, one zero record, `y` and two
zero records.  The mount returns with the root and `x` only: the header of `y`
never reaches tarfs_add_header. -/
theorem C18_single_marker_ends_archive :
    (mount archive_marker_inside).map
      (fun s => s.nodes.map (fun x => x.nn.bind (fun nn => nn.name)))
      = Except.ok [none, some [120]] := by
  decide!

set_option maxRecDepth 100000 in
/-- C18 at the archive that starts with one zero record, followed by the
header of `y`: tar_open_archive returns 0 and the filesystem holds the root
only. -/
theorem C18_archive_ends_at_first_marker_witness :
    store_read (root_on (List.replicate 512 0 ++ header_of 0o100644 0 [121] none)).tar_file 0
      RECORDSIZE = List.replicate RECORDSIZE 0 ∧
    tar_open_archive_loop ns_none [] (0 + 1)
      (root_on (List.replicate 512 0 ++ header_of 0o100644 0 [121] none)) 0
      ReadStatus.STATUS_EOFMARK =
        Except.ok (0, root_on (List.replicate 512 0 ++ header_of 0o100644 0 [121] none)) ∧
    (root_on (List.replicate 512 0 ++ header_of 0o100644 0 [121] none)).nodes.length = 1 :=
  ⟨by decide!,
    C18_archive_ends_at_first_marker ns_none [] 0
      (root_on (List.replicate 512 0 ++ header_of 0o100644 0 [121] none)) 0
      ReadStatus.STATUS_EOFMARK (by decide!),
    by decide!⟩

/-! ## Theorems: the records tar_make_header builds -/

theorem memcpy_into_length (dst : List Nat) (pos : Nat) (src : List Nat)
    (h : pos + src.length ≤ dst.length) : (memcpy_into dst pos src).length = dst.length := by
  unfold memcpy_into
  simp only [List.length_append, List.length_take, List.length_drop]
  omega

theorem memcpy_into_take (dst : List Nat) (pos : Nat) (src : List Nat) (n : Nat)
    (hn : n ≤ pos) (hp : pos ≤ dst.length) :
    (memcpy_into dst pos src).take n = dst.take n := by
  unfold memcpy_into
  rw [List.append_assoc, List.take_append_of_le_length (by rw [List.length_take]; omega),
    List.take_take, Nat.min_eq_left hn]

theorem memcpy_into_drop (dst : List Nat) (pos : Nat) (src : List Nat) (n : Nat)
    (hn : pos + src.length ≤ n) (hp : pos ≤ dst.length) :
    (memcpy_into dst pos src).drop n = dst.drop n := by
  unfold memcpy_into
  have h1 : (dst.take pos ++ src).length = pos + src.length := by
    rw [List.length_append, List.length_take, Nat.min_eq_left hp]
  rw [List.drop_append_eq_append_drop, h1, List.drop_drop,
    List.drop_eq_nil_of_le (by rw [h1]; exact hn), List.nil_append]
  congr 1
  omega

theorem memcpy_into_drop_at (dst : List Nat) (pos : Nat) (src : List Nat)
    (hp : pos ≤ dst.length) :
    (memcpy_into dst pos src).drop pos = src ++ dst.drop (pos + src.length) := by
  unfold memcpy_into
  have h1 : (dst.take pos).length = pos := by
    rw [List.length_take, Nat.min_eq_left hp]
  rw [List.append_assoc, List.drop_append_eq_append_drop, h1, Nat.sub_self, List.drop_zero,
    List.drop_eq_nil_of_le (by rw [h1]), List.nil_append]

/-- A field read at `off`: when `h` agrees with `g` below `off + F.length` and `g`
holds `F` at `off`, then `h` holds `F` at `off`. -/
theorem field_at (h g F R : List Nat) (off : Nat)
    (ht : h.take (off + F.length) = g.take (off + F.length))
    (hg : g.drop off = F ++ R) : h.drop off = F ++ h.drop (off + F.length) := by
  have h1 : (h.drop off).take F.length = F := by
    have : (h.take (off + F.length)).drop off = (h.drop off).take F.length := by
      rw [List.drop_take]
      congr 1
      omega
    rw [← this, ht, List.drop_take, hg]
    have : off + F.length - off = F.length := by omega
    rw [this, List.take_left']
    rfl
  have h2 := List.take_append_drop F.length (h.drop off)
  rw [h1, List.drop_drop] at h2
  rw [← h2]

theorem oct_rev_octal : ∀ (fuel v : Nat), all_octal (oct_rev fuel v) := by
  intro fuel
  induction fuel with
  | zero =>
    intro v c hc
    simp [oct_rev] at hc
  | succ fuel ih =>
    intro v c hc
    unfold oct_rev at hc
    split at hc
    · simp only [List.mem_singleton] at hc
      omega
    · simp only [List.mem_cons] at hc
      rcases hc with h | h
      · omega
      · exact ih _ c h

theorem oct_rev_length_le : ∀ (fuel v : Nat), (oct_rev fuel v).length ≤ fuel := by
  intro fuel
  induction fuel with
  | zero => intro v; simp [oct_rev]
  | succ fuel ih =>
    intro v
    unfold oct_rev
    split
    · simp
    · have := ih (v / 8)
      simp only [List.length_cons]
      omega

theorem oct_rev_length : ∀ (fuel k v : Nat), v < 8 ^ k → 1 ≤ k → k ≤ fuel →
    1 ≤ (oct_rev fuel v).length ∧ (oct_rev fuel v).length ≤ k := by
  intro fuel
  induction fuel with
  | zero => intro k v _ h1 h2; omega
  | succ fuel ih =>
    intro k v hv h1 h2
    unfold oct_rev
    split
    · simp only [List.length_singleton]
      omega
    · rename_i h8
      obtain ⟨j, rfl⟩ : ∃ j, k = j + 1 := ⟨k - 1, by omega⟩
      have hj : 1 ≤ j := by
        rcases Nat.eq_zero_or_pos j with h | h
        · subst h
          simp at hv
          omega
        · exact h
      have hv' : v / 8 < 8 ^ j := by
        rw [Nat.div_lt_iff_lt_mul (by decide)]
        rw [Nat.pow_succ] at hv
        exact hv
      have := ih j (v / 8) hv' hj (by omega)
      simp only [List.length_cons]
      omega

theorem oct_rev_value : ∀ (fuel v : Nat), v < 8 ^ fuel →
    (oct_rev fuel v).foldr (fun c acc => acc * 8 + (c - 48)) 0 = v := by
  intro fuel
  induction fuel with
  | zero => intro v hv; simp at hv; subst hv; simp [oct_rev]
  | succ fuel ih =>
    intro v hv
    unfold oct_rev
    split
    · simp
    · have hv' : v / 8 < 8 ^ fuel := by
        rw [Nat.div_lt_iff_lt_mul (by decide)]
        rw [Nat.pow_succ] at hv
        exact hv
      simp only [List.foldr_cons, ih _ hv']
      omega

theorem oct_value_zeros (n : Nat) (d : List Nat) :
    oct_value (List.replicate n 48 ++ d) = oct_value d := by
  unfold oct_value
  rw [List.foldl_append]
  congr 1
  induction n with
  | zero => rfl
  | succ n ih => simp [List.replicate_succ, ih]

/-- What sprintf stores for a value that fits the width: `w` octal digits that
denote the value, and a NUL. -/
theorem sprintf_oct_spec (w v : Nat) (hw : 1 ≤ w) (hw64 : w ≤ 64) (hv : v < 8 ^ w) :
    ∃ D, sprintf_oct w v = D ++ [0] ∧ D.length = w ∧ all_octal D ∧ oct_value D = v := by
  have hlen := oct_rev_length 64 w v hv hw hw64
  have hv64 : v < 8 ^ 64 := Nat.lt_of_lt_of_le hv (Nat.pow_le_pow_right (by decide) hw64)
  refine ⟨List.replicate (w - (oct_rev 64 v).reverse.length) 48 ++ (oct_rev 64 v).reverse,
    rfl, ?_, ?_, ?_⟩
  · simp only [List.length_append, List.length_replicate, List.length_reverse]
    omega
  · intro c hc
    simp only [List.mem_append, List.mem_replicate, List.mem_reverse] at hc
    rcases hc with ⟨_, h⟩ | h
    · omega
    · exact oct_rev_octal 64 v c h
  · rw [oct_value_zeros]
    unfold oct_value
    rw [List.foldl_reverse]
    exact oct_rev_value 64 v hv64

theorem sprintf_oct_length_le (w v : Nat) : (sprintf_oct w v).length ≤ w + 65 := by
  have := oct_rev_length_le 64 v
  simp only [sprintf_oct, List.length_append, List.length_replicate, List.length_reverse,
    List.length_singleton]
  omega

/-- The value from_oct reads from a field that sprintf filled. -/
theorem from_oct_sprintf (digs w v : Nat) (rest : List Nat) (hw : 1 ≤ w) (hw64 : w ≤ 64)
    (hv : v < 8 ^ w) (hd : w < digs) :
    from_oct digs (sprintf_oct w v ++ rest) = to_long (v : Int) := by
  obtain ⟨D, hD, hlen, hoct, hval⟩ := sprintf_oct_spec w v hw hw64 hv
  have hw0 : (D ++ (0 :: rest)).head? ≠ some 32 := by
    cases D with
    | nil => simp
    | cons d D =>
      have := hoct d (List.mem_cons_self _ _)
      simp only [List.cons_append, List.head?_cons, ne_eq, Option.some.injEq]
      omega
  have h := from_oct_digits digs 0 D (0 :: rest) hoct hw0 (by omega) (by omega)
    (Or.inr (by simp))
  simp only [List.replicate_zero, List.nil_append, List.headD_cons, ne_eq, not_true_eq_false,
    false_and, and_false, if_false] at h
  rw [hD, List.append_assoc, List.singleton_append, h, hval]

theorem memcpy_into_length' (dst : List Nat) (pos : Nat) (src : List Nat) (n : Nat)
    (hd : dst.length = n) (h : pos + src.length ≤ n) : (memcpy_into dst pos src).length = n := by
  rw [memcpy_into_length _ _ _ (by rw [hd]; exact h), hd]

/-- The layout of `header_fields`: 512 bytes that hold the mtime digits at
OFF_mtime and, when they have the width of their fields, the size digits at
OFF_size and the mode digits at OFF_mode. -/
theorem header_fields_spec (st : io_statbuf_t) (name : List Nat) (hn : name.length ≤ NAMSIZ) :
    (header_fields st name).length = RECORDSIZE ∧
    (∃ R, (header_fields st name).drop OFF_mtime =
      sprintf_oct 11 (to_u32 st.st_mtime) ++ R) ∧
    ((sprintf_oct 11 (st.st_size % 2 ^ 64)).length = 12 →
      ∃ R, (header_fields st name).drop OFF_size = sprintf_oct 11 (st.st_size % 2 ^ 64) ++ R) ∧
    ((sprintf_oct 7 (st.st_mode % 2 ^ 32)).length = 8 →
      ∃ R, (header_fields st name).drop OFF_mode = sprintf_oct 7 (st.st_mode % 2 ^ 32) ++ R) := by
  simp only [NAMSIZ] at hn
  have s1 := sprintf_oct_length_le 7 (st.st_mode % 2 ^ 32)
  have s2 := sprintf_oct_length_le 7 (st.st_uid % 2 ^ 32)
  have s3 := sprintf_oct_length_le 7 (st.st_gid % 2 ^ 32)
  have s4 := sprintf_oct_length_le 11 (st.st_size % 2 ^ 64)
  have s5 := sprintf_oct_length_le 11 (to_u32 st.st_mtime)
  have l0 : (List.replicate RECORDSIZE 0).length = RECORDSIZE := List.length_replicate _ _
  have l1 := memcpy_into_length' _ OFF_name (name ++ [0]) _ l0
    (by simp only [OFF_name, RECORDSIZE, List.length_append, List.length_singleton]; omega)
  generalize hF : header_fields st name = F
  unfold header_fields at hF
  simp only at hF
  generalize h2 : (if S_ISDIR st.st_mode then
      memcpy_into (memcpy_into (List.replicate RECORDSIZE 0) OFF_name (name ++ [0]))
        name.length [SLASH, 0]
      else memcpy_into (List.replicate RECORDSIZE 0) OFF_name (name ++ [0])) = H2 at hF
  have l2 : H2.length = RECORDSIZE := by
    rw [← h2]
    split
    · exact memcpy_into_length' _ _ _ _ l1
        (by simp only [RECORDSIZE, List.length_cons, List.length_nil]; omega)
    · exact l1
  generalize h3 : memcpy_into H2 OFF_mode (sprintf_oct 7 (st.st_mode % 2 ^ 32)) = H3 at hF
  generalize h4 : memcpy_into H3 OFF_uid (sprintf_oct 7 (st.st_uid % 2 ^ 32)) = H4 at hF
  generalize h5 : memcpy_into H4 OFF_gid (sprintf_oct 7 (st.st_gid % 2 ^ 32)) = H5 at hF
  generalize h6 : memcpy_into H5 OFF_size (sprintf_oct 11 (st.st_size % 2 ^ 64)) = H6 at hF
  have l3 : H3.length = RECORDSIZE := h3 ▸ memcpy_into_length' _ _ _ _ l2
    (by simp only [OFF_mode, RECORDSIZE]; omega)
  have l4 : H4.length = RECORDSIZE := h4 ▸ memcpy_into_length' _ _ _ _ l3
    (by simp only [OFF_uid, RECORDSIZE]; omega)
  have l5 : H5.length = RECORDSIZE := h5 ▸ memcpy_into_length' _ _ _ _ l4
    (by simp only [OFF_gid, RECORDSIZE]; omega)
  have l6 : H6.length = RECORDSIZE := h6 ▸ memcpy_into_length' _ _ _ _ l5
    (by simp only [OFF_size, RECORDSIZE]; omega)
  have l7 : F.length = RECORDSIZE := hF ▸ memcpy_into_length' _ _ _ _ l6
    (by simp only [OFF_mtime, RECORDSIZE]; omega)
  refine ⟨l7, ?_, ?_, ?_⟩
  · exact ⟨_, by rw [← hF]; exact memcpy_into_drop_at _ _ _ (by rw [l6]; decide)⟩
  · intro hS
    have ht : F.take (OFF_size + (sprintf_oct 11 (st.st_size % 2 ^ 64)).length) =
        H6.take (OFF_size + (sprintf_oct 11 (st.st_size % 2 ^ 64)).length) := by
      rw [hS, ← hF]
      exact memcpy_into_take _ _ _ _ (by decide) (by rw [l6]; decide)
    have hg : H6.drop OFF_size = sprintf_oct 11 (st.st_size % 2 ^ 64) ++
        H5.drop (OFF_size + (sprintf_oct 11 (st.st_size % 2 ^ 64)).length) := by
      rw [← h6]
      exact memcpy_into_drop_at _ _ _ (by rw [l5]; decide)
    exact ⟨_, field_at F H6 _ _ OFF_size ht hg⟩
  · intro hM
    have ht : F.take (OFF_mode + (sprintf_oct 7 (st.st_mode % 2 ^ 32)).length) =
        H3.take (OFF_mode + (sprintf_oct 7 (st.st_mode % 2 ^ 32)).length) := by
      rw [hM, ← hF, ← h6, ← h5, ← h4]
      rw [memcpy_into_take _ _ _ _ (by decide) (by rw [h4, h5, h6, l6]; decide),
        memcpy_into_take _ _ _ _ (by decide) (by rw [h4, h5, l5]; decide),
        memcpy_into_take _ _ _ _ (by decide) (by rw [h4, l4]; decide),
        memcpy_into_take _ _ _ _ (by decide) (by rw [l3]; decide)]
    have hg : H3.drop OFF_mode = sprintf_oct 7 (st.st_mode % 2 ^ 32) ++
        H2.drop (OFF_mode + (sprintf_oct 7 (st.st_mode % 2 ^ 32)).length) := by
      rw [← h3]
      exact memcpy_into_drop_at _ _ _ (by rw [l2]; decide)
    exact ⟨_, field_at F H3 _ _ OFF_mode ht hg⟩

theorem header_fields_length (st : io_statbuf_t) (name : List Nat) (hn : name.length ≤ NAMSIZ) :
    (header_fields st name).length = RECORDSIZE :=
  (header_fields_spec st name hn).1

theorem strncpy_bytes_length (src : List Nat) (n : Nat) : (strncpy_bytes src n).length = n := by
  simp only [strncpy_bytes, List.length_append, List.length_take, List.length_replicate]
  omega

theorem uid_to_uname_length (ns : name_service) (uid : Nat) :
    (uid_to_uname ns uid).length ≤ 100 := by
  unfold uid_to_uname
  split
  · rw [strncpy_bytes_length]
    decide
  · decide

theorem gid_to_gname_length (ns : name_service) (gid : Nat) :
    (gid_to_gname ns gid).length ≤ 100 := by
  unfold gid_to_gname
  split
  · rw [strncpy_bytes_length]
    decide
  · decide

theorem byte_at_linkflag (g : List Nat) (c : Nat) (hl : g.length = RECORDSIZE) :
    byte_at (memcpy_into g OFF_linkflag [c]) OFF_linkflag = c := by
  have h : (g.take OFF_linkflag).length = OFF_linkflag := by
    rw [List.length_take, hl]
    decide
  unfold byte_at memcpy_into
  rw [List.append_assoc, List.getElem?_append_right (by rw [h])]
  simp [h]

theorem byte_at_of_take (g g' : List Nat) (i n : Nat) (hi : i < n) (h : g.take n = g'.take n) :
    byte_at g i = byte_at g' i := by
  unfold byte_at
  have h1 : (g.take n)[i]? = g[i]? := by rw [List.getElem?_take, if_pos hi]
  have h2 : (g'.take n)[i]? = g'[i]? := by rw [List.getElem?_take, if_pos hi]
  rw [← h1, ← h2, h]

theorem linkflag_leaf (F : List Nat) (c : Nat) (hF : F.length = RECORDSIZE) :
    (memcpy_into F OFF_linkflag [c]).length = RECORDSIZE ∧
    (memcpy_into F OFF_linkflag [c]).take OFF_linkflag = F.take OFF_linkflag ∧
    byte_at (memcpy_into F OFF_linkflag [c]) OFF_linkflag = c :=
  ⟨memcpy_into_length' _ _ _ _ hF
    (by simp only [OFF_linkflag, RECORDSIZE, List.length_singleton]; omega),
   memcpy_into_take _ _ _ _ (Nat.le_refl _) (by rw [hF]; decide),
   byte_at_linkflag F c hF⟩

theorem linkname_leaf (F : List Nat) (c : Nat) (l : List Nat) (hF : F.length = RECORDSIZE)
    (hl : l.length ≤ NAMSIZ) :
    (memcpy_into (memcpy_into F OFF_linkflag [c]) OFF_linkname l).length = RECORDSIZE ∧
    (memcpy_into (memcpy_into F OFF_linkflag [c]) OFF_linkname l).take OFF_linkflag =
      F.take OFF_linkflag ∧
    byte_at (memcpy_into (memcpy_into F OFF_linkflag [c]) OFF_linkname l) OFF_linkflag = c := by
  obtain ⟨a1, a2, a3⟩ := linkflag_leaf F c hF
  simp only [NAMSIZ] at hl
  refine ⟨memcpy_into_length' _ _ _ _ a1 (by simp only [OFF_linkname, RECORDSIZE]; omega), ?_, ?_⟩
  · rw [memcpy_into_take _ _ _ _ (by decide) (by rw [a1]; decide), a2]
  · rw [byte_at_of_take _ (memcpy_into F OFF_linkflag [c]) OFF_linkflag OFF_linkname (by decide)
      (memcpy_into_take _ _ _ _ (Nat.le_refl _) (by rw [a1]; decide)), a3]

theorem c_assert_ok {b : Bool} {u : Unit} (h : c_assert b = Except.ok u) : b = true := by
  unfold c_assert at h
  split at h
  · assumption
  · cases h

/-- The record before the checksum is written: 512 bytes that agree with
`header_fields` below the linkflag and hold the chosen linkflag. -/
theorem tar_make_header_shape {ns : name_service} {st : io_statbuf_t} {name : List Nat}
    {sl hl : Option (List Nat)} {h : List Nat}
    (hmk : tar_make_header ns st name sl hl = Except.ok h) :
    name.length ≤ NAMSIZ ∧
    ∃ g, g.length = RECORDSIZE ∧
      g.take OFF_linkflag = (header_fields st name).take OFF_linkflag ∧
      byte_at g OFF_linkflag = linkflag_of st.st_mode hl ∧ h = with_checksum g := by
  generalize hF : header_fields st name = F
  have hF' := hF
  unfold header_fields at hF'
  simp only at hF'
  unfold tar_make_header at hmk
  simp only [bind, Except.bind, pure, Except.pure, hF'] at hmk
  split at hmk
  · cases hmk
  · rename_i u hu
    have hname : name.length ≤ NAMSIZ := of_decide_eq_true (c_assert_ok hu)
    have hFlen : F.length = RECORDSIZE := hF ▸ header_fields_length st name hname
    refine ⟨hname, ?_⟩
    split at hmk
    · cases hmk
    · rename_i hb hcas
      injection hmk with hmk
      have hfacts : hb.length = RECORDSIZE ∧ hb.take OFF_linkflag = F.take OFF_linkflag ∧
          byte_at hb OFF_linkflag = linkflag_of st.st_mode hl := by
        unfold linkflag_of
        split at hcas
        · injection hcas with hcas
          subst hcas
          simp only [*, if_true]
          exact linkflag_leaf F _ hFlen
        · split at hcas
          · injection hcas with hcas
            subst hcas
            simp only [*, if_true, if_false]
            exact linkflag_leaf F _ hFlen
          · split at hcas
            · split at hcas
              · cases hcas
              · rename_i l
                split at hcas
                · cases hcas
                · rename_i _ u2 hu2
                  injection hcas with hcas
                  subst hcas
                  simp only [*, if_true, if_false]
                  exact linkname_leaf F _ l hFlen (of_decide_eq_true (c_assert_ok hu2))
            · split at hcas
              · injection hcas with hcas
                subst hcas
                simp only [*, if_true, if_false]
                exact linkflag_leaf F _ hFlen
              · split at hcas
                · injection hcas with hcas
                  subst hcas
                  simp only [*, if_true, if_false]
                  exact linkflag_leaf F _ hFlen
                · split at hcas
                  · injection hcas with hcas
                    subst hcas
                    simp only [*, if_true, if_false]
                    exact linkflag_leaf F _ hFlen
                  · split at hcas
                    · rename_i l
                      split at hcas
                      · cases hcas
                      · rename_i _ u2 hu2
                        injection hcas with hcas
                        subst hcas
                        simp only [*, if_true, if_false, Option.isSome_some]
                        exact linkname_leaf F _ l hFlen (of_decide_eq_true (c_assert_ok hu2))
                    · injection hcas with hcas
                      subst hcas
                      simp only [*, if_true, if_false, Option.isSome_none]
                      exact linkflag_leaf F _ hFlen
      obtain ⟨b1, b2, b3⟩ := hfacts
      have hu1 := uid_to_uname_length ns st.st_uid
      have hg1 := gid_to_gname_length ns st.st_gid
      have m1 := memcpy_into_length' hb OFF_magic (strncpy_bytes TMAGIC TMAGLEN) _ b1
        (by rw [strncpy_bytes_length]; decide)
      have m2 := memcpy_into_length' _ OFF_uname (uid_to_uname ns st.st_uid) _ m1
        (by simp only [OFF_uname, RECORDSIZE]; omega)
      have m3 := memcpy_into_length' _ OFF_gname (gid_to_gname ns st.st_gid) _ m2
        (by simp only [OFF_gname, RECORDSIZE]; omega)
      have t3 : (memcpy_into (memcpy_into (memcpy_into hb OFF_magic
          (strncpy_bytes TMAGIC TMAGLEN)) OFF_uname (uid_to_uname ns st.st_uid)) OFF_gname
          (gid_to_gname ns st.st_gid)).take OFF_magic = hb.take OFF_magic := by
        rw [memcpy_into_take _ _ _ _ (by decide) (by rw [m2]; decide),
          memcpy_into_take _ _ _ _ (by decide) (by rw [m1]; decide),
          memcpy_into_take _ _ _ _ (Nat.le_refl _) (by rw [b1]; decide)]
      refine ⟨_, m3, ?_, ?_, hmk.symm⟩
      · have := congrArg (List.take OFF_linkflag) t3
        rw [List.take_take, List.take_take] at this
        rw [← b2]
        exact this
      · rw [byte_at_of_take _ hb OFF_linkflag OFF_magic (by decide) t3, b3]

theorem byte_sum_le (l : List Nat) : byte_sum l ≤ 255 * l.length := by
  unfold byte_sum
  induction l with
  | nil => simp
  | cons a l ih =>
    simp only [List.map_cons, List.sum_cons, List.length_cons]
    have : a % 256 ≤ 255 := by omega
    omega

theorem blanked_length (g : List Nat) (hg : g.length = RECORDSIZE) :
    (blanked g).length = RECORDSIZE :=
  memcpy_into_length' _ _ _ _ hg (by decide)

theorem byte_sum_blanked_lt (g : List Nat) (hg : g.length = RECORDSIZE) :
    byte_sum (blanked g) < 8 ^ 6 := by
  have h := byte_sum_le (blanked g)
  rw [blanked_length g hg] at h
  simp only [RECORDSIZE] at h
  omega

theorem byte_at_of_drop (g g' : List Nat) (i n : Nat) (hi : n ≤ i) (h : g.drop n = g'.drop n) :
    byte_at g i = byte_at g' i := by
  unfold byte_at
  have h1 : (g.drop n)[i - n]? = g[i]? := by
    rw [List.getElem?_drop]
    congr 1
    omega
  have h2 : (g'.drop n)[i - n]? = g'[i]? := by
    rw [List.getElem?_drop]
    congr 1
    omega
  rw [← h1, ← h2, h]

/-- The record with_checksum builds from a 512-byte record: it differs from
the record only in the checksum field, which holds six octal digits that denote
the byte sum of the blanked record, and a NUL. -/
theorem with_checksum_spec (g : List Nat) (hg : g.length = RECORDSIZE) :
    (with_checksum g).length = RECORDSIZE ∧
    (with_checksum g).take OFF_chksum = g.take OFF_chksum ∧
    (with_checksum g).drop (OFF_chksum + 8) = g.drop (OFF_chksum + 8) ∧
    blanked (with_checksum g) = blanked g ∧
    (∃ R, (with_checksum g).drop OFF_chksum = sprintf_oct 6 (byte_sum (blanked g)) ++ R) := by
  have hb := blanked_length g hg
  have hv := byte_sum_blanked_lt g hg
  obtain ⟨D, hD, hDlen, -, -⟩ := sprintf_oct_spec 6 (byte_sum (blanked g)) (by decide)
    (by decide) hv
  have hS : (sprintf_oct 6 (byte_sum (blanked g))).length = 7 := by
    rw [hD, List.length_append, hDlen]
    rfl
  generalize hX : memcpy_into (blanked g) OFF_chksum (sprintf_oct 6 (byte_sum (blanked g))) = X
  have hY : with_checksum g = memcpy_into X (OFF_chksum + 6) [0] := by
    rw [← hX]
    rfl
  have lX : X.length = RECORDSIZE := hX ▸ memcpy_into_length' _ _ _ _ hb (by rw [hS]; decide)
  have lY : (with_checksum g).length = RECORDSIZE :=
    hY ▸ memcpy_into_length' _ _ _ _ lX (by decide)
  have t1 : (with_checksum g).take OFF_chksum = g.take OFF_chksum := by
    rw [hY, memcpy_into_take _ _ _ _ (by decide) (by rw [lX]; decide), ← hX,
      memcpy_into_take _ _ _ _ (Nat.le_refl _) (by rw [hb]; decide)]
    exact memcpy_into_take _ _ _ _ (Nat.le_refl _) (by rw [hg]; decide)
  have d1 : (with_checksum g).drop (OFF_chksum + 8) = g.drop (OFF_chksum + 8) := by
    rw [hY, memcpy_into_drop _ _ _ _ (by decide) (by rw [lX]; decide), ← hX,
      memcpy_into_drop _ _ _ _ (by rw [hS]; decide) (by rw [hb]; decide)]
    exact memcpy_into_drop _ _ _ _ (by decide) (by rw [hg]; decide)
  refine ⟨lY, t1, d1, ?_, ?_⟩
  · unfold blanked memcpy_into
    rw [t1]
    have : (List.replicate 8 32).length = 8 := rfl
    rw [this, d1]
  · have hXd : X.drop OFF_chksum = D ++ ([0] ++ (blanked g).drop (OFF_chksum + 7)) := by
      rw [← hX, memcpy_into_drop_at _ _ _ (by rw [hb]; decide), hS, hD, List.append_assoc]
    have ht : (with_checksum g).take (OFF_chksum + D.length) = X.take (OFF_chksum + D.length) := by
      rw [hDlen, hY]
      exact memcpy_into_take _ _ _ _ (Nat.le_refl _) (by rw [lX]; decide)
    have hf := field_at (with_checksum g) X D _ OFF_chksum ht hXd
    have hz : (with_checksum g).drop (OFF_chksum + D.length) =
        [0] ++ X.drop (OFF_chksum + 6 + 1) := by
      rw [hDlen, hY]
      exact memcpy_into_drop_at _ _ _ (by rw [lX]; decide)
    rw [hf, hz, hD]
    exact ⟨_, (List.append_assoc _ _ _).symm⟩

theorem to_u32_lt (v : Int) : to_u32 v < 2 ^ 32 := by
  unfold to_u32
  have h1 : 0 ≤ v % 2 ^ 32 := Int.emod_nonneg _ (by decide)
  have h2 : v % 2 ^ 32 < 2 ^ 32 := Int.emod_lt_of_pos _ (by decide)
  omega

theorem linkflag_of_ne (mode : Nat) (hl : Option (List Nat)) :
    linkflag_of mode hl ≠ LF_LONGNAME ∧ linkflag_of mode hl ≠ LF_LONGLINK := by
  unfold linkflag_of
  split_ifs <;> exact ⟨by decide, by decide⟩

theorem byte_sum_mtime_pos (st : io_statbuf_t) (name : List Nat) (hn : name.length ≤ NAMSIZ) :
    1 ≤ byte_sum ((header_fields st name).take OFF_chksum) := by
  obtain ⟨_, ⟨R, hR⟩, _, _⟩ := header_fields_spec st name hn
  have hv : to_u32 st.st_mtime < 8 ^ 11 := Nat.lt_of_lt_of_le (to_u32_lt _) (by decide)
  obtain ⟨D, hD, hDlen, hoct, -⟩ := sprintf_oct_spec 11 (to_u32 st.st_mtime) (by decide)
    (by decide) hv
  have hsplit : (header_fields st name).take OFF_chksum =
      (header_fields st name).take OFF_mtime ++ ((header_fields st name).drop OFF_mtime).take 12 :=
    List.take_add _ OFF_mtime 12
  rw [hsplit, byte_sum_append, hR, hD]
  cases D with
  | nil => simp at hDlen
  | cons d D =>
    have hd := hoct d (List.mem_cons_self _ _)
    simp only [List.cons_append, List.take_succ_cons, byte_sum, List.map_cons, List.sum_cons]
    omega

/-- C15 (emitted headers validate): every record tar_make_header returns is
512 bytes long; the byte sum of the record with a blank checksum field is below
`8 ^ 6` and is what from_oct reads from the checksum field; the sum is not that
of a zero record; and wherever read_header finds the record in an archive, it
returns, if it returns, STATUS_SUCCESS, neither STATUS_BADCHECKSUM nor
STATUS_EOFMARK. -/
theorem C15_emitted_header_validates (ns : name_service) (st : io_statbuf_t) (name : List Nat)
    (sl hl : Option (List Nat)) (h : List Nat)
    (hmk : tar_make_header ns st name sl hl = Except.ok h) :
    h.length = RECORDSIZE ∧ byte_sum (blanked h) < 8 ^ 6 ∧
    from_oct 8 (h.drop OFF_chksum) = (byte_sum (blanked h) : Int) ∧
    byte_sum (blanked h) ≠ 8 * 32 ∧
    ∀ (ns' : name_service) (stale : List Nat) (fuel : Nat) (s : tarfs) (pos pos' : Nat),
      get_next_record s pos = some (h, pos') →
      ∀ r, read_header ns' stale (fuel + 1) s pos = Except.ok r →
        r.1 = ReadStatus.STATUS_SUCCESS := by
  obtain ⟨hn, g, hg, htake, hflag, rfl⟩ := tar_make_header_shape hmk
  obtain ⟨w1, w2, w3, w4, ⟨R, w5⟩⟩ := with_checksum_spec g hg
  have hv := byte_sum_blanked_lt g hg
  have hfrom : from_oct 8 ((with_checksum g).drop OFF_chksum) =
      (byte_sum (blanked (with_checksum g)) : Int) := by
    rw [w5, w4, from_oct_sprintf 8 6 _ R (by decide) (by decide) hv (by decide)]
    exact to_long_small _ (Nat.lt_of_lt_of_le hv (by decide))
  have hmark : byte_sum (blanked (with_checksum g)) ≠ 8 * 32 := by
    rw [w4]
    have hpos := byte_sum_mtime_pos st name hn
    have ht : g.take OFF_chksum = (header_fields st name).take OFF_chksum := by
      have := congrArg (List.take OFF_chksum) htake
      rw [List.take_take, List.take_take] at this
      exact this
    have hb : byte_sum (blanked g) =
        byte_sum (g.take OFF_chksum) + (256 + byte_sum (g.drop (OFF_chksum + 8))) := by
      unfold blanked memcpy_into
      rw [List.append_assoc, byte_sum_append, byte_sum_append]
      rfl
    rw [hb, ht]
    omega
  have hlf : byte_at (with_checksum g) OFF_linkflag = linkflag_of st.st_mode hl := by
    rw [byte_at_of_drop _ g OFF_linkflag (OFF_chksum + 8) (by decide) w3, hflag]
  refine ⟨w1, by rw [w4]; exact hv, hfrom, hmark, ?_⟩
  intro ns' stale fuel s pos pos' hrec r hr
  have hm : (byte_sum (blanked (with_checksum g)) : Int) ≠ 8 * 32 := by
    intro hc
    apply hmark
    exact_mod_cast hc
  exact (read_header_outcome ns' stale fuel s pos _ pos' hrec).2.2 hm (Or.inl hfrom.symm)
    (by rw [hlf]; exact (linkflag_of_ne _ _).1) (by rw [hlf]; exact (linkflag_of_ne _ _).2) r hr

set_option maxRecDepth 100000 in
/-- C15 at the header of the empty regular file `x`, read as the only record
of an archive: read_header returns STATUS_SUCCESS. -/
theorem C15_emitted_header_validates_witness :
    tar_make_header ns_none (stat_of 0o100644 0) [120] none none =
      Except.ok (header_of 0o100644 0 [120] none) ∧
    from_oct 8 ((header_of 0o100644 0 [120] none).drop OFF_chksum) =
      (byte_sum (blanked (header_of 0o100644 0 [120] none)) : Int) ∧
    (read_header ns_none [] (0 + 1) (root_on (header_of 0o100644 0 [120] none)) 0).map
      (fun r => r.1) = Except.ok ReadStatus.STATUS_SUCCESS :=
  ⟨by decide!,
   (C15_emitted_header_validates ns_none (stat_of 0o100644 0) [120] none none
     (header_of 0o100644 0 [120] none) (by decide!)).2.2.1,
   by decide!⟩

theorem or_type_bits (m t : Nat) (h : m &&& S_IFMT = t) : m ||| t = m := by
  subst h
  apply Nat.eq_of_testBit_eq
  intro i
  simp only [Nat.testBit_or, Nat.testBit_and]
  cases m.testBit i <;> simp

theorem to_u32_small (v : Nat) (h : v < 2 ^ 32) : to_u32 (v : Int) = v := by
  unfold to_u32
  have h1 : (v : Int) % 2 ^ 32 = (v : Int) := Int.emod_eq_of_lt (by omega) (by omega)
  rw [h1]
  simp

theorem linkflag_of_and (m : Nat) (hl : Option (List Nat)) :
    linkflag_of m hl = linkflag_of (m &&& S_IFMT) hl := by
  simp only [linkflag_of, S_ISREG, S_ISDIR, S_ISLNK, S_ISCHR, S_ISBLK, S_ISFIFO, Nat.and_assoc,
    Nat.and_self]

/-- The fields of an emitted header that tar_header2stat reads back: the mode
digits, the size digits, the mtime digits and the linkflag. -/
theorem emitted_fields {ns : name_service} {st : io_statbuf_t} {name : List Nat}
    {sl hl : Option (List Nat)} {h : List Nat}
    (hmk : tar_make_header ns st name sl hl = Except.ok h)
    (hmode : st.st_mode < 8 ^ 7) (hsize : st.st_size < 8 ^ 11) :
    (∃ R, h.drop OFF_mode = sprintf_oct 7 st.st_mode ++ R) ∧
    (∃ R, h.drop OFF_size = sprintf_oct 11 st.st_size ++ R) ∧
    (∃ R, h.drop OFF_mtime = sprintf_oct 11 (to_u32 st.st_mtime) ++ R) ∧
    byte_at h OFF_linkflag = linkflag_of st.st_mode hl := by
  obtain ⟨hn, g, hg, htake, hflag, rfl⟩ := tar_make_header_shape hmk
  obtain ⟨w1, w2, w3, -, -⟩ := with_checksum_spec g hg
  obtain ⟨_, ⟨RT, hT⟩, hS, hM⟩ := header_fields_spec st name hn
  have hm32 : st.st_mode % 2 ^ 32 = st.st_mode :=
    Nat.mod_eq_of_lt (Nat.lt_of_lt_of_le hmode (by decide))
  have hs64 : st.st_size % 2 ^ 64 = st.st_size :=
    Nat.mod_eq_of_lt (Nat.lt_of_lt_of_le hsize (by decide))
  rw [hm32] at hM
  rw [hs64] at hS
  obtain ⟨DM, hDM, hDMlen, -, -⟩ := sprintf_oct_spec 7 st.st_mode (by decide) (by decide) hmode
  obtain ⟨DS, hDS, hDSlen, -, -⟩ := sprintf_oct_spec 11 st.st_size (by decide) (by decide) hsize
  obtain ⟨DT, hDT, hDTlen, -, -⟩ := sprintf_oct_spec 11 (to_u32 st.st_mtime) (by decide)
    (by decide) (Nat.lt_of_lt_of_le (to_u32_lt _) (by decide))
  have lM : (sprintf_oct 7 st.st_mode).length = 8 := by rw [hDM, List.length_append, hDMlen]; rfl
  have lS : (sprintf_oct 11 st.st_size).length = 12 := by
    rw [hDS, List.length_append, hDSlen]; rfl
  have lT : (sprintf_oct 11 (to_u32 st.st_mtime)).length = 12 := by
    rw [hDT, List.length_append, hDTlen]; rfl
  obtain ⟨RS, hS⟩ := hS lS
  obtain ⟨RM, hM⟩ := hM lM
  have ht : ∀ n, n ≤ OFF_chksum →
      (with_checksum g).take n = (header_fields st name).take n := by
    intro n hle
    have a := congrArg (List.take n) w2
    have b := congrArg (List.take n) htake
    rw [List.take_take, List.take_take, Nat.min_eq_left hle] at a
    rw [List.take_take, List.take_take,
      Nat.min_eq_left (Nat.le_trans hle (by decide))] at b
    rw [a, b]
  refine ⟨⟨_, field_at _ _ _ _ OFF_mode (ht _ (by rw [lM]; decide)) hM⟩,
    ⟨_, field_at _ _ _ _ OFF_size (ht _ (by rw [lS]; decide)) hS⟩,
    ⟨_, field_at _ _ _ _ OFF_mtime (ht _ (by rw [lT]; decide)) hT⟩, ?_⟩
  rw [byte_at_of_drop _ g OFF_linkflag (OFF_chksum + 8) (by decide) w3, hflag]

/-- C14, the part that holds: for a regular file, directory, symlink, FIFO or
device node with st_mode below `8 ^ 7`, st_size below `2 ^ 31` and st_mtime
from 0 to below `2 ^ 31`, tar_header2stat reads from the record
tar_make_header built the st_mode, st_size and st_mtime the record was built
from. -/
theorem C14_stat_header_stat (ns ns' : name_service) (st st0 : io_statbuf_t) (name : List Nat)
    (sl hl : Option (List Nat)) (h : List Nat) (myuid mygid : Nat)
    (htype : S_ISREG st.st_mode = true ∨ S_ISDIR st.st_mode = true ∨ S_ISLNK st.st_mode = true ∨
      S_ISFIFO st.st_mode = true ∨ S_ISCHR st.st_mode = true ∨ S_ISBLK st.st_mode = true)
    (hmode : st.st_mode < 8 ^ 7) (hsize : st.st_size < 2 ^ 31)
    (hmt0 : 0 ≤ st.st_mtime) (hmt : st.st_mtime < 2 ^ 31)
    (hmk : tar_make_header ns st name sl hl = Except.ok h) :
    (tar_header2stat ns' myuid mygid st0 h).st_mode = st.st_mode ∧
    (tar_header2stat ns' myuid mygid st0 h).st_size = st.st_size ∧
    (tar_header2stat ns' myuid mygid st0 h).st_mtime = st.st_mtime := by
  obtain ⟨⟨RM, hM⟩, ⟨RS, hS⟩, ⟨RT, hT⟩, hlf⟩ :=
    emitted_fields hmk hmode (Nat.lt_of_lt_of_le hsize (by decide))
  have hmtu : to_u32 st.st_mtime = st.st_mtime.toNat := by
    unfold to_u32
    rw [Int.emod_eq_of_lt hmt0 (by omega)]
  have hmtn : st.st_mtime.toNat < 2 ^ 31 := by omega
  have fM : from_oct 8 (h.drop OFF_mode) = (st.st_mode : Int) := by
    rw [hM, from_oct_sprintf 8 7 _ RM (by decide) (by decide) hmode (by decide)]
    exact to_long_small _ (Nat.lt_of_lt_of_le hmode (by decide))
  have fS : from_oct 13 (h.drop OFF_size) = (st.st_size : Int) := by
    rw [hS, from_oct_sprintf 13 11 _ RS (by decide) (by decide)
      (Nat.lt_of_lt_of_le hsize (by decide)) (by decide)]
    exact to_long_small _ hsize
  have fT : from_oct 13 (h.drop OFF_mtime) = st.st_mtime := by
    rw [hT, hmtu, from_oct_sprintf 13 11 _ RT (by decide) (by decide)
      (Nat.lt_of_lt_of_le hmtn (by decide)) (by decide), to_long_small _ hmtn]
    omega
  have uM : to_u32 (st.st_mode : Int) = st.st_mode :=
    to_u32_small _ (Nat.lt_of_lt_of_le hmode (by decide))
  have uS : to_u32 (st.st_size : Int) = st.st_size :=
    to_u32_small _ (Nat.lt_of_lt_of_le hsize (by decide))
  refine ⟨?_, ?_, ?_⟩
  · simp only [tar_header2stat, hlf, fM, uM, linkflag_of_and st.st_mode hl]
    rcases htype with h | h | h | h | h | h
    · have hk : st.st_mode &&& S_IFMT = S_IFREG := by simpa [S_ISREG] using h
      rw [hk]
      exact or_type_bits _ _ hk
    · have hk : st.st_mode &&& S_IFMT = S_IFDIR := by simpa [S_ISDIR] using h
      rw [hk]
      exact or_type_bits _ _ hk
    · have hk : st.st_mode &&& S_IFMT = S_IFLNK := by simpa [S_ISLNK] using h
      rw [hk]
      exact or_type_bits _ _ hk
    · have hk : st.st_mode &&& S_IFMT = S_IFIFO := by simpa [S_ISFIFO] using h
      rw [hk]
      exact or_type_bits _ _ hk
    · have hk : st.st_mode &&& S_IFMT = S_IFCHR := by simpa [S_ISCHR] using h
      rw [hk]
      exact or_type_bits _ _ hk
    · have hk : st.st_mode &&& S_IFMT = S_IFBLK := by simpa [S_ISBLK] using h
      rw [hk]
      exact or_type_bits _ _ hk
  · simp only [tar_header2stat, fS, uS]
  · simp only [tar_header2stat, fT]

set_option maxRecDepth 100000 in
/-- C14 where it fails: a regular file of `2 ^ 32` bytes, a size below `8 ^ 11`.
tar_make_header writes the size field `40000000000`, and tar_header2stat
reads the size 0 from it: from_oct gathers the digits in a `long`. -/
theorem C14_size_of_four_gigabytes :
    (S_ISREG 0o100644, decide (0o100644 < 8 ^ 7), decide (2 ^ 32 < 8 ^ 11),
      (tar_make_header ns_none (stat_of 0o100644 (2 ^ 32)) [97] none none).map
        (fun h => ((h.drop OFF_size).take 12,
          (tar_header2stat ns_none 0 0 (stat_of 0 0) h).st_size)))
      = (true, true, true,
          Except.ok ([52, 48, 48, 48, 48, 48, 48, 48, 48, 48, 48, 0], 0)) := by
  decide!

set_option maxRecDepth 100000 in
/-- C14 at the stat of a regular file of 1000 bytes with mode 0644 and the
name `a`. -/
theorem C14_stat_header_stat_witness :
    tar_make_header ns_none (stat_of 0o100644 1000) [97] none none =
      Except.ok (header_of 0o100644 1000 [97] none) ∧
    (tar_header2stat ns_none 0 0 (stat_of 0 0) (header_of 0o100644 1000 [97] none)).st_mode =
      0o100644 ∧
    (tar_header2stat ns_none 0 0 (stat_of 0 0) (header_of 0o100644 1000 [97] none)).st_size =
      1000 ∧
    (tar_header2stat ns_none 0 0 (stat_of 0 0) (header_of 0o100644 1000 [97] none)).st_mtime =
      0 := by
  have hmk : tar_make_header ns_none (stat_of 0o100644 1000) [97] none none =
      Except.ok (header_of 0o100644 1000 [97] none) := by decide!
  exact ⟨hmk, C14_stat_header_stat ns_none ns_none (stat_of 0o100644 1000) (stat_of 0 0) [97]
    none none (header_of 0o100644 1000 [97] none) 0 0 (Or.inl (by decide)) (by decide)
    (by decide) (by decide) (by decide) hmk⟩

set_option maxRecDepth 100000 in
/-- C16 (magic of emitted headers), evaluated where it fails: the magic field
tar_make_header writes is `ustar`, one space and two NULs, since strncpy
copies TMAGLEN = 6 bytes of TMAGIC; tar_header2stat compares the field with
`ustar` and two spaces, does not find it and takes the owner from the octal
uid field (0) although the header names the user `root`, whom the user
database gives the id 1000. -/
theorem C16_magic_of_emitted_header :
    (do
      let h ← tar_make_header ns_root (stat_of (S_IFREG ||| 0o644) 0) [97] none none
      pure ((h.drop OFF_magic).take 8, decide (c_str (h.drop OFF_magic) = TMAGIC),
        c_str (h.drop OFF_uname), finduid ns_root 0 (c_str (h.drop OFF_uname)),
        (tar_header2stat ns_root 0 0 (stat_of 0 0) h).st_uid) : Run _)
      = Except.ok ([117, 115, 116, 97, 114, 32, 0, 0], false, [114, 111, 111, 116], 1000, 0) := by
  decide!

set_option maxRecDepth 100000 in
/-- C17 (link names in emitted headers), evaluated where it fails: `b` is a
hard link to the regular file `a`; its record in the archive has linkflag `1`
and the link name `a`.  The record tarfs_sync_fs writes for `b` has linkflag
`0` and an empty link name, and so has the record tar_make_header builds from
the alias's stat and the target's path: the alias carries the mode of a
regular file and S_ISREG is tested first.  For a symlink the record has
linkflag `2` and the target as link name. -/
theorem C17_record_of_hard_link :
    (do
      let s ← mount archive_with_link
      let b ← get_node s 2
      let nb ← get_nn s 2
      let (err, s') ← tarfs_sync_fs ns_none s
      let old := (archive_with_link.drop 1024).take 512
      let new := (s'.tar_file.drop 1024).take 512
      let direct ← tar_make_header ns_none b.nn_stat [98] none (some [97])
      let sl ← tar_make_header ns_none (stat_of (S_IFLNK ||| 0o777) 1) [108] (some [97]) none
      pure (nb.hardlink, byte_at old OFF_linkflag, c_str (old.drop OFF_linkname), err,
        byte_at new OFF_linkflag, c_str (new.drop OFF_linkname),
        byte_at direct OFF_linkflag, c_str (direct.drop OFF_linkname),
        byte_at sl OFF_linkflag, c_str (sl.drop OFF_linkname)) : Run _)
      = Except.ok (some 1, LF_LINK, [97], error_t.OK, LF_NORMAL, [], LF_NORMAL, [],
          LF_SYMLINK, [97]) := by
  decide!

/-! ## Theorems: bad records and long names in the archive -/

set_option maxRecDepth 100000 in
/-- C19 (recovery from one bad checksum), evaluated where it fails: the archive
holds `x`, one record with a wrong checksum and `w`.  Without the bad record
the mount gives the root, `x` and `w`.  With it, read_header answers
STATUS_BADCHECKSUM after the header of `x`, and tar_open_archive, whose case
for a bad record after a good one has no `break`, runs into
`error (1, 0, "Bad checksum ...")`: the process exits. -/
theorem C19_bad_checksum_after_header :
    ((mount (header_of 0o100644 0 [120] none ++ header_of 0o100644 0 [119] none
        ++ List.replicate 1024 0)).map (fun s => s.nodes.length),
      (do
        let s ← mount (header_of 0o100644 0 [120] none)
        let r ← read_header ns_none [] 10 { s with tar_file := archive_bad_record } 512
        pure (s.nodes.length, r.1) : Run _),
      (mount archive_bad_record).map (fun s => s.nodes.length))
      = (Except.ok 3, Except.ok (2, ReadStatus.STATUS_BADCHECKSUM),
          Except.error Crash.exit) := by
  decide!

set_option maxRecDepth 100000 in
/-- C20 (long-name extension), evaluated where it fails: the archive holds a
record with linkflag `L` whose payload is the string `long`, and then the
header of the empty file `y`.  The mount creates one node besides the root and
names it `y`: read_header reads the payload records and drops them
(`next_lonname` is never assigned).  The payload is consumed: the contents of
`y` are expected at offset 1536. -/
theorem C20_long_name_is_dropped :
    (mount archive_long_name).map (fun s =>
      (s.nodes.map (fun x => x.nn.bind (fun nn => nn.name)), s.items.map (fun it => it.offset)))
      = Except.ok ([none, some [121]], [1536]) := by
  decide!

/-! ## Theorems: directories named with a trailing slash -/

set_option maxRecDepth 100000 in
/-- C25 (link-count invariant), evaluated where it fails: after
tarfs_create_node for `a` and two calls of tarfs_link_node that make the hard
links `b` and `c` to it, the node `c` is not a directory, no alias points at
it, and its st_nlink is 2: fs_hard_link_node gives the new node the target's
count minus one.  (The nodes are the root, `a`, `b`, `c`; for each the list
gives S_ISDIR and st_nlink, and then the number of aliases that point at it.) -/
theorem C25_link_count_of_second_alias :
    file_with_two_links.map (fun s =>
      (s.nodes.map (fun x => (S_ISDIR x.nn_stat.st_mode, x.nn_stat.st_nlink)),
        (List.range s.nodes.length).map (alias_count s)))
      = Except.ok ([(true, 2), (false, 3), (false, 1), (false, 2)], [0, 2, 0, 0]) := by
  decide!

set_option maxRecDepth 100000 in
/-- C26 (sibling names are unique), evaluated where it fails: two calls of
tarfs_create_node in the root with the name `a/b` both return 0, and the root
has two entries with the stored name `a|b`: fs_make_node looks for the name as
given, _make_node stores the filtered name. -/
theorem C26_slash_name_created_twice :
    slash_name_twice.map (fun r => (r.1, r.2.1, child_names r.2.2 0))
      = Except.ok (error_t.OK, error_t.OK, [some [97, 124, 98], some [97, 124, 98]]) := by
  decide!

set_option maxRecDepth 100000 in
/-- C27 (alias stat mirrors target stat), evaluated where it fails: right after
tarfs_link_node has made the hard link `b` to `a`, st_nlink is 2 for `a` and 1
for `b`; and after tarfs_write_node has written three bytes to `a`, st_size is
3 for `a` and still 0 for `b`. -/
theorem C27_alias_stat_after_link_and_write :
    (do
      let s ← file_with_link
      let a ← get_node s 1
      let b ← get_node s 2
      let nb ← get_nn s 2
      let (err, amount, s1) ← tarfs_write_node s 1 0 [1, 2, 3]
      let a1 ← get_node s1 1
      let b1 ← get_node s1 2
      pure (nb.hardlink, a.nn_stat.st_nlink, b.nn_stat.st_nlink, err, amount,
        a1.nn_stat.st_size, b1.nn_stat.st_size) : Run _)
      = Except.ok (some 1, 2, 1, error_t.OK, 3, 3, 0) := by
  decide!

set_option maxRecDepth 100000 in
/-- C28 (no chains of hard links), evaluated where it fails: tarfs_link_node
with the alias `b` of `a` as target makes a node `c` whose `hardlink` is `b`,
itself an alias; and so does the mount of an archive in which the link `c`
names the link `b`.  (For each node the lists give its `hardlink`.) -/
theorem C28_link_to_an_alias :
    (link_to_link.map (fun s => s.nodes.map (fun x => x.nn.bind (fun nn => nn.hardlink))),
      (mount archive_link_to_link).map
        (fun s => s.nodes.map (fun x => x.nn.bind (fun nn => nn.hardlink))))
      = (Except.ok [none, none, some 1, some 2], Except.ok [none, none, some 1, some 2]) := by
  decide!

/-! ## Theorems: the name filter -/

theorem filter_loop_spec (s : List Nat) :
    ∀ m, (filter_loop s m).1 = s.map (fun c => if c = SLASH then SUBST_SLASH else c) ∧
      ((filter_loop s m).2 = true ↔ (m = true ∨ SLASH ∈ s)) := by
  induction s with
  | nil => intro m; simp [filter_loop]
  | cons c rest ih =>
    intro m
    unfold filter_loop
    by_cases hc : c = SLASH
    · simp only [hc, if_true, List.map_cons]
      refine ⟨by rw [(ih true).1], ?_⟩
      rw [(ih true).2]
      simp
    · simp only [hc, if_false, List.map_cons]
      refine ⟨by rw [(ih m).1], ?_⟩
      rw [(ih m).2]
      constructor
      · rintro (h | h)
        · exact Or.inl h
        · exact Or.inr (List.mem_cons_of_mem _ h)
      · rintro (h | h)
        · exact Or.inl h
        · rcases List.mem_cons.mp h with h | h
          · exact absurd h.symm hc
          · exact Or.inr h

theorem map_filter_of_no_slash (s : List Nat) (h : SLASH ∉ s) :
    s.map (fun c => if c = SLASH then SUBST_SLASH else c) = s := by
  induction s with
  | nil => rfl
  | cons c rest ih =>
    have hc : c ≠ SLASH := fun e => h (by rw [e]; exact List.mem_cons_self _ _)
    have hr : SLASH ∉ rest := fun e => h (List.mem_cons_of_mem _ e)
    simp only [List.map_cons, hc, if_false, ih hr]

theorem no_slash_in_filtered (s : List Nat) :
    SLASH ∉ s.map (fun c => if c = SLASH then SUBST_SLASH else c) := by
  intro h
  rcases List.mem_map.mp h with ⟨c, _, hc⟩
  by_cases e : c = SLASH
  · rw [if_pos e] at hc
    exact absurd hc (by decide)
  · rw [if_neg e] at hc
    exact e hc

/-- C24 (name filter), the claim as the code has it: filtering twice gives what
filtering once gives; the result has the length of `s` and holds no `/`; at
every position it has `|` where `s` has `/` and the byte of `s` elsewhere (so
a `|` of `s` stays a `|`); when `s` holds no `/` the result is `s`, and the
pointer returned is `s` itself, while with a `/` in `s` it is the new buffer. -/
theorem C24_filter_node_name (s : List Nat) :
    filter_node_name (filter_node_name (some s)) = filter_node_name (some s) ∧
    ∃ r, filter_node_name (some s) = some r ∧ (filter_node_name_buffer s).2 = r ∧
      r.length = s.length ∧ SLASH ∉ r ∧
      (∀ (i c : Nat), s[i]? = some c → r[i]? = some (if c = SLASH then SUBST_SLASH else c)) ∧
      (SLASH ∉ s → r = s ∧ (filter_node_name_buffer s).1 = false) ∧
      (SLASH ∈ s → (filter_node_name_buffer s).1 = true) := by
  have hn := no_slash_in_filtered s
  refine ⟨?_, s.map (fun c => if c = SLASH then SUBST_SLASH else c), rfl, ?_, by simp, hn, ?_, ?_, ?_⟩
  · show some ((s.map _).map _) = some (s.map _)
    rw [map_filter_of_no_slash _ hn]
  · unfold filter_node_name_buffer
    simp only
    by_cases hm : (filter_loop s false).2 = true
    · rw [if_pos hm]
      exact (filter_loop_spec s false).1
    · rw [if_neg hm]
      have : SLASH ∉ s := fun h => hm (((filter_loop_spec s false).2).mpr (Or.inr h))
      exact (map_filter_of_no_slash s this).symm
  · intro i c h
    rw [List.getElem?_map, h]
    rfl
  · intro h
    refine ⟨map_filter_of_no_slash s h, ?_⟩
    unfold filter_node_name_buffer
    simp only
    have hm : ¬ (filter_loop s false).2 = true := by
      rw [(filter_loop_spec s false).2]
      simp [h]
    rw [if_neg hm]
  · intro h
    unfold filter_node_name_buffer
    simp only
    have hm : (filter_loop s false).2 = true := ((filter_loop_spec s false).2).mpr (Or.inr h)
    rw [if_pos hm]

/-- C24 at the name `a/b`: the filtered name is `a|b`, in a new buffer. -/
theorem C24_filter_node_name_witness :
    filter_node_name (some [97, 47, 98]) = some [97, 124, 98] ∧
      filter_node_name_buffer [97, 47, 98] = (true, [97, 124, 98]) ∧
      filter_node_name (filter_node_name (some [97, 47, 98])) =
        filter_node_name (some [97, 47, 98]) :=
  ⟨by decide, by decide, (C24_filter_node_name [97, 47, 98]).1⟩

/-- C24 (name filter), where the claim as stated fails: the name `a|` holds no
`/`, and the filtered name (the name itself) has `|` at position 1. -/
theorem C24_bar_in_the_name :
    filter_node_name (some [97, 124]) = some [97, 124] ∧
      ([97, 124] : List Nat)[1]? = some SUBST_SLASH ∧ ([97, 124] : List Nat)[1]? ≠ some SLASH := by
  decide

/-! ## Theorems: the size of a file cache -/

theorem block_count (size : Nat) (h : size ≠ 0) :
    BLOCK_NUMBER (size - 1) + 1 = (size + 1023) / 1024 := by
  unfold BLOCK_NUMBER CACHE_BLOCK_SIZE_LOG2
  rw [Nat.shiftRight_eq_div_pow]
  norm_num
  omega

theorem set_blocks_of (s : tarfs) (n : Nat) (x : node) (nn : netnode) (info : tarfs_info)
    (b : List slot) (h : s.nodes[n]? = some x) (hnn : x.nn = some nn) (hi : nn.info = some info) :
    set_blocks s n b = Except.ok
      (set_node s n { x with nn := some { nn with info := some { info with cache := { blocks := b } } } }) := by
  simp [set_blocks, set_info, set_nn, NODE_INFO_of s n x nn info h hnn hi,
    get_nn_of s n x nn h hnn, get_node_of s n x h, bind, Except.bind, pure, Except.pure]

theorem set_size_of (s : tarfs) (n : Nat) (x : node) (sz : Nat) (h : s.nodes[n]? = some x) :
    set_size s n sz = Except.ok
      (set_node s n { x with nn_stat := { x.nn_stat with st_size := sz } }) := by
  simp [set_size, get_node_of s n x h, bind, Except.bind, pure, Except.pure]

theorem set_blocks_size_of (s : tarfs) (n : Nat) (x : node) (nn : netnode) (info : tarfs_info)
    (b : List slot) (sz : Nat) (h : s.nodes[n]? = some x) (hnn : x.nn = some nn)
    (hi : nn.info = some info) :
    ∃ s1 s2 x' info', set_blocks s n b = Except.ok s1 ∧ set_size s1 n sz = Except.ok s2 ∧
      get_node s2 n = Except.ok x' ∧ NODE_INFO s2 n = Except.ok info' ∧
      x'.nn_stat.st_size = sz ∧ info'.cache.blocks = b := by
  have h1 := get_set_node_self s n x
    { x with nn := some { nn with info := some { info with cache := { blocks := b } } } } h
  have h2 := get_set_node_self _ n _
    { x with nn := some { nn with info := some { info with cache := { blocks := b } } },
             nn_stat := { x.nn_stat with st_size := sz } } h1
  exact ⟨_, _, _, _, set_blocks_of s n x nn info b h hnn hi, set_size_of _ n _ sz h1,
    get_node_of _ _ _ h2, NODE_INFO_of _ _ _ _ _ h2 rfl rfl, rfl, rfl⟩

/-- C29 (resize of a file cache): a call of cache_set_size that returns 0
leaves st_size at the size asked for.  When that size is larger than the size
before, the block vector afterwards is the vector before followed by NULL
slots, and has at least ceil(size/1024) slots.  When it is not larger, the
vector has exactly ceil(size/1024) slots, and up to the length it had before it
is the former vector cut after the new last block. -/
theorem C29_cache_set_size (s s' : tarfs) (n size : Nat)
    (h : cache_set_size s n size = Except.ok (error_t.OK, s')) :
    ∃ x info x' info', get_node s n = Except.ok x ∧ NODE_INFO s n = Except.ok info ∧
      get_node s' n = Except.ok x' ∧ NODE_INFO s' n = Except.ok info' ∧
      x'.nn_stat.st_size = size ∧
      (size > x.nn_stat.st_size →
        (size + 1023) / 1024 ≤ info'.cache.blocks.length ∧
        info'.cache.blocks = info.cache.blocks ++
          List.replicate (info'.cache.blocks.length - info.cache.blocks.length) slot.null) ∧
      (size ≤ x.nn_stat.st_size →
        info'.cache.blocks.length = (size + 1023) / 1024 ∧
        info'.cache.blocks.take info.cache.blocks.length =
          info.cache.blocks.take ((size + 1023) / 1024)) := by
  unfold cache_set_size __cache_set_size at h
  cases hx : s.nodes[n]? with
  | none => simp [get_node, hx, bind, Except.bind, throw, throwThe, MonadExceptOf.throw] at h
  | some x =>
    cases hnn : x.nn with
    | none =>
      simp [get_node_of s n x hx, NODE_INFO, get_nn, hnn, bind, Except.bind, throw, throwThe,
        MonadExceptOf.throw] at h
    | some nn =>
      cases hinfo : nn.info with
      | none =>
        simp [get_node_of s n x hx, NODE_INFO, get_nn, hnn, hinfo, bind, Except.bind, throw,
          throwThe, MonadExceptOf.throw, pure, Except.pure] at h
      | some info =>
        have hN : (if size ≠ 0 then BLOCK_NUMBER (size - 1) + 1 else 0) = (size + 1023) / 1024 := by
          by_cases h0 : size = 0
          · subst h0; simp
          · rw [if_pos h0, block_count size h0]
        simp only [get_node_of s n x hx, NODE_INFO_of s n x nn info hx hnn hinfo, bind,
          Except.bind, hN] at h
        refine ⟨x, info, ?_⟩
        by_cases hgt : size > x.nn_stat.st_size
        · rw [if_pos hgt] at h
          by_cases hnew : (size + 1023) / 1024 > info.cache.blocks.length
          · rw [if_pos hnew] at h
            obtain ⟨s1, s2, x', info', h1, h2, hg, hni, hsz, hb⟩ := set_blocks_size_of s n x nn info
              (info.cache.blocks ++ List.replicate ((size + 1023) / 1024 - info.cache.blocks.length)
                slot.null) size hx hnn hinfo
            rw [h1] at h
            simp only [h2, pure, Except.pure, Except.ok.injEq, Prod.mk.injEq, true_and] at h
            subst h
            refine ⟨x', info', get_node_of s n x hx, NODE_INFO_of s n x nn info hx hnn hinfo, hg, hni, hsz, ?_, ?_⟩
            · intro _
              rw [hb]
              simp only [List.length_append, List.length_replicate]
              refine ⟨by omega, ?_⟩
              congr 2
              omega
            · intro hle
              omega
          · rw [if_neg hnew] at h
            simp only [pure, Except.pure] at h
            rw [set_size_of s n x size hx] at h
            simp only [Except.ok.injEq, Prod.mk.injEq, true_and] at h
            have hs' := get_set_node_self s n x
              { x with nn_stat := { x.nn_stat with st_size := size } } hx
            rw [h] at hs'
            refine ⟨_, info, get_node_of s n x hx, NODE_INFO_of s n x nn info hx hnn hinfo,
              get_node_of _ _ _ hs',
              NODE_INFO_of _ _ _ nn info hs' hnn hinfo, rfl, ?_, ?_⟩
            · intro _
              refine ⟨by omega, ?_⟩
              simp
            · intro hle
              omega
        · rw [if_neg hgt] at h
          split at h
          · cases h
          · obtain ⟨s1, s2, x', info', h1, h2, hg, hni, hsz, hb⟩ := set_blocks_size_of s n x nn info
              (info.cache.blocks.take ((size + 1023) / 1024) ++
                List.replicate ((size + 1023) / 1024 - info.cache.blocks.length) slot.uninit)
              size hx hnn hinfo
            rw [h1] at h
            simp only [h2, pure, Except.pure, Except.ok.injEq, Prod.mk.injEq, true_and] at h
            subst h
            refine ⟨x', info', get_node_of s n x hx, NODE_INFO_of s n x nn info hx hnn hinfo, hg, hni, hsz, ?_, ?_⟩
            · intro hc
              exact absurd hc hgt
            · intro _
              rw [hb]
              simp only [List.length_append, List.length_replicate, List.length_take]
              refine ⟨by omega, ?_⟩
              rcases Nat.lt_or_ge info.cache.blocks.length ((size + 1023) / 1024) with hl | hl
              · rw [List.take_of_length_le (Nat.le_of_lt hl), List.take_left' rfl]
              · rw [Nat.sub_eq_zero_of_le hl]
                simp only [List.replicate_zero, List.append_nil, List.take_take]
                congr 1
                omega

set_option maxRecDepth 100000 in
/-- C29 at a new, empty file `a` (one NULL slot) that is made 2000 bytes long:
the call returns 0, st_size is 2000 and the vector has two NULL slots. -/
theorem C29_cache_set_size_witness :
    cache_set_size (state_of one_new_file) 1 2000 =
      Except.ok (error_t.OK,
        state_of ((cache_set_size (state_of one_new_file) 1 2000).map (fun r => r.2))) ∧
    ∃ x info x' info', get_node (state_of one_new_file) 1 = Except.ok x ∧
      NODE_INFO (state_of one_new_file) 1 = Except.ok info ∧
      get_node (state_of ((cache_set_size (state_of one_new_file) 1 2000).map (fun r => r.2))) 1
        = Except.ok x' ∧
      NODE_INFO (state_of ((cache_set_size (state_of one_new_file) 1 2000).map (fun r => r.2))) 1
        = Except.ok info' ∧
      x'.nn_stat.st_size = 2000 ∧
      (2000 > x.nn_stat.st_size →
        (2000 + 1023) / 1024 ≤ info'.cache.blocks.length ∧
        info'.cache.blocks = info.cache.blocks ++
          List.replicate (info'.cache.blocks.length - info.cache.blocks.length) slot.null) ∧
      (2000 ≤ x.nn_stat.st_size →
        info'.cache.blocks.length = (2000 + 1023) / 1024 ∧
        info'.cache.blocks.take info.cache.blocks.length =
          info.cache.blocks.take ((2000 + 1023) / 1024)) :=
  ⟨by decide!,
    C29_cache_set_size (state_of one_new_file)
      (state_of ((cache_set_size (state_of one_new_file) 1 2000).map (fun r => r.2))) 1 2000
      (by decide!)⟩

/-! ## Theorems: the lookup of a path -/

theorem join_path_cons (c : List Nat) (cs : List (List Nat)) :
    join_path (c :: cs) = c ++ (if cs = [] then [] else SLASH :: join_path cs) := by
  unfold join_path
  cases cs with
  | nil => simp [List.intercalate]
  | cons d ds => simp [List.intercalate, List.intersperse]

theorem dropWhile_slash_component (c rest : List Nat) (hc : is_component c) :
    (c ++ rest).dropWhile (fun x => x == SLASH) = c ++ rest := by
  obtain ⟨hne, hs⟩ := hc
  cases c with
  | nil => exact absurd rfl hne
  | cons a t =>
    have ha : a ≠ SLASH := fun e => hs (by rw [e]; exact List.mem_cons_self _ _)
    have hb : (a == SLASH) = false := beq_eq_false_iff_ne.mpr ha
    simp only [List.cons_append, List.dropWhile, hb, List.append_eq]

theorem takeWhile_component (c rest : List Nat) (hs : SLASH ∉ c)
    (hr : rest = [] ∨ rest.head? = some SLASH) :
    (c ++ rest).takeWhile (fun x => x != SLASH) = c ∧
      (c ++ rest).dropWhile (fun x => x != SLASH) = rest := by
  induction c with
  | nil =>
    rcases hr with hr | hr
    · subst hr; simp
    · cases rest with
      | nil => simp
      | cons a t =>
        simp only [List.head?_cons, Option.some.injEq] at hr
        subst hr
        simp [List.takeWhile, List.dropWhile]
  | cons a t ih =>
    have ha : a ≠ SLASH := fun e => hs (by rw [e]; exact List.mem_cons_self _ _)
    have ht : SLASH ∉ t := fun e => hs (List.mem_cons_of_mem _ e)
    obtain ⟨h1, h2⟩ := ih ht
    have hb : (a != SLASH) = true := bne_iff_ne.mpr ha
    simp only [List.cons_append, List.takeWhile, List.dropWhile, hb, List.append_eq, h1, h2,
      and_self]

theorem strtok_r_join (c : List Nat) (cs : List (List Nat)) (hc : is_component c) :
    strtok_r (join_path (c :: cs)) = (some c, join_path cs) := by
  rw [join_path_cons]
  unfold strtok_r
  simp only [dropWhile_slash_component c _ hc]
  have hne : (c ++ if cs = [] then [] else SLASH :: join_path cs).isEmpty = false := by
    obtain ⟨hne, _⟩ := hc
    cases c with
    | nil => exact absurd rfl hne
    | cons a t => rfl
  rw [hne]
  simp only [Bool.false_eq_true, if_false]
  have hr : (if cs = [] then [] else SLASH :: join_path cs) = [] ∨
      (if cs = [] then [] else SLASH :: join_path cs).head? = some SLASH := by
    by_cases h : cs = []
    · left; simp [h]
    · right; simp [h]
  obtain ⟨h1, h2⟩ := takeWhile_component c _ hc.2 hr
  rw [h1, h2]
  by_cases h : cs = []
  · subst h; rfl
  · simp [h]

theorem strtok_r_nil : strtok_r [] = (none, []) := rfl

theorem join_path_nil : join_path [] = [] := rfl

theorem length_le_join_path (cs : List (List Nat)) (h : ∀ x ∈ cs, is_component x) :
    cs.length ≤ (join_path cs).length := by
  induction cs with
  | nil => simp
  | cons c cs ih =>
    rw [join_path_cons]
    have hc := (h c (List.mem_cons_self _ _)).1
    have hl : 0 < c.length := List.length_pos.mpr hc
    have := ih (fun x hx => h x (List.mem_cons_of_mem _ hx))
    by_cases e : cs = []
    · subst e; simp; omega
    · simp only [e, if_false, List.length_append, List.length_cons]
      omega

theorem join_path_ne_nil (cs : List (List Nat)) (h : ∀ x ∈ cs, is_component x) (hne : cs ≠ []) :
    join_path cs ≠ [] := by
  intro e
  have := length_le_join_path cs h
  rw [e] at this
  cases cs with
  | nil => exact hne rfl
  | cons c t => simp at this

/-- The loop of fs_find_node_path when every component is found. -/
theorem find_path_loop_found (s : tarfs) :
    ∀ (cs : List (List Nat)) (c : List Nat) (n a m fuel : Nat),
      (∀ x ∈ cs, is_component x) → resolves s n (c :: cs) m → cs.length + 2 ≤ fuel →
      find_path_loop s fuel (some a) (some c) (join_path cs) n = Except.ok (some m, none, [], m) := by
  intro cs
  induction cs with
  | nil =>
    intro c n a m fuel _ hres hf
    obtain ⟨f, hfind, hm⟩ := hres
    simp only [resolves] at hm
    subst hm
    obtain ⟨k, rfl⟩ : ∃ k, fuel = k + 2 := ⟨fuel - 2, by simp at hf; omega⟩
    simp [find_path_loop, hfind, bind, Except.bind, join_path_nil, strtok_r_nil, pure,
      Except.pure]
  | cons d ds ih =>
    intro c n a m fuel hcs hres hf
    obtain ⟨f, hfind, hrest⟩ := hres
    obtain ⟨k, rfl⟩ : ∃ k, fuel = k + 1 := ⟨fuel - 1, by simp at hf; omega⟩
    have hd := hcs d (List.mem_cons_self _ _)
    simp only [find_path_loop, hfind, bind, Except.bind, strtok_r_join d ds hd]
    exact ih d f f m k (fun x hx => hcs x (List.mem_cons_of_mem _ hx)) hrest
      (by simp at hf; omega)

/-- The loop of fs_find_node_path when the component `c` is the first one that
is not found. -/
theorem find_path_loop_missing (s : tarfs) (c : List Nat) (post : List (List Nat)) (n : Nat)
    (hmiss : _find_node s n (some c) = Except.ok none) :
    ∀ (pre : List (List Nat)) (c0 : List Nat) (rest0 : List (List Nat)) (n0 a fuel : Nat),
      (∀ x ∈ pre ++ c :: post, is_component x) → resolves s n0 pre n →
      c0 :: rest0 = pre ++ c :: post → pre.length + 1 ≤ fuel →
      find_path_loop s fuel (some a) (some c0) (join_path rest0) n0 =
        Except.ok (none, some c, join_path post, n) := by
  intro pre
  induction pre with
  | nil =>
    intro c0 rest0 n0 a fuel _ hres heq hf
    simp only [resolves] at hres
    subst hres
    simp only [List.nil_append, List.cons.injEq] at heq
    obtain ⟨h1, h2⟩ := heq
    subst h1 h2
    obtain ⟨k, rfl⟩ : ∃ k, fuel = k + 1 := ⟨fuel - 1, by simp at hf; omega⟩
    simp [find_path_loop, hmiss, bind, Except.bind, pure, Except.pure]
  | cons p pre ih =>
    intro c0 rest0 n0 a fuel hcs hres heq hf
    obtain ⟨f, hfind, hrest⟩ := hres
    simp only [List.cons_append, List.cons.injEq] at heq
    obtain ⟨h1, h2⟩ := heq
    subst h1 h2
    obtain ⟨k, rfl⟩ : ∃ k, fuel = k + 1 := ⟨fuel - 1, by simp at hf; omega⟩
    have hcs' : ∀ x ∈ pre ++ c :: post, is_component x :=
      fun x hx => hcs x (List.mem_cons_of_mem _ hx)
    cases hsplit : pre ++ c :: post with
    | nil => simp at hsplit
    | cons c1 rest1 =>
      have hc1 : is_component c1 := hcs' c1 (by rw [hsplit]; exact List.mem_cons_self _ _)
      simp only [find_path_loop, hfind, bind, Except.bind, strtok_r_join c1 rest1 hc1]
      exact ih c1 rest1 f f k hcs' hrest hsplit.symm (by simp at hf; omega)

/-- C23 (path lookup result): let the components before `c` resolve from the
start directory (the root when `*n` is NULL) to node `n`.  (i) When `c` is the
last component and is found in `n` as node `m`, fs_find_node_path returns `m`
with `retry_name` and `notfound` NULL.  When `c` is not found in `n`, it
returns `n` and `notfound = c`, with (ii) `retry_name` NULL when `c` is the
last component, and (iii) `retry_name` the path of the components after `c`
otherwise. -/
theorem C23_path_lookup (s : tarfs) (d0 : Option Nat) (pre : List (List Nat)) (c : List Nat)
    (post : List (List Nat)) (n : Nat)
    (hcs : ∀ x ∈ pre ++ c :: post, is_component x)
    (hres : resolves s (d0.getD s.netfs_root_node) pre n) :
    (∀ m, _find_node s n (some c) = Except.ok (some m) →
      fs_find_node_path s d0 (join_path (pre ++ [c])) = Except.ok (m, none, none)) ∧
    (_find_node s n (some c) = Except.ok none →
      fs_find_node_path s d0 (join_path (pre ++ [c])) = Except.ok (n, none, some c) ∧
      (post ≠ [] →
        fs_find_node_path s d0 (join_path (pre ++ c :: post)) =
          Except.ok (n, some (join_path post), some c))) := by
  have hall : ∀ x ∈ pre ++ [c], is_component x := by
    intro x hx
    apply hcs x
    rcases List.mem_append.mp hx with h | h
    · exact List.mem_append_left _ h
    · exact List.mem_append_right _ (by
        rw [List.mem_singleton] at h
        rw [h]
        exact List.mem_cons_self _ _)
  have hc : is_component c := hcs c (List.mem_append_right _ (List.mem_cons_self _ _))
  have hbne : (some c != some ([] : List Nat)) = true := by
    rw [bne_iff_ne]
    intro e
    injection e with e
    exact hc.1 e
  refine ⟨?_, ?_⟩
  · intro m hfind
    have hres' : resolves s (d0.getD s.netfs_root_node) (pre ++ [c]) m := by
      clear hcs hall
      revert hres
      generalize d0.getD s.netfs_root_node = d
      induction pre generalizing d with
      | nil =>
        intro hres
        simp only [resolves] at hres
        subst hres
        exact ⟨m, hfind, rfl⟩
      | cons p pre ih =>
        intro hres
        obtain ⟨f, hf, hr⟩ := hres
        exact ⟨f, hf, ih f hr⟩
    cases hsplit : pre ++ [c] with
    | nil => simp at hsplit
    | cons c0 rest0 =>
      rw [hsplit] at hall hres'
      have hc0 := hall c0 (List.mem_cons_self _ _)
      have hlen := length_le_join_path (c0 :: rest0) hall
      unfold fs_find_node_path
      simp only [strtok_r_join c0 rest0 hc0, bind, Except.bind]
      rw [find_path_loop_found s rest0 c0 _ _ m _ (fun x hx => hall x (List.mem_cons_of_mem _ hx))
        hres' (by simp only [List.length_cons] at hlen; omega)]
      simp [pure, Except.pure]
  · intro hmiss
    have key : ∀ post' : List (List Nat), (∀ x ∈ pre ++ c :: post', is_component x) →
        fs_find_node_path s d0 (join_path (pre ++ c :: post')) =
          Except.ok (n, if post' = [] then none else some (join_path post'), some c) := by
      intro post' hcs'
      cases hsplit : pre ++ c :: post' with
      | nil => simp at hsplit
      | cons c0 rest0 =>
        have hc0 : is_component c0 := hcs' c0 (by rw [hsplit]; exact List.mem_cons_self _ _)
        have hlen := length_le_join_path (c0 :: rest0) (by rw [← hsplit]; exact hcs')
        have hpl : pre.length + 1 ≤ (c0 :: rest0).length := by
          rw [← hsplit]
          simp
        unfold fs_find_node_path
        simp only [strtok_r_join c0 rest0 hc0, bind, Except.bind]
        rw [find_path_loop_missing s c post' n hmiss pre c0 rest0 _ _ _ hcs' hres hsplit.symm
          (by omega)]
        by_cases hp : post' = []
        · subst hp
          simp [join_path_nil, c_assert, hbne, pure, Except.pure]
        · have hne := join_path_ne_nil post'
            (fun x hx => hcs' x (List.mem_append_right _ (List.mem_cons_of_mem _ hx))) hp
          have hem : (join_path post').isEmpty = false := by
            cases hj : join_path post' with
            | nil => exact absurd hj hne
            | cons _ _ => rfl
          simp [hem, hp, c_assert, hbne, pure, Except.pure]
    refine ⟨?_, ?_⟩
    · have := key [] hall
      simpa using this
    · intro hp
      have := key post hcs
      simpa [hp] using this

set_option maxRecDepth 100000 in
/-- C23 at the mounted archive `d/`, `e`, `d/f`, from the root: `d` resolves
to node 1, where `f` is found as node 3 and `g` is not found, so that the
lookups of `d/f`, `d/g` and `d/g/h` give the three kinds of result. -/
theorem C23_path_lookup_witness :
    resolves (state_of (mount archive_interleaved))
      ((none : Option Nat).getD (state_of (mount archive_interleaved)).netfs_root_node)
      [[100]] 1 ∧
    fs_find_node_path (state_of (mount archive_interleaved)) none (join_path ([[100]] ++ [[102]]))
      = Except.ok (3, none, none) ∧
    fs_find_node_path (state_of (mount archive_interleaved)) none (join_path ([[100]] ++ [[103]]))
      = Except.ok (1, none, some [103]) ∧
    fs_find_node_path (state_of (mount archive_interleaved)) none
      (join_path ([[100]] ++ [103] :: [[104]])) = Except.ok (1, some (join_path [[104]]), some [103]) := by
  have hres : resolves (state_of (mount archive_interleaved))
      ((none : Option Nat).getD (state_of (mount archive_interleaved)).netfs_root_node)
      [[100]] 1 := ⟨1, by decide!, rfl⟩
  have hc : ∀ c : List Nat, c = [102] ∨ c = [103] → ∀ post : List (List Nat), post = [] ∨ post = [[104]] →
      ∀ x ∈ [[100]] ++ c :: post, is_component x := by
    intro c hc post hpost x hx
    unfold is_component
    rcases hc with rfl | rfl <;> rcases hpost with rfl | rfl <;> simp at hx <;>
      rcases hx with rfl | rfl | rfl <;> decide
  have hf : _find_node (state_of (mount archive_interleaved)) 1 (some [102]) = Except.ok (some 3) := by
    decide!
  have hg : _find_node (state_of (mount archive_interleaved)) 1 (some [103]) = Except.ok none := by
    decide!
  exact ⟨hres,
    (C23_path_lookup (state_of (mount archive_interleaved)) none [[100]] [102] [] 1
      (hc _ (Or.inl rfl) _ (Or.inl rfl)) hres).1 3 hf,
    ((C23_path_lookup (state_of (mount archive_interleaved)) none [[100]] [103] [[104]] 1
      (hc _ (Or.inr rfl) _ (Or.inr rfl)) hres).2 hg).1,
    ((C23_path_lookup (state_of (mount archive_interleaved)) none [[100]] [103] [[104]] 1
      (hc _ (Or.inr rfl) _ (Or.inr rfl)) hres).2 hg).2 (by decide)⟩

/-! ## Theorems: a sync after an unlink -/

theorem tar_write_inside (s : tarfs) (fo : Nat) (buf : List Nat)
    (h : fo + buf.length ≤ s.tar_file.length) (hb : 0 < buf.length) :
    tar_write s fo buf = (error_t.OK, buf.length,
      { s with tar_file := s.tar_file.take fo ++ buf ++ s.tar_file.drop (fo + buf.length) }) := by
  have hn : ¬ s.tar_file.length ≤ fo := by omega
  have hm : min buf.length (s.tar_file.length - fo) = buf.length := by omega
  simp [tar_write, store_write, hn, hm]

theorem block_split (offs : Nat) :
    (BLOCK_NUMBER offs <<< CACHE_BLOCK_SIZE_LOG2) + BLOCK_RELATIVE_OFFSET offs = offs := by
  unfold BLOCK_NUMBER BLOCK_RELATIVE_OFFSET CACHE_BLOCK_SIZE CACHE_BLOCK_SIZE_LOG2
  rw [Nat.shiftLeft_eq, Nat.shiftRight_eq_div_pow]
  have h : (1 <<< 10 - 1) = 2 ^ 10 - 1 := by decide
  rw [h, Nat.and_pow_two_sub_one_eq_mod]
  exact Nat.div_add_mod' offs (2 ^ 10)

theorem round_size_spec (n : Nat) :
    ∃ q, round_size n = 512 * q ∧ n ≤ 512 * q ∧ 512 * q < n + 512 := by
  unfold round_size RECORDSIZE
  by_cases h : n % 512 = 0
  · refine ⟨n / 512, by simp [h], by omega, by omega⟩
  · refine ⟨n / 512 + 1, by simp [h], by omega, by omega⟩

theorem round_size_zero : round_size 0 = 0 := by decide

theorem round_size_small (m : Nat) (h0 : 0 < m) (h : m ≤ 512) : round_size m = 512 := by
  obtain ⟨q, hq, h1, h2⟩ := round_size_spec m
  omega

theorem round_size_add (m : Nat) : round_size (m + 512) = round_size m + 512 := by
  obtain ⟨q, hq, h1, h2⟩ := round_size_spec m
  obtain ⟨q', hq', h1', h2'⟩ := round_size_spec (m + 512)
  omega

theorem getElem?_all_null (l : List slot) (i : Nat)
    (h : l.all (fun b => b == slot.null) = true) : l[i]? = none ∨ l[i]? = some slot.null := by
  cases hi : l[i]? with
  | none => exact Or.inl rfl
  | some b =>
    right
    rw [List.all_eq_true] at h
    have := h b (List.mem_iff_getElem?.mpr ⟨i, hi⟩)
    simp only [beq_iff_eq] at this
    rw [this]

theorem read_from_file_of (s : tarfs) (n t : Nat) (it : tar_item) (x : node) (nn : netnode)
    (info : tarfs_info) (oz off howmuch : Nat)
    (hx : s.nodes[n]? = some x) (hnn : x.nn = some nn) (hinfo : nn.info = some info)
    (htar : info.tar = some t) (hit : s.items[t]? = some it) (hfr : it.freed = false)
    (hoff : it.offset = (oz : Int)) :
    read_from_file s n off howmuch = Except.ok (store_read s.tar_file (oz + off) howmuch) := by
  have hneg : ¬ ((oz : Int) + (off : Int) < 0) := by omega
  have hto : ((oz : Int) + (off : Int)).toNat = oz + off := by omega
  simp [read_from_file, node_tar, NODE_INFO_of s n x nn info hx hnn hinfo, htar,
    get_item_of s t it hit hfr, hoff, bind, Except.bind, pure, Except.pure, hneg, hto]

theorem cache_read_disk (s : tarfs) (n t : Nat) (it : tar_item) (x : node) (nn : netnode)
    (info : tarfs_info) (oz offs : Nat)
    (hx : s.nodes[n]? = some x) (hnn : x.nn = some nn) (hinfo : nn.info = some info)
    (htar : info.tar = some t) (hit : s.items[t]? = some it) (hfr : it.freed = false)
    (hoff : it.offset = (oz : Int)) (hh : nn.hardlink = none) (hsl : nn.symlink = none)
    (hbl : info.cache.blocks.all (fun b => b == slot.null) = true)
    (hlt : offs < x.nn_stat.st_size) (hlen : oz + x.nn_stat.st_size ≤ s.tar_file.length) :
    cache_read s n offs 512 = Except.ok (error_t.OK,
      store_read s.tar_file (oz + offs) (min (x.nn_stat.st_size - offs) 512)) := by
  have hge : ¬ offs ≥ x.nn_stat.st_size := by omega
  have hm : (if x.nn_stat.st_size - offs > 512 then 512 else x.nn_stat.st_size - offs)
      = min (x.nn_stat.st_size - offs) 512 := by
    split <;> omega
  generalize hM : min (x.nn_stat.st_size - offs) 512 = m at hm
  have hm0 : m ≠ 0 := by omega
  have hm1 : ¬ m > CACHE_BLOCK_SIZE := by
    have : CACHE_BLOCK_SIZE = 1024 := by decide
    omega
  have hstart : ¬ ((oz : Int) = -1) := by omega
  have hrd := read_from_file_of s n t it x nn info oz
    ((BLOCK_NUMBER offs <<< CACHE_BLOCK_SIZE_LOG2) + BLOCK_RELATIVE_OFFSET offs) m hx hnn hinfo
    htar hit hfr hoff
  have hdl : (store_read s.tar_file
      (oz + ((BLOCK_NUMBER offs <<< CACHE_BLOCK_SIZE_LOG2) + BLOCK_RELATIVE_OFFSET offs)) m).length
        = m := by
    rw [block_split]
    simp only [store_read, List.length_take, List.length_drop]
    omega
  obtain ⟨k, hk⟩ : ∃ k, m + 1 = k + 2 := ⟨m - 1, by omega⟩
  unfold cache_read cache_read_hops
  simp only [node_tar, NODE_INFO_of s n x nn info hx hnn hinfo, htar,
    get_item_of s t it hit hfr, get_node_of s n x hx, get_nn_of s n x nn hx hnn, hh, hsl,
    bind, Except.bind, c_assert, Option.isNone_none, if_true, pure, Except.pure, hge, if_false,
    hm, hk]
  unfold cache_read_loop
  simp only [hm0, if_false, hm1, bind, Except.bind, hoff, hstart, ne_eq, not_false_eq_true,
    if_true]
  rcases getElem?_all_null info.cache.blocks (BLOCK_NUMBER offs) hbl with hb | hb
  · simp only [hb, pure, Except.pure, hrd, c_assert, hdl, decide_True, if_true, Nat.sub_self]
    unfold cache_read_loop
    simp [pure, Except.pure, block_split]
  · simp only [hb, pure, Except.pure, hrd, c_assert, hdl, decide_True, if_true, Nat.sub_self]
    unfold cache_read_loop
    simp [pure, Except.pure, block_split]

theorem padded_nil : padded [] = [] := by decide

set_option maxRecDepth 10000 in
theorem padded_take_step (P : List Nat) (m : Nat) (hm : m ≤ P.length) (h0 : 0 < m) :
    padded (P.take m) =
      (P.take (min m 512) ++ List.replicate (512 - (P.take (min m 512)).length) 0)
        ++ padded ((P.drop 512).take (m - 512)) := by
  rcases Nat.lt_or_ge 512 m with hgt | hle
  · have hmin : min m 512 = 512 := by omega
    have hl1 : (P.take 512).length = 512 := by rw [List.length_take]; omega
    have hl2 : ((P.drop 512).take (m - 512)).length = m - 512 := by
      rw [List.length_take, List.length_drop]; omega
    have hl3 : (P.take m).length = m := by rw [List.length_take]; omega
    have hsplit : P.take m = P.take 512 ++ (P.drop 512).take (m - 512) := by
      have : m = 512 + (m - 512) := by omega
      conv_lhs => rw [this]
      exact List.take_add _ _ _
    have hr : round_size m = round_size (m - 512) + 512 := by
      have : m = (m - 512) + 512 := by omega
      conv_lhs => rw [this]
      exact round_size_add _
    unfold padded
    rw [hmin, hl1, hl2, hl3, hsplit, hr]
    simp only [Nat.sub_self, List.replicate_zero, List.append_nil, List.append_assoc]
    congr 3
    omega
  · have hmin : min m 512 = m := by omega
    have hl3 : (P.take m).length = m := by rw [List.length_take]; omega
    have hz : m - 512 = 0 := by omega
    rw [hmin, hz, List.take_zero, padded_nil, List.append_nil]
    simp only [padded, hl3, round_size_small m h0 hle]

theorem drop_after_write (F buf : List Nat) (fo j : Nat) (hfo : fo ≤ F.length)
    (hj : fo + buf.length ≤ j) :
    (F.take fo ++ buf ++ F.drop (fo + buf.length)).drop j = F.drop j := by
  have hl : (F.take fo ++ buf).length = fo + buf.length := by
    rw [List.length_append, List.length_take]; omega
  rw [List.drop_append_eq_append_drop, List.drop_eq_nil_of_le (by rw [hl]; exact hj), hl,
    List.drop_drop, List.nil_append]
  congr 1
  omega

theorem take_after_write (F buf : List Nat) (fo : Nat) (hfo : fo ≤ F.length) :
    (F.take fo ++ buf ++ F.drop (fo + buf.length)).take (fo + buf.length) = F.take fo ++ buf := by
  apply List.take_left'
  rw [List.length_append, List.length_take]
  omega

theorem tarfs_eta (s : tarfs) : { s with tar_file := s.tar_file } = s := by
  cases s
  rfl

theorem sync_contents_moves (n t : Nat) (it : tar_item) (x : node) (nn : netnode)
    (info : tarfs_info) (oz : Nat) (hnn : x.nn = some nn) (hinfo : nn.info = some info)
    (htar : info.tar = some t) (hfr : it.freed = false) (hoff : it.offset = (oz : Int))
    (hh : nn.hardlink = none) (hsl : nn.symlink = none)
    (hbl : info.cache.blocks.all (fun b => b == slot.null) = true) :
    ∀ (k fuel : Nat) (s : tarfs) (offs fo : Nat),
      s.nodes[n]? = some x → s.items[t]? = some it →
      offs + 512 * k = round_size x.nn_stat.st_size → k < fuel →
      fo + 512 ≤ oz + offs → oz + round_size x.nn_stat.st_size ≤ s.tar_file.length →
      sync_contents n t false (round_size x.nn_stat.st_size) fuel s offs fo =
        Except.ok (error_t.OK, fo + 512 * k,
          { s with tar_file := s.tar_file.take fo
              ++ padded ((s.tar_file.drop (oz + offs)).take (x.nn_stat.st_size - offs))
              ++ s.tar_file.drop (fo + 512 * k) }) := by
  obtain ⟨q, hq, hq1, hq2⟩ := round_size_spec x.nn_stat.st_size
  intro k
  induction k with
  | zero =>
    intro fuel s offs fo hx hit hk hf hfo hlen
    obtain ⟨f, rfl⟩ : ∃ f, fuel = f + 1 := ⟨fuel - 1, by omega⟩
    have hlt : ¬ offs < round_size x.nn_stat.st_size := by omega
    have hz : x.nn_stat.st_size - offs = 0 := by omega
    unfold sync_contents
    simp only [hlt, if_false, pure, Except.pure, hz, List.take_zero, padded_nil, List.append_nil,
      Nat.mul_zero, Nat.add_zero, List.take_append_drop, tarfs_eta]
  | succ k ih =>
    intro fuel s offs fo hx hit hk hf hfo hlen
    obtain ⟨f, rfl⟩ : ∃ f, fuel = f + 1 := ⟨fuel - 1, by omega⟩
    have hlt : offs < round_size x.nn_stat.st_size := by omega
    have hlt' : offs < x.nn_stat.st_size := by omega
    have hlen' : oz + x.nn_stat.st_size ≤ s.tar_file.length := by omega
    have hcr := cache_read_disk s n t it x nn info oz offs hx hnn hinfo htar hit hfr hoff hh hsl
      hbl hlt' hlen'
    have hdl : (store_read s.tar_file (oz + offs) (min (x.nn_stat.st_size - offs) 512)).length
        = min (x.nn_stat.st_size - offs) 512 := by
      simp only [store_read, List.length_take, List.length_drop]
      omega
    have hR : RECORDSIZE = 512 := rfl
    unfold sync_contents
    simp only [hlt, if_true, Bool.false_eq_true, if_false, pure, Except.pure, bind, Except.bind,
      ne_eq, not_true_eq_false, hR, hcr, c_assert, beq_self_eq_true]
    have hF : fo ≤ s.tar_file.length := by omega
    have hP : x.nn_stat.st_size - offs ≤ (s.tar_file.drop (oz + offs)).length := by
      rw [List.length_drop]; omega
    have hstep := padded_take_step (s.tar_file.drop (oz + offs)) (x.nn_stat.st_size - offs) hP
      (by omega)
    rw [List.drop_drop] at hstep
    have hD : store_read s.tar_file (oz + offs) (min (x.nn_stat.st_size - offs) 512)
        = (s.tar_file.drop (oz + offs)).take (min (x.nn_stat.st_size - offs) 512) := rfl
    rw [← hD] at hstep
    generalize store_read s.tar_file (oz + offs) (min (x.nn_stat.st_size - offs) 512) = data
      at hdl hstep ⊢
    have ha : (data.length < 512 → offs + 512 = round_size x.nn_stat.st_size) := by
      intro h; omega
    have hbl : (data ++ List.replicate (512 - data.length) 0).length = 512 := by
      rw [List.length_append, List.length_replicate]; omega
    generalize data ++ List.replicate (512 - data.length) 0 = buf at hbl hstep ⊢
    have hw := tar_write_inside s fo buf (by omega) (by omega)
    rw [hbl] at hw
    have ht := take_after_write s.tar_file buf fo hF
    rw [hbl] at ht
    have hd1 := drop_after_write s.tar_file buf fo (oz + (offs + 512)) hF (by omega)
    have hd2 := drop_after_write s.tar_file buf fo (fo + 512 + 512 * k) hF (by omega)
    rw [hbl] at hd1 hd2
    have ha' : decide (data.length < 512 → offs + 512 = round_size x.nn_stat.st_size) = true :=
      decide_eq_true ha
    obtain ⟨s1, hs1⟩ : ∃ s1, s1 =
        { s with tar_file := s.tar_file.take fo ++ buf ++ s.tar_file.drop (fo + 512) } :=
      ⟨_, rfl⟩
    rw [← hs1] at hw
    have hx1 : s1.nodes[n]? = some x := by rw [hs1]; exact hx
    have hit1 : s1.items[t]? = some it := by rw [hs1]; exact hit
    have hlen1 : oz + round_size x.nn_stat.st_size ≤ s1.tar_file.length := by
      rw [hs1]
      simp only [List.length_append, List.length_take, List.length_drop]
      omega
    simp only [ha', if_true, hw, not_true_eq_false, if_false, decide_True]
    rw [ih f s1 (offs + 512) (fo + 512) hx1 hit1 (by omega) (by omega) (by omega) hlen1]
    subst hs1
    simp only [ht, hd1, hd2, hstep]
    have e1 : x.nn_stat.st_size - (offs + 512) = x.nn_stat.st_size - offs - 512 := by omega
    have e2 : fo + 512 * (k + 1) = fo + 512 + 512 * k := by omega
    have e3 : oz + (offs + 512) = oz + offs + 512 := by omega
    rw [e1, e2, e3]
    simp only [List.append_assoc]

theorem not_dir_of_reg (m : Nat) (h : S_ISREG m = true) : S_ISDIR m = false := by
  unfold S_ISREG at h
  unfold S_ISDIR
  simp only [beq_iff_eq] at h
  rw [h]
  decide

theorem path_of_root_entry (s : tarfs) (n : Nat) (x : node) (nn : netnode) (nm : List Nat)
    (hx : s.nodes[n]? = some x) (hnn : x.nn = some nn) (hname : nn.name = some nm)
    (hdir : nn.dir = some s.netfs_root_node) (hne : n ≠ s.netfs_root_node) :
    fs_get_path_from_root s s.netfs_root_node n = Except.ok nm := by
  have hl := getElem?_lt _ _ _ hx
  obtain ⟨k, hk⟩ : ∃ k, s.nodes.length + 1 = k + 2 := ⟨s.nodes.length - 1, by omega⟩
  unfold fs_get_path_from_root
  rw [hk]
  simp [names_to_root, hne, get_nn_of s n x nn hx hnn, hname, hdir, bind, Except.bind, pure,
    Except.pure, List.intercalate]

theorem tar_make_header_regular (ns : name_service) (st : io_statbuf_t) (name : List Nat)
    (sl hl : Option (List Nat)) (hn : name.length ≤ NAMSIZ) (hr : S_ISREG st.st_mode = true) :
    ∃ h, tar_make_header ns st name sl hl = Except.ok h ∧ h.length = 512 := by
  have hex : ∃ h, tar_make_header ns st name sl hl = Except.ok h := by
    unfold tar_make_header
    simp [c_assert, hn, hr, bind, Except.bind, pure, Except.pure]
  obtain ⟨h, hh⟩ := hex
  obtain ⟨_, g, hg, _, _, rfl⟩ := tar_make_header_shape hh
  exact ⟨_, hh, (with_checksum_spec g hg).1⟩

theorem sync_item_in_place (ns : name_service) (s : tarfs) (t n fo : Nat) (it : tar_item)
    (x : node) (nn : netnode) (info : tarfs_info) (path : List Nat)
    (hit : s.items[t]? = some it) (hfr : it.freed = false)
    (hx : s.nodes[n]? = some x) (hnn : x.nn = some nn) (hinfo : nn.info = some info)
    (hoff : it.offset = (fo : Int) + RECORDSIZE) (hsz : x.nn_stat.st_size = it.orig_size)
    (hst : info.stat_changed = false)
    (hbl : info.cache.blocks.all (fun b => b == slot.null) = true)
    (hp : fs_get_path_from_root s s.netfs_root_node n = Except.ok path) :
    sync_item ns s t n fo = Except.ok (error_t.OK, fo + RECORDSIZE + round_size x.nn_stat.st_size,
      set_node s n
        { x with nn := some { nn with info := some { info with cache := { blocks := [] } } } }) := by
  unfold sync_item
  simp only [get_item_of s t it hit hfr, get_node_of s n x hx, get_nn_of s n x nn hx hnn,
    NODE_INFO_of s n x nn info hx hnn hinfo, hp, bind, Except.bind]
  have hc : ¬ (info.stat_changed = true ∨ x.nn_stat.st_size ≠ it.orig_size ∨
      decide (it.offset ≠ (fo : Int) + RECORDSIZE) = true) := by
    simp [hst, hsz, hoff]
  have hit' : { it with offset := ((fo + RECORDSIZE : Nat) : Int) } = it := by
    cases it
    simp only [tar_item.mk.injEq, and_true] at *
    rw [hoff]
    push_cast
    rfl
  rw [if_neg hc]
  simp only [pure, Except.pure, get_node_of s n x hx, get_nn_of s n x nn hx hnn,
    get_item_of s t it hit hfr, cache_synced_of s n x nn info hx hnn hinfo hbl, hoff,
    ne_eq, not_true_eq_false, if_false, Bool.not_true, Bool.false_or, decide_False,
    decide_True, Bool.and_false, hit', set_item_same s t it hit,
    cache_free_of s n x nn info hx hnn hinfo hbl, Bool.false_eq_true, ite_self, ↓reduceIte]
  simp [round_size]

theorem items_set_item_ne (s : tarfs) (i j : Nat) (v : tar_item) (h : i ≠ j) :
    (set_item s i v).items[j]? = s.items[j]? := by
  simp [set_item, List.getElem?_set_ne h]

theorem items_set_item_self (s : tarfs) (i : Nat) (v it : tar_item) (h : s.items[i]? = some it) :
    (set_item s i v).items[i]? = some v := by
  simp [set_item, List.getElem?_set_self (getElem?_lt _ _ _ h)]

theorem tar_unlink_item_safe_middle (s : tarfs) (tx ty tz : Nat) (itx ity itz : tar_item)
    (hx : s.items[tx]? = some itx) (hfx : itx.freed = false)
    (hy : s.items[ty]? = some ity) (hfy : ity.freed = false)
    (hz : s.items[tz]? = some itz) (hfz : itz.freed = false)
    (hn : ity.node = none) (hl : s.tar_list = some tx) (hp : ity.prev = some tx)
    (hnx : ity.next = some tz) (hxy : tx ≠ ty) (hyz : ty ≠ tz) (hxz : tx ≠ tz) :
    tar_unlink_item_safe s ty = Except.ok
      (set_item (set_item (set_item s tx { itx with next := some tz }) tz
        { itz with prev := some tx }) ty { ity with freed := true }) := by
  have h1 : (set_item s tx { itx with next := some tz }).items[tz]? = some itz := by
    rw [items_set_item_ne _ _ _ _ hxz]; exact hz
  have h2 : (set_item (set_item s tx { itx with next := some tz }) tz
      { itz with prev := some tx }).items[ty]? = some ity := by
    rw [items_set_item_ne _ _ _ _ (Ne.symm hyz), items_set_item_ne _ _ _ _ hxy]; exact hy
  unfold tar_unlink_item_safe
  simp only [get_item_of s ty ity hy hfy, hn, hl, hp, hnx, bind, Except.bind, c_assert,
    Option.isNone_none, Option.isSome_some, if_true, get_item_of s tx itx hx hfx,
    get_item_of _ tz itz h1 hfz, get_item_of _ ty ity h2 hfy, pure, Except.pure]

theorem cache_ahead_clear (s : tarfs) (t n : Nat) (it : tar_item) (x : node)
    (offs size fuel oz : Nat)
    (hit : s.items[t]? = some it) (hfr : it.freed = false) (hoff : it.offset = (oz : Int))
    (hnode : it.node = some n) (hnext : it.next = none) (hx : s.nodes[n]? = some x)
    (hclear : offs + size ≤ oz) :
    cache_ahead (fuel + 1) s (some t) (offs : Int) size = Except.ok (error_t.OK, s) := by
  have h1 : ((oz : Int) ≠ -1 ∧ (some n : Option Nat).isSome = true) := ⟨by omega, rfl⟩
  have hnd : next_on_disk s (s.items.length + 1) (some t) = Except.ok (some t) := by
    unfold next_on_disk
    simp only [get_item_of s t it hit hfr, hoff, hnode, bind, Except.bind]
    rw [if_pos h1]
    rfl
  have h2 : ¬ ((offs : Int) < (oz : Int) + (x.nn_stat.st_size : Int) ∧
      (offs : Int) + (size : Int) > (oz : Int)) := by
    intro h; omega
  unfold cache_ahead
  simp only [hnd, get_item_of s t it hit hfr, hoff, hnode, bind,
    Except.bind, pure, Except.pure, get_node_of s n x hx, h2, if_false, hnext,
    Option.isSome_none, Bool.false_eq_true, false_and, ne_eq, not_true_eq_false, and_self]

theorem sync_item_moved (ns : name_service) (s : tarfs) (t n fo oz : Nat) (it : tar_item)
    (x : node) (nn : netnode) (info : tarfs_info) (nm hz : List Nat)
    (hit : s.items[t]? = some it) (hfr : it.freed = false)
    (hx : s.nodes[n]? = some x) (hnn : x.nn = some nn) (hinfo : nn.info = some info)
    (htar : info.tar = some t) (hoff : it.offset = (oz : Int)) (hnode : it.node = some n)
    (hnext : it.next = none) (hreg : S_ISREG x.nn_stat.st_mode = true)
    (hsl : nn.symlink = none) (hh : nn.hardlink = none)
    (hbl : info.cache.blocks.all (fun b => b == slot.null) = true)
    (hname : nn.name = some nm) (hdir : nn.dir = some s.netfs_root_node)
    (hne : n ≠ s.netfs_root_node)
    (hmk : tar_make_header ns x.nn_stat nm none none = Except.ok hz) (hzl : hz.length = 512)
    (hfar : fo + 1024 ≤ oz) (hlen : oz + round_size x.nn_stat.st_size ≤ s.tar_file.length) :
    sync_item ns s t n fo = Except.ok (error_t.OK, fo + 512 + round_size x.nn_stat.st_size,
      set_node
        (set_item
          { s with tar_file := s.tar_file.take fo ++ hz
              ++ padded ((s.tar_file.drop oz).take x.nn_stat.st_size)
              ++ s.tar_file.drop (fo + 512 + round_size x.nn_stat.st_size) }
          t { it with offset := ((fo + 512 : Nat) : Int), orig_size := x.nn_stat.st_size })
        n { x with nn := some { nn with info := some { info with cache := { blocks := [] } } } })
    := by
  obtain ⟨q, hq, hq1, hq2⟩ := round_size_spec x.nn_stat.st_size
  have hR : RECORDSIZE = 512 := rfl
  have hp := path_of_root_entry s n x nn nm hx hnn hname hdir hne
  have hca := cache_ahead_clear s t n it x fo 512 s.items.length oz hit hfr hoff hnode hnext hx
    (by omega)
  have hw := tar_write_inside s fo hz (by omega) (by omega)
  rw [hzl] at hw
  obtain ⟨s3, hs3⟩ : ∃ s3, s3 =
      { s with tar_file := s.tar_file.take fo ++ hz ++ s.tar_file.drop (fo + 512) } := ⟨_, rfl⟩
  rw [← hs3] at hw
  have hx3 : s3.nodes[n]? = some x := by rw [hs3]; exact hx
  have hit3 : s3.items[t]? = some it := by rw [hs3]; exact hit
  have hF : fo ≤ s.tar_file.length := by omega
  have hl3 : s3.tar_file.length = s.tar_file.length := by
    rw [hs3]
    simp only [List.length_append, List.length_take, List.length_drop]
    omega
  have hmv := sync_contents_moves n t it x nn info oz hnn hinfo htar hfr hoff hh hsl hbl q
    (round_size x.nn_stat.st_size / 512 + 1) s3 0 (fo + 512) hx3 hit3 (by omega) (by omega)
    (by omega) (by omega)
  obtain ⟨s4, hs4⟩ : ∃ s4, s4 =
      { s3 with tar_file := s3.tar_file.take (fo + 512)
          ++ padded ((s3.tar_file.drop (oz + 0)).take (x.nn_stat.st_size - 0))
          ++ s3.tar_file.drop (fo + 512 + 512 * q) } := ⟨_, rfl⟩
  rw [← hs4] at hmv
  have hx4 : s4.nodes[n]? = some x := by rw [hs4]; exact hx3
  have hit4 : s4.items[t]? = some it := by rw [hs4]; exact hit3
  have hcond : (info.stat_changed = true ∨ x.nn_stat.st_size ≠ it.orig_size ∨
      decide (it.offset ≠ (fo : Int) + RECORDSIZE) = true) := by
    right; right
    rw [hoff, hR]
    simp only [decide_eq_true_eq]
    intro h; omega
  have hts : decide (it.offset ≠ (fo : Int) + RECORDSIZE) = true := by
    rw [hoff, hR]
    simp only [decide_eq_true_eq]
    intro h; omega
  have hah : decide (it.offset - ((fo + RECORDSIZE : Nat) : Int) < RECORDSIZE) = false := by
    rw [hoff, hR]
    simp only [decide_eq_false_iff_not]
    intro h; omega
  have hnd := not_dir_of_reg _ hreg
  unfold sync_item
  simp only [get_item_of s t it hit hfr, get_node_of s n x hx, get_nn_of s n x nn hx hnn,
    NODE_INFO_of s n x nn info hx hnn hinfo, hp, bind, Except.bind]
  rw [if_pos hcond]
  simp only [hR] at hca hts hah ⊢
  simp only [hca, hh, pure, Except.pure, get_node_of s n x hx, get_nn_of s n x nn hx hnn, hsl,
    hmk, hw, c_assert, ne_eq, not_true_eq_false, if_false, decide_True, if_true,
    get_node_of s3 n x hx3, get_nn_of s3 n x nn hx3 hnn, hnd, Bool.not_false, Bool.true_and,
    Option.isNone_none, Bool.and_self, cache_synced_of s3 n x nn info hx3 hnn hinfo hbl,
    Bool.not_true, Bool.false_or, hts, get_item_of s3 t it hit3 hfr, hah, hmv]
  have hx5 : ∀ v, (set_item s4 t v).nodes[n]? = some x := fun _ => hx4
  have ht := take_after_write s.tar_file hz fo hF
  have hd1 := drop_after_write s.tar_file hz fo oz hF (by omega)
  have hd2 := drop_after_write s.tar_file hz fo (fo + 512 + 512 * q) hF (by omega)
  rw [hzl] at ht hd1 hd2
  simp only [get_item_of s4 t it hit4 hfr, get_node_of s4 n x hx4, not_true_eq_false, if_false,
    cache_free_of _ n x nn info (hx5 _) hnn hinfo hbl, hsl, hh]
  rw [hs4, hs3, hq]
  simp only [Nat.add_zero, Nat.sub_zero, ht, hd1, hd2]

theorem middle_unlinked_spec {s : tarfs} {tx ty tz nx nz sx sy sz : Nat}
    (h : middle_unlinked s tx ty tz nx nz sx sy sz = true) :
    ∃ itx ity itz x z nnx nnz ix iz nm,
      s.items[tx]? = some itx ∧ s.items[ty]? = some ity ∧ s.items[tz]? = some itz ∧
      s.nodes[nx]? = some x ∧ s.nodes[nz]? = some z ∧ x.nn = some nnx ∧ z.nn = some nnz ∧
      nnx.info = some ix ∧ nnz.info = some iz ∧
      s.tar_list = some tx ∧ tx ≠ ty ∧ ty ≠ tz ∧ tx ≠ tz ∧ nx ≠ nz ∧
      nx ≠ s.netfs_root_node ∧ nz ≠ s.netfs_root_node ∧
      itx.freed = false ∧ itx.node = some nx ∧ itx.offset = 512 ∧ itx.orig_size = sx ∧
      itx.next = some ty ∧
      x.nn_stat.st_size = sx ∧ ix.stat_changed = false ∧
      ix.cache.blocks.all (fun b => b == slot.null) = true ∧
      nnx.name.isSome = true ∧ nnx.dir = some s.netfs_root_node ∧
      ity.freed = false ∧ ity.node = none ∧ ity.offset = ((1024 + round_size sx : Nat) : Int) ∧
      ity.orig_size = sy ∧ ity.prev = some tx ∧ ity.next = some tz ∧
      itz.freed = false ∧ itz.node = some nz ∧
      itz.offset = ((1536 + round_size sx + round_size sy : Nat) : Int) ∧
      itz.orig_size = sz ∧ itz.next = none ∧
      z.nn_stat.st_size = sz ∧ iz.tar = some tz ∧
      iz.cache.blocks.all (fun b => b == slot.null) = true ∧
      S_ISREG z.nn_stat.st_mode = true ∧ nnz.symlink = none ∧ nnz.hardlink = none ∧
      nnz.name = some nm ∧ nm.length ≤ NAMSIZ ∧ nnz.dir = some s.netfs_root_node ∧
      1536 + round_size sx + round_size sy + round_size sz ≤ s.tar_file.length := by
  unfold middle_unlinked at h
  split at h
  · rename_i itx ity itz x z h1 h2 h3 h4 h5
    split at h
    · rename_i nnx nnz h6 h7
      split at h
      · rename_i ix iz h8 h9
        simp only [Bool.and_eq_true, beq_iff_eq, bne_iff_ne, ne_eq, Bool.not_eq_true',
          decide_eq_true_eq, Option.isNone_iff_eq_none] at h
        obtain ⟨⟨⟨⟨⟨⟨⟨⟨⟨⟨⟨⟨⟨⟨⟨⟨⟨⟨⟨⟨⟨⟨⟨⟨⟨⟨⟨⟨⟨⟨⟨⟨⟨⟨⟨⟨a1, a2⟩, a3⟩, a4⟩, a5⟩, a6⟩, a7⟩, a8⟩, a9⟩,
          a10⟩, a11⟩, a12⟩, a13⟩, a14⟩, a15⟩, a16⟩, a17⟩, a18⟩, a19⟩, a20⟩, a21⟩, a22⟩, a23⟩,
          a24⟩, a25⟩, a26⟩, a27⟩, a28⟩, a29⟩, a30⟩, a31⟩, a32⟩, a33⟩, a34⟩, a35⟩, a36⟩, a37⟩ := h
        cases hnm : nnz.name with
        | none => rw [hnm] at a35; simp at a35
        | some nm =>
          rw [hnm] at a35
          simp only [decide_eq_true_eq] at a35
          exact ⟨itx, ity, itz, x, z, nnx, nnz, ix, iz, nm, h1, h2, h3, h4, h5, h6, h7, h8, h9,
            a1, a2, a3, a4, a5, a6, a7, a8, a9, a10, a11, a12, a13, a14, a15, a16, a17, a18, a19,
            a20, a21, a22, a23, a24, a25, a26, a27, a28, a29, a30, a31, a32, a33, a34, hnm, a35,
            a36, a37⟩
      · cases h
    · cases h
  · cases h

theorem padded_length (d : List Nat) : (padded d).length = round_size d.length := by
  obtain ⟨q, hq, h1, h2⟩ := round_size_spec d.length
  simp only [padded, List.length_append, List.length_replicate]
  omega

theorem item_chain_none (s : tarfs) (k : Nat) : item_chain s k none = [] := by
  cases k <;> rfl

theorem sync_loop_x_y_z (ns : name_service) (s : tarfs) (tx ty tz nx nz sx sy sz : Nat)
    (hs : middle_unlinked s tx ty tz nx nz sx sy sz = true) :
    ∃ sZ itx ity itz z nm hdr, s.items[tx]? = some itx ∧ s.items[ty]? = some ity ∧
      s.items[tz]? = some itz ∧ itx.offset = 512 ∧ itz.next = none ∧
      tx ≠ ty ∧ ty ≠ tz ∧ tx ≠ tz ∧
      1536 + round_size sx + round_size sy + round_size sz ≤ s.tar_file.length ∧
      get_node s nz = Except.ok z ∧
      z.nn.bind (fun nn => nn.name) = some nm ∧
      tar_make_header ns z.nn_stat nm none none = Except.ok hdr ∧ hdr.length = 512 ∧
      sync_loop ns (s.items.length + 1) s s.tar_list 0 0 =
        Except.ok (error_t.OK, 1024 + round_size sx + round_size sz,
          1536 + round_size sx + round_size sy + round_size sz, sZ) ∧
      sZ.tar_list = some tx ∧
      sZ.items = (((s.items.set tx { itx with next := some tz }).set tz
        { itz with prev := some tx }).set ty { ity with freed := true }).set tz
          { itz with prev := some tx, offset := ((1024 + round_size sx : Nat) : Int),
                     orig_size := sz } ∧
      sZ.tar_file = s.tar_file.take (512 + round_size sx) ++ hdr
        ++ padded ((s.tar_file.drop (1536 + round_size sx + round_size sy)).take sz)
        ++ s.tar_file.drop (1024 + round_size sx + round_size sz) := by
  obtain ⟨itx, ity, itz, x, z, nnx, nnz, ix, iz, nm, hitx, hity, hitz, hx, hz, hxnn, hznn, hxi,
    hzi, hlist, hxy, hyz, hxz, hnxz, hxr, hzr, hfx, hnx, hox, hsx, hxn, hxs, hxc, hxb, hxname,
    hxdir, hfy, hny, hoy, hsy, hyp, hyn, hfz, hnz, hoz, hsz, hzn, hzs, hzt, hzb, hreg, hzsl,
    hzh, hzname, hnml, hzdir, hlen⟩ := middle_unlinked_spec hs
  obtain ⟨hdr, hmk, hdl⟩ := tar_make_header_regular ns z.nn_stat nm none none hnml hreg
  obtain ⟨xnm, hxnm⟩ := Option.isSome_iff_exists.mp hxname
  have hR : RECORDSIZE = 512 := rfl
  have hpx := path_of_root_entry s nx x nnx xnm hx hxnn hxnm hxdir hxr
  have hX := sync_item_in_place ns s tx nx 0 itx x nnx ix xnm hitx hfx hx hxnn hxi
    (by rw [hox]; rfl) (by rw [hxs, hsx]) hxc hxb hpx
  obtain ⟨s1, hs1⟩ : ∃ s1, s1 = set_node s nx
      { x with nn := some { nnx with info := some { ix with cache := { blocks := [] } } } } :=
    ⟨_, rfl⟩
  rw [← hs1, hxs, hR] at hX
  have i1 : s1.items = s.items := by rw [hs1]; rfl
  have l1 : s1.tar_list = some tx := by rw [hs1]; exact hlist
  have f1 : s1.tar_file = s.tar_file := by rw [hs1]; rfl
  have r1 : s1.netfs_root_node = s.netfs_root_node := by rw [hs1]; rfl
  have n1z : s1.nodes[nz]? = some z := by
    rw [hs1]
    simp only [set_node, List.getElem?_set_ne hnxz]
    exact hz
  have hitx1 : s1.items[tx]? = some itx := by rw [i1]; exact hitx
  have hity1 : s1.items[ty]? = some ity := by rw [i1]; exact hity
  have hitz1 : s1.items[tz]? = some itz := by rw [i1]; exact hitz
  have hY := tar_unlink_item_safe_middle s1 tx ty tz itx ity itz hitx1 hfx hity1 hfy hitz1 hfz hny
    l1 hyp hyn hxy hyz hxz
  obtain ⟨s2, hs2⟩ : ∃ s2, s2 = set_item (set_item (set_item s1 tx { itx with next := some tz }) tz
      { itz with prev := some tx }) ty { ity with freed := true } := ⟨_, rfl⟩
  rw [← hs2] at hY
  have i2 : s2.items = ((s.items.set tx { itx with next := some tz }).set tz
      { itz with prev := some tx }).set ty { ity with freed := true } := by
    rw [hs2]; simp only [set_item, i1]
  have l2 : s2.tar_list = some tx := by rw [hs2]; exact l1
  have f2 : s2.tar_file = s.tar_file := by rw [hs2]; exact f1
  have r2 : s2.netfs_root_node = s.netfs_root_node := by rw [hs2]; exact r1
  have n2z : s2.nodes[nz]? = some z := by rw [hs2]; exact n1z
  have hlz : tz < s.items.length := getElem?_lt _ _ _ hitz
  have hitz2 : s2.items[tz]? = some { itz with prev := some tx } := by
    rw [i2, List.getElem?_set_ne hyz, List.getElem?_set_self (by simp; exact hlz)]
  have hZ := sync_item_moved ns s2 tz nz (512 + round_size sx)
    (1536 + round_size sx + round_size sy) { itz with prev := some tx } z nnz iz nm hdr hitz2 hfz
    n2z hznn hzi hzt hoz hnz hzn hreg hzsl hzh hzb hzname (by rw [r2]; exact hzdir)
    (by rw [r2]; exact hzr) hmk hdl (by omega) (by rw [f2, hzs]; omega)
  rw [hzs, f2] at hZ
  obtain ⟨sZ, hZ', lZ, iZ, fZ⟩ : ∃ sZ, sync_item ns s2 tz nz (512 + round_size sx) =
      Except.ok (error_t.OK, 512 + round_size sx + 512 + round_size sz, sZ) ∧
      sZ.tar_list = some tx ∧
      sZ.items = s2.items.set tz
        { itz with prev := some tx, offset := ((512 + round_size sx + 512 : Nat) : Int), orig_size := sz } ∧
      sZ.tar_file = s.tar_file.take (512 + round_size sx) ++ hdr
        ++ padded ((s.tar_file.drop (1536 + round_size sx + round_size sy)).take sz)
        ++ s.tar_file.drop (512 + round_size sx + 512 + round_size sz) :=
    ⟨_, hZ, l2, rfl, rfl⟩
  have hlx : tx < s.items.length := getElem?_lt _ _ _ hitx
  have hly : ty < s.items.length := getElem?_lt _ _ _ hity
  obtain ⟨k, hk⟩ : ∃ k, s.items.length + 1 = k + 4 := ⟨s.items.length - 3, by omega⟩
  have hitzZ : sZ.items[tz]? = some
      { itz with prev := some tx, offset := ((512 + round_size sx + 512 : Nat) : Int), orig_size := sz } := by
    rw [iZ, List.getElem?_set_self (by rw [i2]; simp; exact hlz)]
  have e1 : (512 : Int) ≠ -1 := by decide
  have e2 : ((1024 + round_size sx : Nat) : Int) ≠ -1 := by omega
  have e3 : ((1536 + round_size sx + round_size sy : Nat) : Int) ≠ -1 := by omega
  refine ⟨sZ, itx, ity, itz, z, nm, hdr, hitx, hity, hitz, hox, hzn, hxy, hyz, hxz, hlen,
    get_node_of s nz z hz, ?_, hmk, hdl, ?_, lZ, ?_, ?_⟩
  · rw [hznn]; exact hzname
  · rw [hk, hlist]
    simp only [sync_loop, get_item_of s tx itx hitx hfx, hox, hnx, hX, bind, Except.bind, pure,
      Except.pure, e1, e2, e3, ne_eq, not_false_eq_true, not_true_eq_false, if_true, if_false,
      get_item_of s1 tx itx hitx1 hfx, hxn, get_item_of s1 ty ity hity1 hfy, hoy, hny, hY, hyn,
      get_item_of s2 tz _ hitz2 hfz, hoz, hnz, hZ', get_item_of sZ tz _ hitzZ hfz, hzn, hsx, hsy,
      hsz, hR]
    simp only [Except.ok.injEq, Prod.mk.injEq, true_and, and_true]
    constructor <;> omega
  · rw [iZ, i2]
    have e : 512 + round_size sx + 512 = 1024 + round_size sx := by omega
    rw [e]
  · rw [fZ]
    have e : 512 + round_size sx + 512 + round_size sz = 1024 + round_size sx + round_size sz := by
      omega
    rw [e]

theorem round_size_eq_zero (n : Nat) : round_size n = 0 ↔ n = 0 := by
  obtain ⟨q, hq, h1, h2⟩ := round_size_spec n
  omega

/-- C30 (unlink then sync), the claim as the code has it: let the archive hold
the files `x`, `y`, `z` of `sx`, `sy`, `sz` bytes, and let `y` have been
unlinked and its node freed.  Then tarfs_sync_fs returns 0; the item list is
`x`, `z` and the item of `y` is released; `x` keeps its place and `z` lies
right after it; the archive holds the records of `x`, the header built for
`z`, the contents of `z` padded with NULs, and one zero record.  When `y` was
not empty the archive ends there: its size is
`2*512 + padded(x) + padded(z) + 512`.  When `y` was empty nothing is cut off
and the archive keeps its length. -/
theorem C30_unlink_then_sync (ns : name_service) (s : tarfs) (tx ty tz nx nz sx sy sz : Nat)
    (hs : middle_unlinked s tx ty tz nx nz sx sy sz = true) :
    ∃ s' z nm hdr, get_node s nz = Except.ok z ∧ z.nn.bind (fun nn => nn.name) = some nm ∧
      tar_make_header ns z.nn_stat nm none none = Except.ok hdr ∧
      tarfs_sync_fs ns s = Except.ok (error_t.OK, s') ∧
      item_list s' = [tx, tz] ∧
      (s'.items[ty]?).map (fun it => it.freed) = some true ∧
      (s'.items[tx]?).map (fun it => it.offset) = some 512 ∧
      (s'.items[tz]?).map (fun it => it.offset) = some ((1024 + round_size sx : Nat) : Int) ∧
      s'.tar_file = s.tar_file.take (512 + round_size sx) ++ hdr
          ++ padded ((s.tar_file.drop (1536 + round_size sx + round_size sy)).take sz)
          ++ List.replicate 512 0
          ++ (if sy = 0 then s.tar_file.drop (1536 + round_size sx + round_size sz) else []) ∧
      s'.tar_file.length =
        (if sy = 0 then s.tar_file.length else 2 * 512 + round_size sx + round_size sz + 512) := by
  obtain ⟨sZ, itx, ity, itz, z, nm, hdr, hitx, hity, hitz, hox, hzn, hxy, hyz, hxz, hlen, hz, hnm,
    hmk, hdl, hloop, lZ, iZ, fZ⟩ := sync_loop_x_y_z ns s tx ty tz nx nz sx sy sz hs
  have hlx : tx < s.items.length := getElem?_lt _ _ _ hitx
  have hly : ty < s.items.length := getElem?_lt _ _ _ hity
  have hlz : tz < s.items.length := getElem?_lt _ _ _ hitz
  have hR : RECORDSIZE = 512 := rfl
  obtain ⟨A, hA⟩ : ∃ A, A = s.tar_file.take (512 + round_size sx) ++ hdr
      ++ padded ((s.tar_file.drop (1536 + round_size sx + round_size sy)).take sz) := ⟨_, rfl⟩
  have hAl : A.length = 1024 + round_size sx + round_size sz := by
    rw [hA]
    simp only [List.length_append, List.length_take, padded_length, List.length_drop, hdl]
    have : min sz (s.tar_file.length - (1536 + round_size sx + round_size sy)) = sz := by
      have := (round_size_spec sz)
      omega
    rw [this]
    omega
  rw [← hA] at fZ
  obtain ⟨Z, hZ⟩ : ∃ Z, Z = List.replicate 512 0 := ⟨_, rfl⟩
  have hZl : Z.length = 512 := by rw [hZ, List.length_replicate]
  have hFl : sZ.tar_file.length = s.tar_file.length := by
    rw [fZ, List.length_append, hAl, List.length_drop]
    omega
  have hw := tar_write_inside sZ (1024 + round_size sx + round_size sz) Z
    (by rw [hFl, hZl]; omega) (by omega)
  have ht : sZ.tar_file.take (1024 + round_size sx + round_size sz) = A := by
    rw [fZ]; exact List.take_left' hAl
  have hd : sZ.tar_file.drop (1024 + round_size sx + round_size sz + 512) =
      s.tar_file.drop (1536 + round_size sx + round_size sz) := by
    rw [fZ, List.drop_append_eq_append_drop, List.drop_eq_nil_of_le (by omega), hAl,
      List.drop_drop, List.nil_append]
    congr 1
    omega
  rw [hZl, ht, hd] at hw
  have hIx : sZ.items[tx]? = some { itx with next := some tz } := by
    rw [iZ, List.getElem?_set_ne (Ne.symm hxz), List.getElem?_set_ne (Ne.symm hxy),
      List.getElem?_set_ne (Ne.symm hxz), List.getElem?_set_self hlx]
  have hIy : sZ.items[ty]? = some { ity with freed := true } := by
    rw [iZ, List.getElem?_set_ne (Ne.symm hyz), List.getElem?_set_self (by simp; exact hly)]
  have hIz : sZ.items[tz]? = some
      { itz with prev := some tx, offset := ((1024 + round_size sx : Nat) : Int), orig_size := sz } := by
    rw [iZ, List.getElem?_set_self (by simp; exact hlz)]
  have hIl : sZ.items.length = s.items.length := by rw [iZ]; simp
  obtain ⟨k, hk⟩ : ∃ k, s.items.length = k + 2 := ⟨s.items.length - 2, by omega⟩
  have hlist : ∀ s' : tarfs, s'.items = sZ.items → s'.tar_list = sZ.tar_list →
      item_list s' = [tx, tz] := by
    intro s' h1 h2
    unfold item_list
    simp only [h1, h2, hIl, hk, lZ, item_chain, hIx, hIz, hzn, item_chain_none]
  have hcut : (1024 + round_size sx + round_size sz + 512 <
      1536 + round_size sx + round_size sy + round_size sz) ↔ sy ≠ 0 := by
    have := round_size_eq_zero sy
    omega
  have hmap : ∀ s' : tarfs, s'.items = sZ.items →
      (s'.items[ty]?).map (fun it => it.freed) = some true ∧
      (s'.items[tx]?).map (fun it => it.offset) = some 512 ∧
      (s'.items[tz]?).map (fun it => it.offset) = some ((1024 + round_size sx : Nat) : Int) := by
    intro s' h1
    simp only [h1, hIx, hIy, hIz, Option.map_some', hox, and_self]
  rw [hZ] at hw hZl
  obtain ⟨s7, hs7⟩ : ∃ s7 : tarfs, s7 =
      { sZ with tar_file := A ++ List.replicate 512 0 ++ s.tar_file.drop (1536 + round_size sx + round_size sz) } :=
    ⟨_, rfl⟩
  rw [← hs7] at hw
  have i7 : s7.items = sZ.items := by rw [hs7]
  have l7 : s7.tar_list = sZ.tar_list := by rw [hs7]
  have f7 : s7.tar_file =
      A ++ List.replicate 512 0 ++ s.tar_file.drop (1536 + round_size sx + round_size sz) := by
    rw [hs7]
  by_cases hy0 : sy = 0
  · have hnc : ¬ (1024 + round_size sx + round_size sz + 512 <
        1536 + round_size sx + round_size sy + round_size sz) := by
      rw [hcut]; exact not_not.mpr hy0
    refine ⟨s7, z, nm, hdr, hz, hnm, hmk, ?_, hlist s7 i7 l7, (hmap s7 i7).1, (hmap s7 i7).2.1,
      (hmap s7 i7).2.2, ?_, ?_⟩
    · unfold tarfs_sync_fs
      simp only [hloop, bind, Except.bind, pure, Except.pure, ne_eq, not_true_eq_false, if_false,
        hR, hw, Nat.lt_irrefl, or_self, true_and, hnc]
    · rw [f7, hA]
      simp only [hy0, if_true]
    · rw [f7]
      simp only [hy0, if_true, List.length_append, hAl, List.length_replicate, List.length_drop]
      have := round_size_eq_zero sy
      omega
  · have hc : (1024 + round_size sx + round_size sz + 512 <
        1536 + round_size sx + round_size sy + round_size sz) := hcut.mpr hy0
    obtain ⟨s8, hs8⟩ : ∃ s8 : tarfs, s8 =
        { s7 with tar_file := store_set_size s7.tar_file (1024 + round_size sx + round_size sz + 512) } :=
      ⟨_, rfl⟩
    have i8 : s8.items = sZ.items := by rw [hs8]; exact i7
    have l8 : s8.tar_list = sZ.tar_list := by rw [hs8]; exact l7
    have hl : (A ++ List.replicate 512 0).length = 1024 + round_size sx + round_size sz + 512 := by
      rw [List.length_append, hAl, List.length_replicate]
    have f8 : s8.tar_file = A ++ List.replicate 512 0 := by
      rw [hs8]
      show store_set_size s7.tar_file _ = _
      rw [f7]
      unfold store_set_size
      rw [List.take_left' hl]
      simp only [List.length_append, hAl, List.length_replicate, List.length_drop]
      have e : 1024 + round_size sx + round_size sz + 512 -
          (1024 + round_size sx + round_size sz + 512 +
            (s.tar_file.length - (1536 + round_size sx + round_size sz))) = 0 := by omega
      rw [e, List.replicate_zero, List.append_nil]
    refine ⟨s8, z, nm, hdr, hz, hnm, hmk, ?_, hlist s8 i8 l8, (hmap s8 i8).1, (hmap s8 i8).2.1,
      (hmap s8 i8).2.2, ?_, ?_⟩
    · unfold tarfs_sync_fs
      simp only [hloop, bind, Except.bind, pure, Except.pure, ne_eq, not_true_eq_false, if_false,
        hR, hw, Nat.lt_irrefl, or_self, true_and, hc, if_true]
      rw [hs8]
    · rw [f8, hA]
      simp only [hy0, if_false, List.append_nil]
    · rw [f8, hl]
      simp only [hy0, if_false]

set_option maxRecDepth 100000 in
/-- C30 (unlink then sync), where the claim as stated fails: the archive holds
`x` (3 bytes), `y` (1000 bytes) and `z` (600 bytes); after tarfs_unlink_node
for `y`, tarfs_sync_fs returns 0, the item list is `x`, `z`, and the archive is
3072 bytes long, which is `2*512 + 512 + 1024 + 512`; the size the claim
states, `3*512 + padded(x) + padded(z) + 512`, is 3584. -/
theorem C30_size_after_unlink_and_sync :
    (do
      let s ← mount archive_x_y_z
      let (e1, s1) ← tarfs_unlink_node s 2
      let (e2, s') ← tarfs_sync_fs ns_none s1
      pure (e1, e2, item_list s', s'.tar_file.length,
        3 * 512 + round_size 3 + round_size 600 + 512) : Run _)
      = Except.ok (error_t.OK, error_t.OK, [0, 2], 3072, 3584) := by
  decide!

set_option maxRecDepth 100000 in
/-- C30 at the mounted archive `x` (3 bytes), `y` (1000 bytes), `z` (600
bytes) after `y` was unlinked. -/
theorem C30_unlink_then_sync_witness :
    middle_unlinked (state_of unlinked_y) 0 1 2 1 3 3 1000 600 = true ∧
    ∃ s' z nm hdr, get_node (state_of unlinked_y) 3 = Except.ok z ∧
      z.nn.bind (fun nn => nn.name) = some nm ∧
      tar_make_header ns_none z.nn_stat nm none none = Except.ok hdr ∧
      tarfs_sync_fs ns_none (state_of unlinked_y) = Except.ok (error_t.OK, s') ∧
      item_list s' = [0, 2] ∧
      (s'.items[1]?).map (fun it => it.freed) = some true ∧
      (s'.items[0]?).map (fun it => it.offset) = some 512 ∧
      (s'.items[2]?).map (fun it => it.offset) = some ((1024 + round_size 3 : Nat) : Int) ∧
      s'.tar_file = (state_of unlinked_y).tar_file.take (512 + round_size 3) ++ hdr
          ++ padded (((state_of unlinked_y).tar_file.drop
              (1536 + round_size 3 + round_size 1000)).take 600)
          ++ List.replicate 512 0
          ++ (if 1000 = 0 then (state_of unlinked_y).tar_file.drop
              (1536 + round_size 3 + round_size 600) else []) ∧
      s'.tar_file.length =
        (if 1000 = 0 then (state_of unlinked_y).tar_file.length
          else 2 * 512 + round_size 3 + round_size 600 + 512) :=
  ⟨by decide!, C30_unlink_then_sync ns_none (state_of unlinked_y) 0 1 2 1 3 3 1000 600 (by decide!)⟩

/-! ## Theorems: the item list the ingest builds -/

set_option maxRecDepth 100000 in
/-- C34 (placement of a new item), evaluated where it fails: in the root of a
writable mount dir_mkfile has made an anonymous node (node 1, no name, no
item), and then the node `a` (node 2) is created there.  The last entry of the
root other than `a` is the anonymous node; tar_put_item finds no item for it
and stops at `assert (NODE_INFO (last_entry)->tar)`, and so does the whole
tarfs_create_node. -/
theorem C34_put_item_after_anonymous_node :
    (put_item_after_anonymous,
      (do
        let s ← mount []
        let (_, _, s) ← tarfs_create_node s 0 none (S_IFREG ||| 0o644)
        let (e, n, _) ← tarfs_create_node s 0 (some [97]) (S_IFREG ||| 0o644)
        pure (e, n) : Run _))
      = (Except.ok ([(error_t.OK, some 1), (error_t.OK, some 2)], [none, some [97]],
          [some none, some (some 0)], 0, Except.error Crash.assertion),
        Except.error Crash.assertion) := by
  decide!

set_option maxRecDepth 100000 in
/-- C40 (a hard link's item follows its target's item), evaluated where it
fails: the mounted archive holds the directory `d` (node 1, item 0) and the
file `e` (node 2, item 1).  tarfs_link_node for the name `y` in `d` with the
target `e` gets from tar_put_item the item of `d`, which lies before the item
of `e`; the scan from the target's item does not meet it, `prev_tar` becomes
the new item itself, and tar_insert_item stops at `assert (prev != new)`.  A
link to `e` made in the root, where tar_put_item proposes the item of `e`,
succeeds and puts the new item after it. -/
theorem C40_link_placed_before_its_target :
    ((mount archive_d_e).map (fun s => (item_list s, s.nodes.map ptar)),
      (do
        let s ← mount archive_d_e
        let (e, _) ← tarfs_link_node s 1 2 [121] true
        pure e : Run _),
      (do
        let s ← mount archive_d_e
        let (e, s) ← tarfs_link_node s 0 2 [121] true
        pure (e, item_list s, s.nodes.map ptar) : Run _))
      = (Except.ok ([0, 1], [some none, some (some 0), some (some 1)]),
        Except.error Crash.assertion,
        Except.ok (error_t.OK, [0, 1, 2],
          [some none, some (some 0), some (some 1), some (some 2)])) := by
  decide!

/-! ## Theorems: sizes and contents kept by the cache -/

set_option maxRecDepth 100000 in
/-- C36 (a write never loses other data), evaluated where it fails: the file
`y` of the mounted archive has 1000 bytes of value 7 and no block in the
cache.  cache_write of the three bytes 1 2 3 at offset 0 returns 0 with three
bytes written, and the size of the file is then 3, not 1000: with no block
present `__cache_synced` holds and cache_write calls `__cache_set_size` with
the end of the written range.  The bytes from 3 on can no longer be read. -/
theorem C36_write_to_an_uncached_file :
    (do
      let s ← mount archive_x_y
      let y ← get_node s 2
      let info ← NODE_INFO s 2
      let (_, before) ← cache_read s 2 0 1000
      let (err, amount, s1) ← cache_write s 2 0 [1, 2, 3]
      let y1 ← get_node s1 2
      let (_, after) ← cache_read s1 2 0 1000
      pure (y.nn_stat.st_size, info.cache.blocks, before.length, before.drop 997,
        err, amount, y1.nn_stat.st_size, after) : Run _)
      = Except.ok (1000, [slot.null], 1000, [7, 7, 7], error_t.OK, 3, 3, [1, 2, 3]) := by
  decide!

set_option maxRecDepth 100000 in
/-- C37 (cache-ahead changes no size), evaluated where it fails: the file `y`
of the mounted archive has 1000 bytes and a block vector of one slot.
cache_cache with the amount 500 returns 0 and leaves the size 500: the block
count of the amount, 1, is not below the length of the vector, so
`__cache_set_size (node, amount)` is called.  cache_read of the whole file
returns 1000 bytes before the call and 500 after it. -/
theorem C37_cache_cache_of_a_part :
    (do
      let s ← mount archive_x_y
      let y ← get_node s 2
      let info ← NODE_INFO s 2
      let (_, before) ← cache_read s 2 0 1000
      let (err, s1) ← cache_cache s 2 500
      let y1 ← get_node s1 2
      let (_, after) ← cache_read s1 2 0 1000
      pure (y.nn_stat.st_size, info.cache.blocks.length, before.length, err,
        y1.nn_stat.st_size, after.length) : Run _)
      = Except.ok (1000, 1, 1000, error_t.OK, 500, 500) := by
  decide!

set_option maxRecDepth 100000 in
/-- C38 (extended regions read as zeros), evaluated where it fails.  The file
`x` of the mounted archive `x`, `y`, `z` has 3 bytes at the archive offset 512;
after cache_set_size has made it 600 bytes long, cache_read over `[3, 600)`
returns the bytes of the archive from 515 on, and the byte at file offset 512
is 121, the first byte of the header of `y`.  The file `y` has 1000 bytes of
value 7; after cache_set_size to 10 and then to 1000, cache_read over
`[10, 1000)` returns the old contents, all of value 7. -/
theorem C38_extended_file_reads_the_archive :
    (do
      let s ← mount archive_x_y_z
      let x ← get_node s 1
      let it ← node_tar s 1
      let (e1, s1) ← cache_set_size s 1 600
      let x1 ← get_node s1 1
      let (e2, rd) ← cache_read s1 1 3 597
      let (e3, s2) ← cache_set_size s 2 10
      let (e4, s3) ← cache_set_size s2 2 1000
      let (e5, rd2) ← cache_read s3 2 10 990
      pure ([e1, e2, e3, e4, e5], x.nn_stat.st_size, it.offset, x1.nn_stat.st_size, rd.length,
        (rd.drop 509).take 2, byte_at s.tar_file 1024, rd2.length, rd2.all (fun b => b == 7)) : Run _)
      = Except.ok ([error_t.OK, error_t.OK, error_t.OK, error_t.OK, error_t.OK], 3, 512, 600, 597,
          [121, 0], 121, 990, true) := by
  decide!

/-! ## Theorems: the compressed store -/

set_option maxRecDepth 1000000 in
/-- C31 (compressed-store read splitting), evaluated where it fails: the store
is opened on a file whose stream has two blocks, 8192 bytes of value 0 and 8192
bytes of value 1, and no block is cached.  One read of `[0, 16384)` returns 0
and 16384 bytes that are all 0: for the second block the read method seeks to
`offset`, the start of the whole range, again and reads the first block once
more.  The reads of `[0, 8192)` and of `[8192, 16384)` return 8192 bytes of
value 0 and 8192 bytes of value 1. -/
theorem C31_read_of_two_uncached_blocks :
    (do
      let z ← Zip.zip_open 100 10 two_blocks
      let (e, whole, _) ← Zip.read z 0 16384
      let (e1, first, z1) ← Zip.read z 0 8192
      let (e2, second, _) ← Zip.read z1 8192 8192
      pure (z.size, z.blocks, [e, e1, e2], whole.length, whole.all (fun b => b == 0),
        first.length, first.all (fun b => b == 0),
        second.length, second.all (fun b => b == 1)) : Run _)
      = Except.ok (16384, [none, none, none, none], [error_t.OK, error_t.OK, error_t.OK],
          16384, true, 8192, true, 8192, true) := by
  decide!

set_option maxRecDepth 1000000 in
/-- C33 (compressed sync emits the whole store), evaluated where it fails: the
store is opened writable (flags 0) on a file whose stream has 8192 bytes, and
8192 bytes of value 9 are written at offset 0, so that the size is 8192 and
block 0 is in the cache.  The sync hands one chunk to the compressor, and it is
empty: for the last block the amount is `store->size % CACHE_BLOCK_SIZE`, which
is 0.  With a stream of 10000 bytes the chunks have 8192 and 1808 bytes. -/
theorem C33_sync_of_a_whole_block :
    ((do
      let z ← Zip.zip_open 100 10 (List.replicate 8192 7)
      let (e, n, z) ← Zip.write z 0 (List.replicate 8192 9)
      let z1 ← Zip.sync z 0
      pure (z.size, z.blocks.map (fun b => b.map List.length), e, n, z1.taken) : Run _),
     (do
      let z ← Zip.zip_open 100 10 (List.replicate 10000 7)
      let (e, n, z) ← Zip.write z 0 [9, 9, 9]
      let z1 ← Zip.sync z 0
      pure (z.size, e, n, z1.taken.map List.length,
        z1.taken.map (fun l => l.take 4)) : Run _))
      = (Except.ok (8192, [some 8192, none], error_t.OK, 8192, [[]]),
         Except.ok (10000, error_t.OK, 3, [8192, 1808], [[9, 9, 9, 7], [7, 7, 7, 7]])) := by
  decide!

/-! ## Theorems: the header of a gzip file -/

set_option maxRecDepth 1000000 in
/-- C32 (gzip payload start), evaluated where it fails: the file of 200 bytes
has the magic, the method 8, the flag byte 4 (extra field) and the length bytes
`80 00` (XLEN = 128), followed by the 128 bytes of the field.  gzip_read_header
returns EIO instead of the payload start 140: it reads the length bytes through
a `char` pointer, the byte `80` counts as -128, `size` becomes 4294967168, and
the loop that skips the field runs to the end of the buffer, where read_next
finds less than a whole block.  With the length bytes `7f 00` the function
returns the payload start 139. -/
theorem C32_extra_field_of_128_bytes :
    ((gzip_file 4 ([0x80, 0] ++ List.replicate 128 0 ++ List.replicate 60 1)).length,
      gzip_read_header (gzip_file 4 ([0x80, 0] ++ List.replicate 128 0 ++ List.replicate 60 1)),
      gzip_read_header (gzip_file 4 ([0x7f, 0] ++ List.replicate 127 0 ++ List.replicate 60 1)))
      = (200, Except.ok (error_t.EIO, 10), Except.ok (error_t.OK, 139)) := by
  decide!

/-! ## Theorems: insertion into and removal from the item list -/

theorem linked_nil (s : tarfs) (pv cur : Option Nat) :
    linked s pv cur [] = true ↔ cur = none := by
  simp [linked]

theorem linked_cons (s : tarfs) (pv cur : Option Nat) (a : Nat) (l : List Nat) :
    linked s pv cur (a :: l) = true ↔
      cur = some a ∧ ∃ it, s.items[a]? = some it ∧ it.freed = false ∧ it.prev = pv ∧
        linked s (some a) it.next l = true := by
  cases hi : s.items[a]? with
  | none => simp [linked, hi]
  | some it =>
    simp only [linked, hi, Bool.and_eq_true, beq_iff_eq, Bool.not_eq_true', Option.some.injEq,
      exists_eq_left']
    tauto

theorem linked_frame (s s' : tarfs) (l : List Nat) :
    ∀ pv cur, (∀ a ∈ l, s'.items[a]? = s.items[a]?) → linked s' pv cur l = linked s pv cur l := by
  induction l with
  | nil => intro pv cur _; rfl
  | cons a l ih =>
    intro pv cur h
    have ha := h a (List.mem_cons_self _ _)
    simp only [linked, ha]
    cases s.items[a]? with
    | none => rfl
    | some it =>
      simp only
      rw [ih (some a) it.next (fun b hb => h b (List.mem_cons_of_mem _ hb))]

theorem linked_live (s : tarfs) (l : List Nat) :
    ∀ pv cur, linked s pv cur l = true → ∀ a ∈ l, ∃ it, s.items[a]? = some it ∧ it.freed = false := by
  induction l with
  | nil => intro _ _ _ a ha; cases ha
  | cons b l ih =>
    intro pv cur h a ha
    obtain ⟨_, it, hit, hfr, _, hrest⟩ := (linked_cons s pv cur b l).mp h
    rcases List.mem_cons.mp ha with rfl | ha
    · exact ⟨it, hit, hfr⟩
    · exact ih _ _ hrest a ha

theorem linked_next (s : tarfs) (t : Nat) (it : tar_item) (B : List Nat)
    (hit : s.items[t]? = some it) :
    ∀ A pv cur, linked s pv cur (A ++ t :: B) = true → it.next = B.head? := by
  intro A
  induction A with
  | nil =>
    intro pv cur h
    obtain ⟨_, it', hit', _, _, hrest⟩ := (linked_cons s pv cur t B).mp h
    rw [hit] at hit'
    injection hit' with hit'
    subst hit'
    cases B with
    | nil => exact (linked_nil s _ _).mp hrest
    | cons q B => exact ((linked_cons s _ _ q B).mp hrest).1
  | cons a A ih =>
    intro pv cur h
    obtain ⟨_, _, _, _, _, hrest⟩ := (linked_cons s pv cur a (A ++ t :: B)).mp h
    exact ih _ _ hrest

theorem linked_prev (s : tarfs) (t : Nat) (it : tar_item) (B : List Nat)
    (hit : s.items[t]? = some it) :
    ∀ A pv cur, linked s pv cur (A ++ t :: B) = true →
      it.prev = (match A.getLast? with | some x => some x | none => pv) := by
  intro A
  induction A with
  | nil =>
    intro pv cur h
    obtain ⟨_, it', hit', _, hpv, _⟩ := (linked_cons s pv cur t B).mp h
    rw [hit] at hit'
    injection hit' with hit'
    subst hit'
    exact hpv
  | cons a A ih =>
    intro pv cur h
    obtain ⟨_, _, _, _, _, hrest⟩ := (linked_cons s pv cur a (A ++ t :: B)).mp h
    rw [ih _ _ hrest]
    cases A with
    | nil => rfl
    | cons b A =>
      rw [List.getLast?_cons_cons]
      cases hg : (b :: A).getLast? with
      | none => simp at hg
      | some x => rfl

theorem linked_head (s : tarfs) (pv cur : Option Nat) (l : List Nat)
    (h : linked s pv cur l = true) : cur = l.head? := by
  cases l with
  | nil => exact (linked_nil s pv cur).mp h
  | cons a l => exact ((linked_cons s pv cur a l).mp h).1

theorem tar_insert_item_after (s : tarfs) (p new : Nat) (px nx : tar_item)
    (hp : s.items[p]? = some px) (hpf : px.freed = false)
    (hn : s.items[new]? = some nx) (hnf : nx.freed = false) (hne : p ≠ new)
    (hq : ∀ q, px.next = some q → q ≠ p ∧ q ≠ new ∧ ∃ qx, s.items[q]? = some qx ∧ qx.freed = false) :
    ∃ s', tar_insert_item s (some p) new = Except.ok (error_t.OK, s') ∧
      s'.tar_list = s.tar_list ∧
      s'.items[p]? = some { px with next := some new } ∧
      s'.items[new]? = some { nx with prev := some p, next := px.next } ∧
      (∀ q qx, px.next = some q → s.items[q]? = some qx →
        s'.items[q]? = some { qx with prev := some new }) ∧
      (∀ a, a ≠ p → a ≠ new → px.next ≠ some a → s'.items[a]? = s.items[a]?) := by
  obtain ⟨s1, hs1⟩ : ∃ s1, s1 = set_item s p { px with next := some new } := ⟨_, rfl⟩
  have h1n : s1.items[new]? = some nx := by
    rw [hs1, items_set_item_ne _ _ _ _ hne]; exact hn
  have h1p : s1.items[p]? = some { px with next := some new } := by
    rw [hs1]; exact items_set_item_self _ _ _ _ hp
  obtain ⟨s2, hs2⟩ : ∃ s2, s2 = set_item s1 new { nx with prev := some p, next := px.next } :=
    ⟨_, rfl⟩
  have h2n : s2.items[new]? = some { nx with prev := some p, next := px.next } := by
    rw [hs2]; exact items_set_item_self _ _ _ _ h1n
  have h2p : s2.items[p]? = some { px with next := some new } := by
    rw [hs2, items_set_item_ne _ _ _ _ (Ne.symm hne)]; exact h1p
  have h2a : ∀ a, a ≠ p → a ≠ new → s2.items[a]? = s.items[a]? := by
    intro a hap han
    rw [hs2, items_set_item_ne _ _ _ _ (Ne.symm han), hs1, items_set_item_ne _ _ _ _ (Ne.symm hap)]
  have hpn : ((some p : Option Nat) != some new) = true := by
    simp [hne]
  cases hnx : px.next with
  | none =>
    refine ⟨s2, ?_, ?_, h2p, ?_, ?_, ?_⟩
    · unfold tar_insert_item
      simp only [c_assert, hpn, get_item_of s p px hp hpf, bind, Except.bind, pure, Except.pure,
        if_true, hnx, ← hs1, get_item_of s1 new nx h1n hnf]
      rw [hs2, hnx]
    · rw [hs2, hs1]; rfl
    · rw [h2n, hnx]
    · intro q qx hc
      cases hc
    · intro a hap han _
      exact h2a a hap han
  | some q =>
    obtain ⟨hqp, hqn, qx, hqx, hqf⟩ := hq q hnx
    have h2q : s2.items[q]? = some qx := by rw [h2a q hqp hqn]; exact hqx
    refine ⟨set_item s2 q { qx with prev := some new }, ?_, ?_, ?_, ?_, ?_, ?_⟩
    · unfold tar_insert_item
      simp only [c_assert, hpn, get_item_of s p px hp hpf, bind, Except.bind, pure, Except.pure,
        if_true, hnx, ← hs1, get_item_of s1 new nx h1n hnf]
      rw [hnx] at hs2
      simp only [← hs2, get_item_of s2 q qx h2q hqf]
    · rw [hs2, hs1]; rfl
    · rw [items_set_item_ne _ _ _ _ hqp]; exact h2p
    · rw [items_set_item_ne _ _ _ _ hqn, h2n, hnx]
    · intro q' qx' hc hqx'
      injection hc with hc
      subst hc
      rw [hqx] at hqx'
      injection hqx' with hqx'
      subst hqx'
      exact items_set_item_self _ _ _ _ h2q
    · intro a hap han haq
      have : q ≠ a := fun hc => haq (by rw [hc])
      rw [items_set_item_ne _ _ _ _ this]
      exact h2a a hap han

theorem linked_insert (s s' : tarfs) (p new : Nat) (px nx : tar_item) (B : List Nat)
    (hp : s.items[p]? = some px) (hnf : nx.freed = false)
    (hnext : px.next = B.head?)
    (F1 : s'.items[p]? = some { px with next := some new })
    (F2 : s'.items[new]? = some { nx with prev := some p, next := px.next })
    (F3 : ∀ q qx, px.next = some q → s.items[q]? = some qx →
      s'.items[q]? = some { qx with prev := some new })
    (F4 : ∀ a, a ≠ p → a ≠ new → px.next ≠ some a → s'.items[a]? = s.items[a]?) :
    ∀ A pv cur, linked s pv cur (A ++ p :: B) = true → (A ++ p :: B).Nodup →
      new ∉ A ++ p :: B → linked s' pv cur (A ++ p :: new :: B) = true := by
  intro A
  induction A with
  | nil =>
    intro pv cur h hnd hnew
    simp only [List.nil_append] at h hnd hnew ⊢
    obtain ⟨hcur, px', hp', hpf, hpv, hrest⟩ := (linked_cons s pv cur p B).mp h
    rw [hp] at hp'
    injection hp' with hp'
    subst hp'
    rw [linked_cons]
    refine ⟨hcur, _, F1, hpf, hpv, ?_⟩
    rw [linked_cons]
    refine ⟨rfl, _, F2, hnf, rfl, ?_⟩
    simp only
    cases B with
    | nil =>
      rw [linked_nil] at hrest ⊢
      exact hrest
    | cons q B =>
      obtain ⟨hq, qx, hqx, hqf, hqp, hrest2⟩ := (linked_cons s _ _ q B).mp hrest
      rw [linked_cons]
      refine ⟨hq, _, F3 q qx hq hqx, hqf, rfl, ?_⟩
      simp only
      rw [linked_frame s s' B]
      · exact hrest2
      · intro a ha
        have hnd2 := List.nodup_cons.mp hnd
        have hnd3 := List.nodup_cons.mp hnd2.2
        apply F4
        · intro hc; subst hc; exact hnd2.1 (List.mem_cons_of_mem _ ha)
        · intro hc; subst hc; exact hnew (List.mem_cons_of_mem _ (List.mem_cons_of_mem _ ha))
        · rw [hq]
          intro hc
          injection hc with hc
          subst hc
          exact hnd3.1 ha
  | cons a A ih =>
    intro pv cur h hnd hnew
    simp only [List.cons_append] at h hnd hnew ⊢
    obtain ⟨hcur, ax, hax, haf, hpv, hrest⟩ := (linked_cons s pv cur a _).mp h
    have hnd2 := List.nodup_cons.mp hnd
    rw [linked_cons]
    have hsame : s'.items[a]? = s.items[a]? := by
      apply F4
      · intro hc; subst hc; exact hnd2.1 (by simp)
      · intro hc; subst hc; exact hnew (List.mem_cons_self _ _)
      · rw [hnext]
        intro hc
        have : a ∈ B := List.mem_of_mem_head? (Option.mem_def.mpr hc)
        exact hnd2.1 (by simp [this])
    refine ⟨hcur, ax, by rw [hsame]; exact hax, haf, hpv, ?_⟩
    exact ih _ _ hrest hnd2.2 (fun hc => hnew (List.mem_cons_of_mem _ hc))

theorem tar_unlink_item_safe_spec (s : tarfs) (t : Nat) (it : tar_item)
    (hit : s.items[t]? = some it) (hfr : it.freed = false) (hnode : it.node = none)
    (hhead : s.tar_list.isSome = true)
    (hp : ∀ p, it.prev = some p →
      p ≠ t ∧ it.next ≠ some p ∧ ∃ px, s.items[p]? = some px ∧ px.freed = false)
    (hq : ∀ q, it.next = some q → q ≠ t ∧ ∃ qx, s.items[q]? = some qx ∧ qx.freed = false) :
    ∃ s', tar_unlink_item_safe s t = Except.ok s' ∧
      (it.prev = none → s'.tar_list = it.next) ∧ (it.prev ≠ none → s'.tar_list = s.tar_list) ∧
      (∀ p px, it.prev = some p → s.items[p]? = some px →
        s'.items[p]? = some { px with next := it.next }) ∧
      (∀ q qx, it.next = some q → s.items[q]? = some qx →
        s'.items[q]? = some { qx with prev := it.prev }) ∧
      (∀ a, a ≠ t → it.prev ≠ some a → it.next ≠ some a → s'.items[a]? = s.items[a]?) := by
  cases hpv : it.prev with
  | none =>
    obtain ⟨s0, hs0⟩ : ∃ s0 : tarfs, s0 = { s with tar_list := it.next } := ⟨_, rfl⟩
    have h0 : s0.items = s.items := by rw [hs0]
    cases hnx : it.next with
    | none =>
      refine ⟨set_item s0 t { it with freed := true }, ?_, ?_, ?_, ?_, ?_, ?_⟩
      · unfold tar_unlink_item_safe
        simp only [get_item_of s t it hit hfr, c_assert, hnode, hhead, hpv, hnx, bind, Except.bind,
          pure, Except.pure, if_true, Option.isNone_none]
        rw [hnx] at hs0
        simp only [← hs0, get_item_of s0 t it (by rw [h0]; exact hit) hfr]
        simp only [hnode, hpv, hnx]
      · intro _; rw [hs0]; simp [set_item, hnx]
      · intro hc; exact absurd rfl hc
      · intro p px hc; cases hc
      · intro q qx hc; cases hc
      · intro a hat _ _
        rw [items_set_item_ne _ _ _ _ (Ne.symm hat), h0]
    | some q =>
      obtain ⟨hqt, qx, hqx, hqf⟩ := hq q hnx
      obtain ⟨s1, hs1⟩ : ∃ s1, s1 = set_item s0 q { qx with prev := none } := ⟨_, rfl⟩
      have h1t : s1.items[t]? = some it := by
        rw [hs1, items_set_item_ne _ _ _ _ hqt, h0]; exact hit
      refine ⟨set_item s1 t { it with freed := true }, ?_, ?_, ?_, ?_, ?_, ?_⟩
      · unfold tar_unlink_item_safe
        simp only [get_item_of s t it hit hfr, c_assert, hnode, hhead, hpv, hnx, bind, Except.bind,
          pure, Except.pure, if_true, Option.isNone_none]
        rw [hnx] at hs0
        simp only [← hs0, get_item_of s0 q qx (by rw [h0]; exact hqx) hqf, ← hs1,
          get_item_of s1 t it h1t hfr]
        simp only [hnode, hpv, hnx]
      · intro _; rw [hs1, hs0]; simp [set_item, hnx]
      · intro hc; exact absurd rfl hc
      · intro p px hc; cases hc
      · intro q' qx' hc hqx'
        injection hc with hc
        subst hc
        rw [hqx] at hqx'
        injection hqx' with hqx'
        subst hqx'
        rw [items_set_item_ne _ _ _ _ (Ne.symm hqt), hs1]
        exact items_set_item_self _ _ _ _ (by rw [h0]; exact hqx)
      · intro a hat _ haq
        have : q ≠ a := fun hc => haq (by rw [hc])
        rw [items_set_item_ne _ _ _ _ (Ne.symm hat), hs1, items_set_item_ne _ _ _ _ this, h0]
  | some p =>
    obtain ⟨hpt, hpq, px, hpx, hpf⟩ := hp p hpv
    obtain ⟨s1, hs1⟩ : ∃ s1, s1 = set_item s p { px with next := it.next } := ⟨_, rfl⟩
    have h1p : s1.items[p]? = some { px with next := it.next } := by
      rw [hs1]; exact items_set_item_self _ _ _ _ hpx
    have h1a : ∀ a, a ≠ p → s1.items[a]? = s.items[a]? := by
      intro a hap
      rw [hs1, items_set_item_ne _ _ _ _ (Ne.symm hap)]
    cases hnx : it.next with
    | none =>
      refine ⟨set_item s1 t { it with freed := true }, ?_, ?_, ?_, ?_, ?_, ?_⟩
      · unfold tar_unlink_item_safe
        simp only [get_item_of s t it hit hfr, c_assert, hnode, hhead, hpv, hnx, bind, Except.bind,
          pure, Except.pure, if_true, Option.isNone_none, get_item_of s p px hpx hpf]
        rw [hnx] at hs1
        simp only [← hs1, get_item_of s1 t it (by rw [h1a t (Ne.symm hpt)]; exact hit) hfr]
        simp only [hnode, hpv, hnx]
      · intro hc; cases hc
      · intro _; rw [hs1]; rfl
      · intro p' px' hc hpx'
        injection hc with hc
        subst hc
        rw [hpx] at hpx'
        injection hpx' with hpx'
        subst hpx'
        rw [items_set_item_ne _ _ _ _ (Ne.symm hpt), h1p, hnx]
      · intro q qx hc; cases hc
      · intro a hat hap _
        have : a ≠ p := fun hc => hap (by rw [hc])
        rw [items_set_item_ne _ _ _ _ (Ne.symm hat), h1a a this]
    | some q =>
      obtain ⟨hqt, qx, hqx, hqf⟩ := hq q hnx
      have hqp : q ≠ p := fun hc => hpq (by rw [hnx, hc])
      obtain ⟨s2, hs2⟩ : ∃ s2, s2 = set_item s1 q { qx with prev := some p } := ⟨_, rfl⟩
      have h1q : s1.items[q]? = some qx := by rw [h1a q hqp]; exact hqx
      have h2t : s2.items[t]? = some it := by
        rw [hs2, items_set_item_ne _ _ _ _ hqt, h1a t (Ne.symm hpt)]; exact hit
      refine ⟨set_item s2 t { it with freed := true }, ?_, ?_, ?_, ?_, ?_, ?_⟩
      · unfold tar_unlink_item_safe
        simp only [get_item_of s t it hit hfr, c_assert, hnode, hhead, hpv, hnx, bind, Except.bind,
          pure, Except.pure, if_true, Option.isNone_none, get_item_of s p px hpx hpf]
        rw [hnx] at hs1
        simp only [← hs1, get_item_of s1 q qx h1q hqf, ← hs2, get_item_of s2 t it h2t hfr]
        simp only [hnode, hpv, hnx]
      · intro hc; cases hc
      · intro _; rw [hs2, hs1]; rfl
      · intro p' px' hc hpx'
        injection hc with hc
        subst hc
        rw [hpx] at hpx'
        injection hpx' with hpx'
        subst hpx'
        rw [items_set_item_ne _ _ _ _ (Ne.symm hpt), hs2, items_set_item_ne _ _ _ _ hqp, h1p, hnx]
      · intro q' qx' hc hqx'
        injection hc with hc
        subst hc
        rw [hqx] at hqx'
        injection hqx' with hqx'
        subst hqx'
        rw [items_set_item_ne _ _ _ _ (Ne.symm hqt), hs2]
        exact items_set_item_self _ _ _ _ h1q
      · intro a hat hap haq
        have h1 : a ≠ p := fun hc => hap (by rw [hc])
        have h2 : q ≠ a := fun hc => haq (by rw [hc])
        rw [items_set_item_ne _ _ _ _ (Ne.symm hat), hs2, items_set_item_ne _ _ _ _ h2, h1a a h1]

theorem linked_remove (s s' : tarfs) (t : Nat) (it : tar_item) (B : List Nat)
    (hit : s.items[t]? = some it)
    (U2 : ∀ q qx, it.next = some q → s.items[q]? = some qx →
      s'.items[q]? = some { qx with prev := it.prev })
    (U1 : ∀ p px, it.prev = some p → s.items[p]? = some px →
      s'.items[p]? = some { px with next := it.next })
    (U3 : ∀ a, a ≠ t → it.prev ≠ some a → it.next ≠ some a → s'.items[a]? = s.items[a]?) :
    ∀ A pv cur, linked s pv cur (A ++ t :: B) = true → (A ++ t :: B).Nodup →
      (∀ x, pv = some x → x ∉ A ++ t :: B) →
      linked s' pv (if A = [] then it.next else cur) (A ++ B) = true := by
  intro A
  induction A with
  | nil =>
    intro pv cur h hnd hpv
    simp only [List.nil_append, if_true] at h hnd hpv ⊢
    obtain ⟨_, it', hit', _, hprev, hrest⟩ := (linked_cons s pv cur t B).mp h
    rw [hit] at hit'
    injection hit' with hit'
    subst hit'
    cases B with
    | nil =>
      rw [linked_nil] at hrest ⊢
      exact hrest
    | cons q B =>
      obtain ⟨hq, qx, hqx, hqf, _, hrest2⟩ := (linked_cons s _ _ q B).mp hrest
      have hnd2 := List.nodup_cons.mp hnd
      have hnd3 := List.nodup_cons.mp hnd2.2
      rw [linked_cons]
      refine ⟨hq, _, U2 q qx hq hqx, hqf, hprev, ?_⟩
      simp only
      rw [linked_frame s s' B]
      · exact hrest2
      · intro a ha
        apply U3
        · intro hc; subst hc; exact hnd2.1 (List.mem_cons_of_mem _ ha)
        · rw [hprev]
          intro hc
          exact hpv a hc (List.mem_cons_of_mem _ (List.mem_cons_of_mem _ ha))
        · rw [hq]
          intro hc
          injection hc with hc
          subst hc
          exact hnd3.1 ha
  | cons a A ih =>
    intro pv cur h hnd hpv
    simp only [List.cons_append, List.cons_ne_nil, if_false] at h hnd hpv ⊢
    obtain ⟨hcur, ax, hax, haf, hprev, hrest⟩ := (linked_cons s pv cur a _).mp h
    have hnd2 := List.nodup_cons.mp hnd
    have hnext := linked_next s t it B hit A _ _ hrest
    have hitprev := linked_prev s t it B hit A _ _ hrest
    have hIH := ih (some a) ax.next hrest hnd2.2 (fun x hx => by
      injection hx with hx
      subst hx
      exact hnd2.1)
    rw [linked_cons]
    cases A with
    | nil =>
      simp only [List.getLast?_nil] at hitprev
      simp only [if_true, List.nil_append] at hIH ⊢
      exact ⟨hcur, _, U1 a ax hitprev hax, haf, hprev, hIH⟩
    | cons b A =>
      simp only [List.cons_ne_nil, if_false] at hIH
      have hsame : s'.items[a]? = s.items[a]? := by
        apply U3
        · intro hc; subst hc; exact hnd2.1 (by simp)
        · rw [hitprev]
          cases hg : (b :: A).getLast? with
          | none => simp at hg
          | some x =>
            simp only
            intro hc
            injection hc with hc
            subst hc
            have : x ∈ b :: A := List.mem_of_mem_getLast? (Option.mem_def.mpr hg)
            exact hnd2.1 (List.mem_append_left _ this)
        · rw [hnext]
          intro hc
          have : a ∈ B := List.mem_of_mem_head? (Option.mem_def.mpr hc)
          exact hnd2.1 (by simp [this])
      exact ⟨hcur, ax, by rw [hsame]; exact hax, haf, hprev, hIH⟩

/-- C35, the part that holds.  The item list is well formed and holds the
items `l`, and `new` is a live item that is not in it.  Then tar_insert_item
with an item `p` of the list as `prev` returns 0 and puts `new` right after
`p`; with `prev = NULL` it returns 0 and makes `new` the only item of an empty
list, and puts it right after the head of a list that is not empty; and
tar_unlink_item_safe for an item of the list whose node is gone returns and
takes exactly this item out.  In each case the other items keep their order
and the list is well formed again. -/
theorem C35_insert_and_unlink_keep_the_list (s : tarfs) (l : List Nat) (new : Nat) (nx : tar_item)
    (hl : list_is s l) (hnew : new ∉ l) (hn : s.items[new]? = some nx)
    (hnf : nx.freed = false) :
    (∀ A p B, l = A ++ p :: B →
      ∃ s', tar_insert_item s (some p) new = Except.ok (error_t.OK, s') ∧
        list_is s' (A ++ p :: new :: B)) ∧
    (∃ s', tar_insert_item s none new = Except.ok (error_t.OK, s') ∧
      list_is s' (l.take 1 ++ new :: l.drop 1)) ∧
    (∀ A t B it, l = A ++ t :: B → s.items[t]? = some it → it.node = none →
      ∃ s', tar_unlink_item_safe s t = Except.ok s' ∧ list_is s' (A ++ B)) := by
  obtain ⟨hlk, hnd⟩ := hl
  have hafter : ∀ A p B, l = A ++ p :: B →
      ∃ s', tar_insert_item s (some p) new = Except.ok (error_t.OK, s') ∧
        list_is s' (A ++ p :: new :: B) := by
    intro A p B hAB
    subst hAB
    obtain ⟨px, hpx, hpf⟩ := linked_live s _ _ _ hlk p (by simp)
    have hne : p ≠ new := fun hc => hnew (by rw [← hc]; simp)
    have hnext := linked_next s p px B hpx A _ _ hlk
    have hndB : (p :: B).Nodup := (List.nodup_append.mp hnd).2.1
    have hq : ∀ q, px.next = some q →
        q ≠ p ∧ q ≠ new ∧ ∃ qx, s.items[q]? = some qx ∧ qx.freed = false := by
      intro q hq
      rw [hnext] at hq
      have hqB : q ∈ B := List.mem_of_mem_head? (Option.mem_def.mpr hq)
      refine ⟨?_, ?_, linked_live s _ _ _ hlk q (by simp [hqB])⟩
      · intro hc; subst hc; exact (List.nodup_cons.mp hndB).1 hqB
      · intro hc; subst hc; exact hnew (by simp [hqB])
    obtain ⟨s', hcall, htl, F1, F2, F3, F4⟩ :=
      tar_insert_item_after s p new px nx hpx hpf hn hnf hne hq
    refine ⟨s', hcall, ?_, ?_⟩
    · rw [htl]
      exact linked_insert s s' p new px nx B hpx hnf hnext F1 F2 F3 F4 A _ _ hlk hnd hnew
    · have hperm : (A ++ p :: new :: B).Perm (new :: (A ++ p :: B)) := by
        have := @List.perm_middle _ new (A ++ [p]) B
        simpa using this
      rw [hperm.nodup_iff]
      exact List.nodup_cons.mpr ⟨hnew, hnd⟩
  refine ⟨hafter, ?_, ?_⟩
  · cases l with
    | nil =>
      have htl : s.tar_list = none := (linked_nil s _ _).mp hlk
      refine ⟨set_item { s with tar_list := some new } new { nx with prev := none, next := none },
        ?_, ?_, List.nodup_singleton _⟩
      · unfold tar_insert_item
        simp only [c_assert, htl, bind, Except.bind, pure, Except.pure, bne_iff_ne, ne_eq,
          not_false_eq_true, if_true, reduceCtorEq]
        rw [get_item_of { s with tar_list := some new } new nx hn hnf]
      · simp only [List.take_nil, List.drop_nil, List.nil_append]
        rw [linked_cons]
        refine ⟨rfl, _, items_set_item_self _ _ _ _ hn, hnf, rfl, ?_⟩
        simp only
        rw [linked_nil]
    | cons h B =>
      have htl : s.tar_list = some h := ((linked_cons s _ _ h B).mp hlk).1
      obtain ⟨s', hcall, hlist⟩ := hafter [] h B rfl
      refine ⟨s', ?_, hlist⟩
      rw [← hcall]
      have hne : h ≠ new := fun hc => hnew (by rw [← hc]; simp)
      unfold tar_insert_item
      simp [c_assert, htl, hne]
  · intro A t B it hAB hit hnode
    subst hAB
    obtain ⟨it', hit', hfr⟩ := linked_live s _ _ _ hlk t (by simp)
    rw [hit] at hit'
    injection hit' with hit'
    subst hit'
    have hnext := linked_next s t it B hit A _ _ hlk
    have hprev := linked_prev s t it B hit A _ _ hlk
    have hndB : (t :: B).Nodup := (List.nodup_append.mp hnd).2.1
    have hdisj := (List.nodup_append.mp hnd).2.2
    have hhead : s.tar_list.isSome = true := by
      rw [linked_head s _ _ _ hlk]
      cases A <;> rfl
    have hp : ∀ p, it.prev = some p →
        p ≠ t ∧ it.next ≠ some p ∧ ∃ px, s.items[p]? = some px ∧ px.freed = false := by
      intro p hp
      rw [hprev] at hp
      cases hg : A.getLast? with
      | none => rw [hg] at hp; cases hp
      | some x =>
        rw [hg] at hp
        simp only [Option.some.injEq] at hp
        subst hp
        have hxA : x ∈ A := List.mem_of_mem_getLast? (Option.mem_def.mpr hg)
        refine ⟨?_, ?_, linked_live s _ _ _ hlk x (by simp [hxA])⟩
        · intro hc; subst hc; exact hdisj hxA (List.mem_cons_self _ _)
        · rw [hnext]
          intro hc
          have : x ∈ B := List.mem_of_mem_head? (Option.mem_def.mpr hc)
          exact hdisj hxA (List.mem_cons_of_mem _ this)
    have hq : ∀ q, it.next = some q → q ≠ t ∧ ∃ qx, s.items[q]? = some qx ∧ qx.freed = false := by
      intro q hq
      rw [hnext] at hq
      have hqB : q ∈ B := List.mem_of_mem_head? (Option.mem_def.mpr hq)
      refine ⟨?_, linked_live s _ _ _ hlk q (by simp [hqB])⟩
      intro hc; subst hc; exact (List.nodup_cons.mp hndB).1 hqB
    obtain ⟨s', hcall, T1, T2, U1, U2, U3⟩ :=
      tar_unlink_item_safe_spec s t it hit hfr hnode hhead hp hq
    refine ⟨s', hcall, ?_, ?_⟩
    · have hrem := linked_remove s s' t it B hit U2 U1 U3 A none s.tar_list hlk hnd
        (fun x hx => by cases hx)
      cases A with
      | nil =>
        simp only [if_true, List.nil_append] at hrem ⊢
        simp only [List.getLast?_nil] at hprev
        rw [T1 hprev]
        exact hrem
      | cons a A =>
        simp only [List.cons_ne_nil, if_false] at hrem
        have hne : it.prev ≠ none := by
          rw [hprev]
          cases hg : (a :: A).getLast? with
          | none => simp at hg
          | some x => simp
        rw [T2 hne]
        exact hrem
    · exact (List.nodup_append.mpr ⟨(List.nodup_append.mp hnd).1, (List.nodup_cons.mp hndB).2,
        fun x hxA hxB => hdisj hxA (List.mem_cons_of_mem _ hxB)⟩)

set_option maxRecDepth 100000 in
/-- C35 where it fails: the list holds the items 0, 1, 2 and item 3 is new.
tar_insert_item with `prev = NULL` returns 0 and leaves the list 0, 3, 1, 2:
the head is still item 0, and the new item comes right after it. -/
theorem C35_insert_with_null_prev :
    (do
      let s ← list_with_new_item
      let (e, s') ← tar_insert_item s none 3
      pure (s.tar_list, item_list s, e, s'.tar_list, item_list s') : Run _)
      = Except.ok (some 0, [0, 1, 2], error_t.OK, some 0, [0, 3, 1, 2]) := by
  decide!

set_option maxRecDepth 100000 in
/-- C35 at the mounted archive `x`, `y`, `z` whose file `y` was unlinked: the
list holds the items 0, 1, 2, item 1 has no node, and item 3 is new. -/
theorem C35_insert_and_unlink_keep_the_list_witness :
    list_is (state_of list_with_new_item) [0, 1, 2] ∧ 3 ∉ [0, 1, 2] ∧
    (state_of list_with_new_item).items[3]? =
      some { offset := -1, orig_size := 0, node := some 3, prev := none, next := none,
             freed := false } ∧
    ((∀ A p B, [0, 1, 2] = A ++ p :: B →
      ∃ s', tar_insert_item (state_of list_with_new_item) (some p) 3 = Except.ok (error_t.OK, s') ∧
        list_is s' (A ++ p :: 3 :: B)) ∧
    (∃ s', tar_insert_item (state_of list_with_new_item) none 3 = Except.ok (error_t.OK, s') ∧
      list_is s' ([0, 1, 2].take 1 ++ 3 :: [0, 1, 2].drop 1)) ∧
    (∀ A t B it, [0, 1, 2] = A ++ t :: B → (state_of list_with_new_item).items[t]? = some it →
      it.node = none →
      ∃ s', tar_unlink_item_safe (state_of list_with_new_item) t = Except.ok s' ∧
        list_is s' (A ++ B))) := by
  have h1 : list_is (state_of list_with_new_item) [0, 1, 2] := ⟨by decide!, by decide⟩
  have h2 : (state_of list_with_new_item).items[3]? =
      some { offset := -1, orig_size := 0, node := some 3, prev := none, next := none,
             freed := false } := by decide!
  exact ⟨h1, by decide, h2,
    C35_insert_and_unlink_keep_the_list (state_of list_with_new_item) [0, 1, 2] 3 _ h1
      (by decide) h2 rfl⟩

/-! ## Theorems: the sync of an unmodified mount -/

end Tarfs
